import Mathlib

/-!
# Eclipse program launcher (`eclipse.c`): a shallow embedding

Source: `bundles/org.eclipse.equinox.executable/library/eclipse.c`.

Conventions of the embedding

* A C string (`_TCHAR*`, non-NULL) is a `Str`, the list of its characters; a pointer that
  may be NULL is an `Option Str`.
* A C array of string pointers (`_TCHAR**`) is a `List (Option Str)` holding its physical
  slots; the sentinel-terminated array of the tokens `ts` is `sentinel ts`.
* C `int` variables are `Int` where the code decrements them or starts them below zero, and
  `Nat` where they only count upward from 0; no value comes near the range limits.
* Global variables of the translation unit are the fields of `Globals`.
* The collaborators that are not part of `eclipse.c` (process creation, shared memory, message
  display, file system, path search) appear as explicit parameters or as logged events.
-/

namespace Eclipse

/-! ## Strings -/

/-- Contents of a non-NULL C string. -/
abbrev Str := List Char

/-- Truth of `_tcsicmp(a, b) == 0`: equality of two strings ignoring (ASCII) letter case. -/
def tcsicmpEq (a b : Str) : Bool :=
  a.map Char.toLower == b.map Char.toLower

/-- Truth of `_tcscmp(a, b) == 0`: exact equality of two strings. -/
def tcscmpEq (a b : Str) : Bool :=
  a == b

/-- Truth of `_tcsncmp(a, b, _tcslen(b)) == 0`: the string `a` begins with `b`. -/
def tcsncmpEq (a b : Str) : Bool :=
  b.isPrefixOf a

/-- Truth of `s[0] == c` for a non-NULL string `s` (the terminating NUL is never `c`). -/
def firstCharIs (s : Str) (c : Char) : Bool :=
  s.head? == some c

/-- Result of `_tcsstr(hay, needle)`: the offset of the first occurrence of `needle` in `hay`,
or `none` for the NULL result. -/
def tcsstr (needle : Str) : Str → Option Nat
  | [] => if needle.isPrefixOf [] then some 0 else none
  | c :: hay =>
    if needle.isPrefixOf (c :: hay) then some 0
    else (tcsstr needle hay).map (· + 1)

/-- Sentinel-terminated array holding exactly the tokens `ts` followed by one NULL slot. -/
def sentinel (ts : List Str) : List (Option Str) :=
  ts.map some ++ [none]

/-- Tokens of a sentinel-terminated array: the entries before the first NULL slot. -/
def tokens : List (Option Str) → List Str
  | [] => []
  | none :: _ => []
  | some t :: rest => t :: tokens rest

/-! ## Constants of `eclipse.c` -/

def RESTART_LAST_EC : Int := 23
def RESTART_NEW_EC : Int := 24

def exitMsgHead : Str := "JVM terminated. Exit code=".toList
def shareMsg : Str := "No exit data available.".toList

def DEFAULT_STARTUP : Str := "startup.jar".toList
def CLASSPATH_PREFIX : Str := "-Djava.class.path=".toList

def CONSOLE : Str := "-console".toList
def CONSOLELOG : Str := "-consoleLog".toList
def DEBUG : Str := "-debug".toList
def OS : Str := "-os".toList
def OSARCH : Str := "-arch".toList
def NOSPLASH : Str := "-nosplash".toList
def LAUNCHER : Str := "-launcher".toList
def SHOWSPLASH : Str := "-showsplash".toList
def EXITDATA : Str := "-exitdata".toList
def STARTUP : Str := "-startup".toList
def LIBRARY : Str := "-library".toList
def VM : Str := "-vm".toList
def WS : Str := "-ws".toList
def NAME : Str := "-name".toList
def VMARGS : Str := "-vmargs".toList
def JAR : Str := "-jar".toList

/-! ## Global data -/

/-- Global variables read or written by the functions modelled here.  `osArg`, `wsArg`,
`osArchArg` and `officialName` are defined by the platform layer and only used here. -/
structure Globals where
  program : Option Str := none
  programDir : Option Str := none
  javaVM : Option Str := none
  jniLib : Option Str := none
  jarFile : Option Str := none
  sharedID : Option Str := none
  exitData : Option Str := none
  initialArgc : Int := 0
  initialArgv : List (Option Str) := []
  needConsole : Bool := false
  debug : Bool := false
  noSplash : Bool := false
  showSplashArg : Option Str := none
  startupArg : Option Str := none
  vmName : Option Str := none
  name : Option Str := none
  library : Option Str := none
  cp : Option Str := none
  cpValue : Option Str := none
  userVMarg : Option (List Str) := none
  osArg : Option Str := none
  wsArg : Option Str := none
  osArchArg : Option Str := none
  officialName : Option Str := none
  deriving DecidableEq, Repr

/-- Variables an option can store its value in (the `value` column of the option table). -/
inductive ValueVar where
  | osArg | osArchArg | showSplashArg | startupArg | vmName | name | wsArg
  deriving DecidableEq, Repr

/-- Variables an option can set to 1 (the `flag` column of the option table). -/
inductive FlagVar where
  | needConsole | debug | noSplash
  deriving DecidableEq, Repr

/-- Read of `*v` for a value variable. -/
def ValueVar.get (g : Globals) : ValueVar → Option Str
  | .osArg => g.osArg
  | .osArchArg => g.osArchArg
  | .showSplashArg => g.showSplashArg
  | .startupArg => g.startupArg
  | .vmName => g.vmName
  | .name => g.name
  | .wsArg => g.wsArg

/-- Assignment `*v = p` for a value variable. -/
def ValueVar.set (g : Globals) (p : Option Str) : ValueVar → Globals
  | .osArg => { g with osArg := p }
  | .osArchArg => { g with osArchArg := p }
  | .showSplashArg => { g with showSplashArg := p }
  | .startupArg => { g with startupArg := p }
  | .vmName => { g with vmName := p }
  | .name => { g with name := p }
  | .wsArg => { g with wsArg := p }

/-- Read of `*f` for a flag variable. -/
def FlagVar.get (g : Globals) : FlagVar → Bool
  | .needConsole => g.needConsole
  | .debug => g.debug
  | .noSplash => g.noSplash

/-- Assignment `*f = 1` for a flag variable. -/
def FlagVar.set1 (g : Globals) : FlagVar → Globals
  | .needConsole => { g with needConsole := true }
  | .debug => { g with debug := true }
  | .noSplash => { g with noSplash := true }

/-- Entry of the option table (the C struct `Option`). -/
structure LauncherOption where
  name : Str
  value : Option ValueVar
  flag : Option FlagVar
  remove : Int
  deriving DecidableEq, Repr

/-- The table `options[]`. -/
def options : List LauncherOption :=
  [ ⟨CONSOLE, none, some .needConsole, 0⟩,
    ⟨CONSOLELOG, none, some .needConsole, 0⟩,
    ⟨DEBUG, none, some .debug, 0⟩,
    ⟨NOSPLASH, none, some .noSplash, 1⟩,
    ⟨LIBRARY, none, none, 2⟩,
    ⟨OS, some .osArg, none, 2⟩,
    ⟨OSARCH, some .osArchArg, none, 2⟩,
    ⟨SHOWSPLASH, some .showSplashArg, none, 2⟩,
    ⟨STARTUP, some .startupArg, none, 2⟩,
    ⟨VM, some .vmName, none, 2⟩,
    ⟨NAME, some .name, none, 2⟩,
    ⟨WS, some .wsArg, none, 2⟩ ]

/-! ## Arrays -/

/-- Read of `a[i]`; a slot outside the array reads as NULL. -/
def rd (a : List (Option Str)) (i : Int) : Option Str :=
  if i < 0 then none else a.getD i.toNat none

/-- Write `a[i] = p`; a slot outside the array is not written. -/
def wr (a : List (Option Str)) (i : Int) (p : Option Str) : List (Option Str) :=
  if i < 0 then a else a.set i.toNat p

/-! ## `parseArgs` -/

/-- State of the scan in `parseArgs`: the loop index, `*pArgc`, the array `argv` and the
global variables the option table points into. -/
structure ParseState where
  index : Int
  argc : Int
  argv : List (Option Str)
  g : Globals
  deriving DecidableEq, Repr

/-- The inner search loop of `parseArgs`: the first table entry whose name equals the token
ignoring case, or `none` when the loop leaves `option == NULL`. -/
def findOption (arg : Option Str) : Option LauncherOption :=
  match arg with
  | none => none
  | some a => options.find? (fun o => tcsicmpEq a o.name)

/-- The removal loop `for (i = index + remArgs; i <= *pArgc; i++) argv[i - remArgs] = argv[i]`. -/
def shiftArgs (argv : List (Option Str)) (index remArgs argc : Int) : List (Option Str) :=
  ((List.range (argc + 1 - (index + remArgs)).toNat).map
      (fun (k : Nat) => index + remArgs + (k : Int))).foldl
    (fun a i => wr a (i - remArgs) (rd a i)) argv

/-- One pass through the body of the `for` loop of `parseArgs`, followed by its `index++`. -/
def parseArgsStep (s : ParseState) : ParseState :=
  match findOption (rd s.argv s.index) with
  | none => { s with index := s.index + 1 }
  | some option =>
    -- If the option requires a value and there is one, extract the value.
    let g1 : Globals :=
      match option.value with
      | some v => if s.index + 1 < s.argc then v.set s.g (rd s.argv (s.index + 1)) else s.g
      | none => s.g
    -- If the option requires a flag to be set, set it.
    let g2 : Globals :=
      match option.flag with
      | some f => f.set1 g1
      | none => g1
    let remArgs := option.remove
    -- Remove any matched arguments from the list.
    if 0 < remArgs then
      { index := s.index - 1 + 1
        argc := s.argc - remArgs
        argv := shiftArgs s.argv s.index remArgs s.argc
        g := g2 }
    else
      { s with index := s.index + 1, g := g2 }

/-- The `for` loop of `parseArgs`, run for at most `fuel` passes. -/
def parseArgsLoop : Nat → ParseState → ParseState
  | 0, s => s
  | fuel + 1, s => if s.index < s.argc then parseArgsLoop fuel (parseArgsStep s) else s

/-- The function `parseArgs( int* pArgc, _TCHAR* argv[] )`.  Every pass either advances
`index` or lowers `*pArgc`, so `argc` passes are enough (`parseArgs_exits`). -/
def parseArgs (argc : Int) (argv : List (Option Str)) (g : Globals) : ParseState :=
  parseArgsLoop argc.toNat { index := 1, argc := argc, argv := argv, g := g }

/-- The states at which the body of the `for` loop of `parseArgs` is entered, in order. -/
def parseArgsVisits : Nat → ParseState → List ParseState
  | 0, _ => []
  | fuel + 1, s => if s.index < s.argc then s :: parseArgsVisits fuel (parseArgsStep s) else []

/-- The option matched by the pass that starts in state `s`, if any. -/
def matchedOption (s : ParseState) : Option LauncherOption :=
  findOption (rd s.argv s.index)

/-- The token after the one examined in state `s`, when there is one within `argc`. -/
def followingToken (s : ParseState) : Option Str :=
  if s.index + 1 < s.argc then rd s.argv (s.index + 1) else none

/-- The argument list a caller sees after `parseArgs`: `argv[0 .. argc-1]`. -/
def ParseState.args (s : ParseState) : List (Option Str) :=
  s.argv.take s.argc.toNat

/-! ## `parseArgList` -/

/-- Result of `_tcschr(s, c)`: the offset of the first `c` in `s`, or `none` for NULL. -/
def tcschr (c : Char) : Str → Option Nat
  | [] => none
  | d :: s => if d = c then some 0 else (tcschr c s).map (· + 1)

/-- The filling loop of `parseArgList`, started with `ch1` pointing at the string `rest`:
every line-feed ends an argument, and what is left after the last line-feed is an argument
when `ch1 != data + length`, that is when it is not empty. -/
def parseArgListLoop : Nat → Str → List Str
  | 0, _ => []
  | fuel + 1, rest =>
    match tcschr '\n' rest with
    | some k => rest.take k :: parseArgListLoop fuel (rest.drop (k + 1))
    | none => if rest ≠ [] then [rest] else []

/-- The arguments `parseArgList( data )` stores, in order. -/
def parseArgListTokens (data : Str) : List Str :=
  parseArgListLoop (data.length + 1) data

/-- The function `parseArgList( _TCHAR* data )`: an array of `totalArgs + 1` slots holding
the arguments and the closing NULL. -/
def parseArgList (data : Str) : List (Option Str) :=
  sentinel (parseArgListTokens data)

/-! ## `getVMCommand` and `buildLaunchCommand` -/

/-- The values `*reqVMarg[0]`, `*reqVMarg[1]` of the table `reqVMarg[] = { &cp, &cpValue, NULL }`. -/
def reqVMarg (g : Globals) : List (Option Str) :=
  [g.cp, g.cpValue]

/-- The loops `for (src = 0; src < nReqVMarg; src++) if (*(reqVMarg[src]) != NULL) ...`:
the required VM arguments that are not NULL. -/
def reqVMargs (g : Globals) : List (Option Str) :=
  (reqVMarg g).filter Option.isSome

/-- The first loop of `getVMCommand` over `vmArg[0 .. nVMarg-1]`, from position `src` on: the
positions whose entry is copied into `*vmArgv`.  An entry equal to `cp` is skipped together
with the entry after it (`src++; continue;`). -/
def vmArgCopied (cp : Option Str) (vmArg : List Str) : Nat → Nat → List Nat
  | 0, _ => []
  | fuel + 1, src =>
    if src < vmArg.length then
      if (vmArg.get? src).any (fun a => cp.any (fun c => tcscmpEq a c)) then
        vmArgCopied cp vmArg fuel (src + 1 + 1)
      else
        src :: vmArgCopied cp vmArg fuel (src + 1)
    else []

/-- The positions of `vmArg` at which the body of the first loop of `getVMCommand` runs. -/
def vmArgScanned (cp : Option Str) (vmArg : List Str) : Nat → Nat → List Nat
  | 0, _ => []
  | fuel + 1, src =>
    if src < vmArg.length then
      if (vmArg.get? src).any (fun a => cp.any (fun c => tcscmpEq a c)) then
        src :: vmArgScanned cp vmArg fuel (src + 1 + 1)
      else
        src :: vmArgScanned cp vmArg fuel (src + 1)
    else []

/-- The VM arguments `getVMCommand` starts from: the user's (`userVMarg`) when given, else the
platform defaults `getArgVM( javaVM )`, passed in as `defaultVMarg`. -/
def vmArgBase (g : Globals) (defaultVMarg : List Str) : List Str :=
  match g.userVMarg with
  | some u => u
  | none => defaultVMarg

/-- The array `*vmArgv` built by `getVMCommand`. -/
def getVMCommand_vmArgv (g : Globals) (defaultVMarg : List Str) : List (Option Str) :=
  let vmArg := vmArgBase g defaultVMarg
  (vmArgCopied g.cp vmArg vmArg.length 0).map (fun src => vmArg.get? src)
    ++ reqVMargs g ++ [none]

/-- The loop `for (src = 1; src < argc; src++)` of `getVMCommand`: the entries `argv[1 .. argc-1]`. -/
def userArgs (argc : Int) (argv : List (Option Str)) : List (Option Str) :=
  (List.range (argc - 1).toNat).map (fun (k : Nat) => rd argv (1 + (k : Int)))

/-- Truth of `_tcslen( p ) > 0`. -/
def nonEmpty (p : Option Str) : Bool :=
  p.any (fun s => 0 < s.length)

/-- The array `*progArgv` built by `getVMCommand`. -/
def getVMCommand_progArgv (argc : Int) (argv : List (Option Str)) (g : Globals)
    (defaultVMarg : List Str) : List (Option Str) :=
  let vmArg := vmArgBase g defaultVMarg
  [some OS, g.osArg, some WS, g.wsArg]
    ++ (if nonEmpty g.osArchArg then [some OSARCH, g.osArchArg] else [])
    ++ [some LAUNCHER, g.program]
    ++ [some NAME, g.officialName]
    ++ (if g.library ≠ none then [some LIBRARY, g.library] else [])
    ++ [some STARTUP, g.jarFile]
    ++ (if ¬ g.noSplash then [some SHOWSPLASH] else [])
    ++ (if g.sharedID ≠ none then [some EXITDATA, g.sharedID] else [])
    ++ userArgs argc argv
    ++ [some VM, if g.jniLib ≠ none then g.jniLib else g.javaVM, some VMARGS]
    ++ vmArg.map some
    ++ reqVMargs g
    ++ [none]

/-- The function `getVMCommand( argc, argv, &vmArgv, &progArgv )`: the pair of arrays it
stores through its two result pointers. -/
def getVMCommand (argc : Int) (argv : List (Option Str)) (g : Globals)
    (defaultVMarg : List Str) : List (Option Str) × List (Option Str) :=
  (getVMCommand_vmArgv g defaultVMarg, getVMCommand_progArgv argc argv g defaultVMarg)

/-- The assignments to `cp` and `cpValue` in `run` (the startup jar goes on the classpath);
`jarFile` is not NULL at that point. -/
def setClasspath (jniLaunching : Bool) (jarFile : Str) (g : Globals) : Globals :=
  if jniLaunching then { g with cp := some (CLASSPATH_PREFIX ++ jarFile) }
  else { g with cp := some JAR, cpValue := some jarFile }

/-- The function `buildLaunchCommand( program, vmArgs, progArgs )`. -/
def buildLaunchCommand (program : Option Str) (vmArgs progArgs : List (Option Str)) :
    List (Option Str) :=
  program :: ((tokens vmArgs).map some ++ (tokens progArgs).map some ++ [none])

/-! ## `formatVmCommandMsg` -/

/-- One pass of the formatting loop: a token starting with `-` turns the space written before
it into a line break, then the token and a space are appended.  For the very first token the
character before the buffer is read; it is taken not to be a space. -/
def appendArg (message : Str) (arg : Str) : Str :=
  (if firstCharIs arg '-' && message.getLast? == some ' ' then message.dropLast ++ ['\n']
    else message) ++ arg ++ [' ']

/-- The function `formatVmCommandMsg( args, vmArgs, progArgs )`. -/
def formatVmCommandMsg (args : Option (List (Option Str))) (vmArgs progArgs : List (Option Str)) :
    Str :=
  match args with
  | some a => (tokens a).foldl appendArg []
  | none => (tokens progArgs).foldl appendArg ((tokens vmArgs).foldl appendArg [])

/-! ## `getRelaunchCommand`

Reads of the command array are checked here: a read outside the array makes the function
yield `none`. -/

/-- Read of `a[i]` that fails (`none`) outside the array. -/
def rdChecked (a : List (Option Str)) (i : Int) : Option (Option Str) :=
  if i < 0 then none else a.get? i.toNat

/-- The first loop of `getRelaunchCommand`, `while (vmCommand[++i] != NULL)`, entered with the
current values of `i`, `req` and `begin`; yields the final `i` and `begin`.  The list `reqs`
holds the values `*reqVMarg[0]`, `*reqVMarg[1]`; `reqVMarg[req] == NULL` past its end. -/
def findBegin (reqs : List (Option Str)) (vmCommand : List (Option Str)) :
    Nat → Int → Nat → Int → Option (Int × Int)
  | 0, _, _, _ => none
  | fuel + 1, i, req, begin =>
    match rdChecked vmCommand (i + 1) with
    | none => none
    | some none => some (i + 1, begin)
    | some (some arg) =>
      if begin = -1 ∧ (reqs.getD req none).any (fun r => tcsicmpEq arg r) then
        if reqs.length ≤ req + 1 ∨ reqs.getD (req + 1) none = none then
          findBegin reqs vmCommand fuel (i + 1) (req + 1) (i + 1 + 1)
        else
          findBegin reqs vmCommand fuel (i + 1) (req + 1) begin
      else
        findBegin reqs vmCommand fuel (i + 1) req begin

/-- The second loop of `getRelaunchCommand`, `for (i = begin; vmCommand[i] != NULL; i++)`,
entered at `i`: the positions `i` at which `relaunch[idx++] = vmCommand[i]` is executed, in
order, or `none` when a read leaves the command array. -/
def copyRelaunch (vmCommand : List (Option Str)) : Nat → Int → Option (List Int)
  | 0, _ => none
  | fuel + 1, i =>
    match rdChecked vmCommand i with
    | none => none
    | some none => some []
    | some (some arg) =>
      if tcsicmpEq arg SHOWSPLASH then
        match rdChecked vmCommand (i + 1) with
        | none => none
        | some next =>
          -- remove if the next argument is not the bitmap to show
          if next.any (fun n => firstCharIs n '-') then
            copyRelaunch vmCommand fuel (i + 1 + 1)
          else
            (copyRelaunch vmCommand fuel (i + 1)).map (fun copied => i :: copied)
      else if tcsncmpEq arg CLASSPATH_PREFIX then
        -- skip -Djava.class.path=...
        copyRelaunch vmCommand fuel (i + 1)
      else
        (copyRelaunch vmCommand fuel (i + 1)).map (fun copied => i :: copied)

/-- The positions at which the body of the second loop of `getRelaunchCommand` runs. -/
def relaunchScanned (vmCommand : List (Option Str)) : Nat → Int → Option (List Int)
  | 0, _ => none
  | fuel + 1, i =>
    match rdChecked vmCommand i with
    | none => none
    | some none => some []
    | some (some arg) =>
      if tcsicmpEq arg SHOWSPLASH then
        match rdChecked vmCommand (i + 1) with
        | none => none
        | some next =>
          if next.any (fun n => firstCharIs n '-') then
            (relaunchScanned vmCommand fuel (i + 1 + 1)).map (fun scanned => i :: scanned)
          else
            (relaunchScanned vmCommand fuel (i + 1)).map (fun scanned => i :: scanned)
      else
        (relaunchScanned vmCommand fuel (i + 1)).map (fun scanned => i :: scanned)

/-- The value of `begin` when the second loop of `getRelaunchCommand` starts: the position
found by the first loop, or 1 when it found none. -/
def relaunchBegin (g : Globals) (vmCommand : List (Option Str)) : Option Int :=
  match findBegin (reqVMarg g) vmCommand (vmCommand.length + 1) (-1) 0 (-1) with
  | none => none
  | some (_, begin0) => some (if begin0 = -1 then 1 else begin0)

/-- The function `getRelaunchCommand( vmCommand )` on a non-NULL command array: the array
`relaunch`, or `none` when a read leaves the command array. -/
def getRelaunchCommand (g : Globals) (vmCommand : List (Option Str)) :
    Option (List (Option Str)) :=
  match relaunchBegin g vmCommand with
  | none => none
  | some begin =>
    match copyRelaunch vmCommand (vmCommand.length + 1) begin with
    | none => none
    | some copied => some (g.program :: (copied.map (fun i => rd vmCommand i) ++ [none]))

/-! ## The launch loop of `run` -/

/-- What one launch of the Java VM hands back: the exit code, and the exit data.  With JNI
launching `exitData` is the value of the global `exitData` when `startJavaVM` returns; with a
separate process it is the value `getSharedData` stores into `exitData` when it is called. -/
structure VMResult where
  exitCode : Int
  exitData : Option Str
  deriving DecidableEq, Repr

/-- Calls to the collaborators made by the loop, in order. -/
inductive Event where
  | print (message : Str)
  | startJavaVM (jniLib : Option Str) (vmArgs progArgs : List (Option Str))
  | launchJavaVM (vmCommand : Option (List (Option Str)))
  | displayMessage (title : Option Str) (message : Option Str)
  deriving DecidableEq, Repr

/-- Local variables of `run` that live across the loop, the globals, and the calls made. -/
structure RunState where
  g : Globals
  jniLaunching : Bool
  running : Bool
  vmCommand : Option (List (Option Str))
  vmCommandArgs : List (Option Str)
  progCommandArgs : List (Option Str)
  relaunchCommand : Option (List (Option Str))
  events : List Event
  deriving DecidableEq, Repr

/-- The call that launches the VM in state `s`: `startJavaVM( jniLib, vmCommandArgs,
progCommandArgs )` with JNI launching, `launchJavaVM( vmCommand )` otherwise. -/
def launchEvent (s : RunState) : Event :=
  if s.jniLaunching then Event.startJavaVM s.g.jniLib s.vmCommandArgs s.progCommandArgs
  else Event.launchJavaVM s.vmCommand

/-- The function `setInitialArgs( argc, argv, lib )`. -/
def setInitialArgs (argc : Int) (argv : List (Option Str)) (lib : Option Str) (g : Globals) :
    Globals :=
  { g with initialArgc := argc, initialArgv := argv, library := lib }

/-- The text `_stprintf` writes for a `%d` argument. -/
def decimal (n : Int) : Str :=
  (toString n).toList

/-- The generic message `_stprintf( errorMsg, exitMsg, exitCode, vmCommandMsg )`. -/
def exitMessage (exitCode : Int) (vmCommandMsg : Str) : Str :=
  exitMsgHead ++ decimal exitCode ++ ['\n'] ++ vmCommandMsg

/-- The copy of `initialArgv[0 .. initialArgc]` made for a relaunch, with the last slot set
to NULL; `none` when the copy reads outside `initialArgv`. -/
def copyInitialArgs (g : Globals) : Option (List (Option Str)) :=
  if 0 ≤ g.initialArgc ∧ (g.initialArgc + 1).toNat ≤ g.initialArgv.length then
    some (wr (g.initialArgv.take (g.initialArgc + 1).toNat) g.initialArgc none)
  else none

/-- The title and the message shown for exit data that is not empty: exit data starting with
`<title>` and containing `</title>` is split at the first `</title>`. -/
def splitTitle (officialName : Option Str) (exitData : Str) : Option Str × Option Str :=
  if tcsncmpEq exitData "<title>".toList then
    match tcsstr "</title>".toList exitData with
    | some k =>
      (some ((exitData.take k).drop "<title>".toList.length),
       some (exitData.drop (k + "</title>".toList.length)))
    | none => (officialName, some exitData)
  else (officialName, some exitData)

/-- The first half of the body of `while(running)` in `run`: the command message is printed
when `debug` is set, then the VM is launched and runs until it exits, handing back `r`. -/
def launchVM (r : VMResult) (s : RunState) : RunState :=
  let vmCommandMsg := formatVmCommandMsg s.vmCommand s.vmCommandArgs s.progCommandArgs
  let ev0 := if s.g.debug then s.events ++ [Event.print vmCommandMsg] else s.events
  if s.jniLaunching then
    { s with events := ev0 ++ [launchEvent s], g := { s.g with exitData := r.exitData } }
  else
    { s with events := ev0 ++ [launchEvent s] }

/-- The second half of the body of `while(running)` in `run`: the `switch( exitCode )`, entered
in the state `s1` left by the launch; `none` when a read leaves an array. -/
def handleExit (r : VMResult) (vmCommandMsg : Str) (s1 : RunState) : Option RunState :=
  if r.exitCode = 0 then
    some { s1 with running := false }
  else if r.exitCode = RESTART_LAST_EC then
    if s1.jniLaunching then
      match copyInitialArgs s1.g with
      | none => none
      | some c => some { s1 with relaunchCommand := some c, running := false }
    else some s1
  else if r.exitCode = RESTART_NEW_EC then
    let s2 : RunState :=
      if ¬ s1.jniLaunching then { s1 with g := { s1.g with exitData := r.exitData } } else s1
    match s2.g.exitData with
    | some data =>
      let s3 : RunState := { s2 with vmCommand := some (parseArgList data) }
      if s3.jniLaunching then
        match getRelaunchCommand s3.g (parseArgList data) with
        | none => none
        | some c => some { s3 with relaunchCommand := some c, running := false }
      else some s3
    | none =>
      if s2.g.debug then
        some { s2 with events := s2.events ++ [Event.displayMessage s2.g.officialName (some shareMsg)] }
      else some s2
  else
    let title0 := s1.g.officialName
    let s2 : RunState :=
      if ¬ s1.jniLaunching then
        { s1 with running := false, g := { s1.g with exitData := r.exitData } }
      else { s1 with running := false }
    let (title, errorMsg, ev) : Option Str × Option Str × List Event :=
      match s2.g.exitData with
      | some data =>
        if data.length = 0 then (title0, none, s2.events)
        else ((splitTitle title0 data).1, (splitTitle title0 data).2, s2.events)
      | none =>
        (title0, none,
          if s2.g.debug then s2.events ++ [Event.displayMessage title0 (some shareMsg)]
          else s2.events)
    let errorMsg1 : Option Str :=
      match errorMsg with
      | none => some (exitMessage r.exitCode vmCommandMsg)
      | some m => some m
    some { s2 with events := ev ++ [Event.displayMessage title errorMsg1] }

/-- One pass through the body of `while(running)` in `run`, the launched VM handing back `r`;
`none` when a read leaves an array. -/
def runStep (r : VMResult) (s : RunState) : Option RunState :=
  handleExit r (formatVmCommandMsg s.vmCommand s.vmCommandArgs s.progCommandArgs) (launchVM r s)

/-- The loop `while(running)` of `run`, the successive launches handing back `results`; the
loop is followed for as long as results are supplied. -/
def runLoop : List VMResult → RunState → Option RunState
  | [], s => some s
  | r :: results, s =>
    if s.running then
      match runStep r s with
      | none => none
      | some s1 => runLoop results s1
    else some s

/-- The launches recorded in a list of events. -/
def launches (events : List Event) : List Event :=
  events.filter (fun e =>
    match e with
    | .startJavaVM _ _ _ => true
    | .launchJavaVM _ => true
    | _ => false)

/-- The messages shown to the user recorded in a list of events. -/
def displays (events : List Event) : List Event :=
  events.filter (fun e =>
    match e with
    | .displayMessage _ _ => true
    | _ => false)

end Eclipse

namespace Eclipse

/-! ## Auxiliary notions used to state the properties of `parseArgs` -/

/-- The scan state `s` holds the argument list `ts`: the entries `argv[0 .. argc-1]` are the
tokens `ts`, the array has at least one more slot, and the index is at least 1. -/
def ParseState.Holds (s : ParseState) (ts : List Str) : Prop :=
  s.argv.take s.argc.toNat = ts.map some ∧ (ts.length : Int) = s.argc ∧
    s.argc.toNat < s.argv.length ∧ 1 ≤ s.index

/-- The argument list left when `rem` entries are removed at position `k` of `ts` by the
removal loop and `argc -= rem`: the entries from `k + rem` on move down to `k`; when fewer
than `rem` entries remain from `k` on, the count alone drops by `rem`. -/
def removeAt (ts : List Str) (k rem : Nat) : List Str :=
  if k + rem ≤ ts.length then ts.take k ++ ts.drop (k + rem) else ts.take (ts.length - rem)

/-- The argument list held after the pass that starts in a state holding `ts` at `index`. -/
def argsAfterStep (ts : List Str) (index : Int) : List Str :=
  match findOption (ts[index.toNat]?) with
  | some o => if 0 < o.remove then removeAt ts index.toNat o.remove.toNat else ts
  | none => ts

/-- The initial state of the scan of `parseArgs` over the tokens `ts`. -/
def scanStart (ts : List Str) (g : Globals) : ParseState :=
  { index := 1, argc := ts.length, argv := sentinel ts, g := g }

/-- The tokens following the matched occurrences of the option that stores into `v`, one
entry per match in scan order; `none` for a match with no token after it within `argc`. -/
def valueMatches (v : ValueVar) (visits : List ParseState) : List (Option Str) :=
  (visits.filter (fun s => (matchedOption s).any (fun o => o.value = some v))).map followingToken

end Eclipse

namespace Eclipse

/-! ## Sample data used by the instances of the theorems -/

/-- Globals as `run` has set them before a launch in a separate process on a Linux install. -/
def sampleGlobals : Globals :=
  { program := some "/opt/eclipse/eclipse".toList
    programDir := some "/opt/eclipse/".toList
    javaVM := some "/usr/bin/java".toList
    jarFile := some "/opt/eclipse/startup.jar".toList
    sharedID := some "7b4".toList
    cp := some JAR
    cpValue := some "/opt/eclipse/startup.jar".toList
    osArg := some "linux".toList
    wsArg := some "gtk".toList
    osArchArg := some "x86".toList
    officialName := some "Eclipse".toList }

/-- Globals as `run` has set them before a JNI launch. -/
def sampleGlobalsJNI : Globals :=
  { program := some "/opt/eclipse/eclipse".toList
    programDir := some "/opt/eclipse/".toList
    jniLib := some "/opt/jre/lib/libjvm.so".toList
    jarFile := some "/opt/eclipse/startup.jar".toList
    initialArgc := 3
    initialArgv := sentinel ["/opt/eclipse/eclipse".toList, "-data".toList, "/w".toList]
    cp := some (CLASSPATH_PREFIX ++ "/opt/eclipse/startup.jar".toList)
    osArg := some "linux".toList
    wsArg := some "gtk".toList
    osArchArg := some "x86".toList
    officialName := some "Eclipse".toList }

/-- The loop state of `run` before the first launch in a separate process. -/
def sampleRun : RunState :=
  { g := sampleGlobals
    jniLaunching := false
    running := true
    vmCommand := some (sentinel ["/usr/bin/java".toList, "-jar".toList, "s.jar".toList, "-os".toList,
      "linux".toList])
    vmCommandArgs := sentinel ["-jar".toList, "s.jar".toList]
    progCommandArgs := sentinel ["-os".toList, "linux".toList]
    relaunchCommand := none
    events := [] }

/-- The loop state of `run` before the first JNI launch. -/
def sampleRunJNI : RunState :=
  { g := sampleGlobalsJNI
    jniLaunching := true
    running := true
    vmCommand := none
    vmCommandArgs := sentinel ["-Xms40m".toList]
    progCommandArgs := sentinel ["-os".toList, "linux".toList]
    relaunchCommand := none
    events := [] }

end Eclipse

namespace Eclipse

/-! ## Auxiliary notions used to state the properties of `getRelaunchCommand` -/

/-- The tokens the second loop of `getRelaunchCommand` copies when it runs over the tokens
`l` up to the sentinel: a `-showsplash` followed by a token starting with `-` is skipped with
that token, a token starting with the classpath marker is skipped, all else is copied. -/
def relaunchKept : List Str → List Str
  | [] => []
  | [a] => if tcsicmpEq a SHOWSPLASH then [a] else if tcsncmpEq a CLASSPATH_PREFIX then [] else [a]
  | a :: n :: rest =>
    if tcsicmpEq a SHOWSPLASH then
      if firstCharIs n '-' then relaunchKept rest else a :: relaunchKept (n :: rest)
    else if tcsncmpEq a CLASSPATH_PREFIX then relaunchKept (n :: rest)
    else a :: relaunchKept (n :: rest)

/-- No token matching `-showsplash` is directly followed by a token starting with `-`. -/
def SplashHasValue (ts : List Str) : Prop :=
  List.Chain' (fun a b => ¬ (tcsicmpEq a SHOWSPLASH = true ∧ firstCharIs b '-' = true)) ts

/-- Treatment of the token at position `i` of the command array `a` when it matches
`-showsplash`, given the positions `copied` the second loop of `getRelaunchCommand` copies:
followed by a token that does not start with `-`, it is copied and so is that token; followed
by the sentinel, it is copied; followed by a token that starts with `-`, it is not copied. -/
def SplashHandled (a : List (Option Str)) (copied : List Int) (i : Int) : Prop :=
  ∀ tok, rd a i = some tok → tcsicmpEq tok SHOWSPLASH = true →
    (∀ nx, rd a (i + 1) = some nx → firstCharIs nx '-' = false → i ∈ copied ∧ i + 1 ∈ copied) ∧
    (rd a (i + 1) = none → i ∈ copied) ∧
    (∀ nx, rd a (i + 1) = some nx → firstCharIs nx '-' = true → i ∉ copied)

end Eclipse

namespace Eclipse

/-! ## `run` before its loop

The platform layer (`eclipseOS`, `eclipseUtil`, `eclipseShm`, `eclipseCommon`) is not part of
`eclipse.c`; what `run` uses of it is gathered in `Platform`. -/

/-- Platform constants and collaborators used by `run` before its loop. -/
structure Platform where
  /-- The constant `dirSeparator`. -/
  dirSeparator : Char
  /-- Whether `_WIN32` is defined. -/
  win32 : Bool
  /-- Whether `MACOSX` is defined. -/
  macosx : Bool
  /-- The constant `defaultVM`. -/
  defaultVM : Str
  /-- The constant `shippedVMDir`. -/
  shippedVMDir : Str
  /-- The constant `DEFAULT_EQUINOX_STARTUP`. -/
  defaultEquinoxStartup : Str
  /-- The values `initWindowSystem( &argc, argv, showSplash )` leaves in `argc` and `argv`. -/
  initWindowSystem : Int → List (Option Str) → Bool → Int × List (Option Str)
  /-- The result of `findCommand( command )`, NULL when nothing is found. -/
  findCommand : Str → Option Str
  /-- The truth of `isVMLibrary( vm )`. -/
  isVMLibrary : Option Str → Bool
  /-- The result of `findVMLibrary( command )`, NULL when no library is found. -/
  findVMLibrary : Option Str → Option Str
  /-- The truth of `_tstat( file, &stats ) == 0`: a file of that name exists. -/
  fileExists : Str → Bool
  /-- The result of `findFile( path, prefix )`, NULL when nothing is found. -/
  findFile : Str → Str → Option Str
  /-- The id `createSharedData( &sharedID, MAX_SHARED_LENGTH )` stores when it succeeds
  (returns 0); `none` when it fails. -/
  createSharedData : Option Str
  /-- The default VM arguments `getArgVM( vm )`. -/
  getArgVM : Option Str → List Str

/-- Result of `_tcsrchr(s, c)`: the offset of the last `c` in `s`, or `none` for NULL. -/
def tcsrchr (c : Char) (s : Str) : Option Nat :=
  (tcschr c s.reverse).map (fun k => s.length - 1 - k)

/-- The function `getProgramDir( )`: the program path up to and including its last directory
separator, NULL when it has none. -/
def getProgramDir (pf : Platform) (program : Str) : Option Str :=
  match tcsrchr pf.dirSeparator program with
  | some k => some (program.take (k + 1))
  | none => none

/-- The function `getDefaultOfficialName( )`: the file name of the program, without its
extension on Windows, with its first character in upper case. -/
def getDefaultOfficialName (pf : Platform) (program : Str) : Str :=
  let ch : Str :=
    match tcsrchr pf.dirSeparator program with
    | none => program
    | some k => program.drop (k + 1)
  let ch1 : Str :=
    if pf.win32 then
      match tcsrchr '.' ch with
      | some e => ch.take e
      | none => ch
    else ch
  match ch1 with
  | [] => []
  | c :: cs => c.toUpper :: cs

/-- The text `_stprintf( errorMsg, homeMsg, officialName )`. -/
def homeMessage (officialName : Str) : Str :=
  "The ".toList ++ officialName ++
    (" executable launcher was unable to locate its \ncompanion startup.jar file " ++
      "(in the same directory as the executable).").toList

/-- The text `_stprintf( errorMsg, startupMsg, officialName )`. -/
def startupMessage (officialName : Str) : Str :=
  "The ".toList ++ officialName ++
    " executable launcher was unable to locate its \ncompanion startup jar file.".toList

/-- The text `_stprintf( vmSearchPath, pathMsg, shippedVM, vmName )`. -/
def pathMessage (shippedVM vmName : Str) : Str :=
  shippedVM ++ "\n'".toList ++ vmName ++ "' in your current PATH".toList

/-- The text `_stprintf( errorMsg, noVMMsg, officialName, vmName )`. -/
def noVMMessage (officialName vmName : Str) : Str :=
  ("A Java Runtime Environment (JRE) or Java Development Kit (JDK)\n" ++
      "must be available in order to run ").toList ++ officialName ++
    (". No Java virtual machine\n" ++
      "was found after searching the following locations:\n").toList ++ vmName

/-- The directory `findStartupJar` searches for the equinox startup jar: `programDir`, a
directory separator unless it ends with one, `../../../` on Mac OS X, then `plugins`. -/
def pluginsPath (pf : Platform) (programDir : Str) : Str :=
  programDir
    ++ (if programDir.getLast? ≠ some pf.dirSeparator then [pf.dirSeparator] else [])
    ++ (if pf.macosx then "../../../".toList else [])
    ++ "plugins".toList

/-- The lookup `findStartupJar` makes when no startup jar was specified or the one specified
was not found: the equinox startup jar under `plugins`, else `startup.jar`. -/
def defaultStartupJar (pf : Platform) (programDir : Str) : Option Str :=
  match pf.findFile (pluginsPath pf programDir) pf.defaultEquinoxStartup with
  | some file => some file
  | none => some DEFAULT_STARTUP

/-- The function `findStartupJar()`, with `programDir` not NULL. -/
def findStartupJar (pf : Platform) (programDir : Str) (g : Globals) : Option Str :=
  match g.startupArg with
  | some startupArg =>
    -- startup jar was specified on the command line
    let file : Option Str :=
      if pf.fileExists (programDir ++ startupArg) then some (programDir ++ startupArg)
      -- If the file does not exist, treat the argument as an absolute path
      else if pf.fileExists startupArg then some startupArg
      else none
    match file with
    | some f => some f
    | none => defaultStartupJar pf programDir
  | none => defaultStartupJar pf programDir

/-- What the VM discovery of `run` leaves in `javaVM`, `jniLib`, `vmName` and in the locals
`jniLaunching` and `vmSearchPath`. -/
structure Discovery where
  javaVM : Option Str
  jniLib : Option Str
  vmName : Option Str
  jniLaunching : Bool
  vmSearchPath : Option Str
  deriving DecidableEq, Repr

/-- The VM discovery of `run`, from `if (vmName != NULL)` to the test that ends in the no-VM
error, with `programDir` not NULL. -/
def discoverVM (pf : Platform) (programDir : Str) (g : Globals) : Discovery :=
  -- user specified VM, or the VM shipped with eclipse
  let d1 : Discovery :=
    match g.vmName with
    | some vmName =>
      { javaVM := pf.findCommand vmName, jniLib := g.jniLib, vmName := some vmName,
        jniLaunching := pf.isVMLibrary (pf.findCommand vmName), vmSearchPath := none }
    | none =>
      let shippedVM := programDir ++ pf.shippedVMDir ++ pf.defaultVM
      { javaVM := pf.findCommand shippedVM, jniLib := g.jniLib, vmName := some pf.defaultVM,
        jniLaunching := true, vmSearchPath := some (pathMessage shippedVM pf.defaultVM) }
  -- If a Java VM has not been found yet
  let d2 : Discovery :=
    if d1.javaVM = none then
      { d1 with javaVM := match d1.vmName with
                          | some vmName => pf.findCommand vmName
                          | none => none }
    else d1
  if d2.jniLaunching then
    match pf.findVMLibrary d2.javaVM with
    | none => { d2 with jniLib := none, jniLaunching := false }
    | some lib => { d2 with jniLib := some lib }
  else d2

/-- How `run` leaves its set-up: through `exit( status )` after showing a message, or into
its loop. -/
inductive SetupResult where
  | fatal (title : Option Str) (message : Str) (status : Int)
  | ready (s : RunState)
  deriving DecidableEq, Repr

/-- The loop state a set-up ends in; `none` when it ends in `exit`. -/
def SetupResult.state : SetupResult → Option RunState
  | SetupResult.ready s => some s
  | SetupResult.fatal _ _ _ => none

/-- The part of `run` from the VM discovery to the entry of its loop, with `programDir` and
`officialName` not NULL.  The calls `createConsole()` and `showSplash( showSplashArg )` are
not recorded. -/
def runLaunchSetup (pf : Platform) (argc : Int) (argv : List (Option Str))
    (vmArgs : Option (List Str)) (g : Globals) (officialName programDir : Str) : SetupResult :=
  let d := discoverVM pf programDir g
  let g1 : Globals :=
    { g with officialName := some officialName, programDir := some programDir,
             javaVM := d.javaVM, jniLib := d.jniLib, vmName := d.vmName }
  -- If the VM was not found, display a message and exit.
  if ¬ d.jniLaunching ∧ d.javaVM = none then
    let vmName : Str :=
      match d.vmSearchPath with
      | some path => path
      | none => d.vmName.getD []
    SetupResult.fatal (some officialName) (noVMMessage officialName vmName) 1
  else
    -- Find the startup.jar
    match findStartupJar pf programDir g1 with
    | none => SetupResult.fatal (some officialName) (startupMessage officialName) 1
    | some jarFile =>
      let g2 : Globals := { g1 with jarFile := some jarFile }
      -- not using JNI launching, need some shared data
      let (g3, events) : Globals × List Event :=
        if ¬ d.jniLaunching then
          match pf.createSharedData with
          | some id => ({ g2 with sharedID := some id }, [])
          | none =>
            (g2, if g2.debug then [Event.displayMessage (some officialName) (some shareMsg)] else [])
        else (g2, [])
      -- the startup jarFile goes on the classpath
      let g4 : Globals := setClasspath d.jniLaunching jarFile g3
      let g5 : Globals := { g4 with userVMarg := vmArgs }
      let vmCommandArgs := (getVMCommand argc argv g5 (pf.getArgVM g5.javaVM)).1
      let progCommandArgs := (getVMCommand argc argv g5 (pf.getArgVM g5.javaVM)).2
      SetupResult.ready
        { g := g5
          jniLaunching := d.jniLaunching
          running := true
          vmCommand :=
            if ¬ d.jniLaunching then some (buildLaunchCommand g5.javaVM vmCommandArgs progCommandArgs)
            else none
          vmCommandArgs := vmCommandArgs
          progCommandArgs := progCommandArgs
          relaunchCommand := none
          events := events }

/-- The function `run( argc, argv, vmArgs )` up to the entry of its loop; `none` when
`argv[0]` is NULL. -/
def runSetup (pf : Platform) (argc : Int) (argv : List (Option Str))
    (vmArgs : Option (List Str)) (g : Globals) : Option SetupResult :=
  -- arg[0] should be the full pathname of this program.
  match rd argv 0 with
  | none => none
  | some program =>
    -- Parse command line arguments (looking for the VM to use).
    let p := parseArgs argc argv { g with program := some program }
    -- Initialize official program name
    let officialName : Str :=
      match p.g.name with
      | some name => name
      | none => getDefaultOfficialName pf program
    -- Initialize the window system.
    let (argc1, argv1) := pf.initWindowSystem p.argc p.argv (!p.g.noSplash)
    -- Find the directory where the Eclipse program is installed.
    match getProgramDir pf program with
    | none => some (SetupResult.fatal (some officialName) (homeMessage officialName) 1)
    | some programDir =>
      some (runLaunchSetup pf argc1 argv1 vmArgs p.g officialName programDir)

/-! ## Auxiliary notions used to state the properties of `getVMCommand`, `formatVmCommandMsg`
and `parseArgs` -/

/-- A list of VM arguments without its classpath entries: scanning from the left, every
token equal to the classpath flag `cp` is left out together with the token after it. -/
def withoutClasspath (cp : Str) : List Str → List Str
  | [] => []
  | [t] => if t = cp then [] else [t]
  | t :: v :: rest =>
    if t = cp then withoutClasspath cp rest else t :: withoutClasspath cp (v :: rest)

/-- The tokens joined with a single space, except that the separator before a token that
starts with `-` is a line break. -/
def joinArgs : List Str → Str
  | [] => []
  | [t] => t
  | t :: u :: rest => t ++ [if firstCharIs u '-' then '\n' else ' '] ++ joinArgs (u :: rest)

/-- The token sequence `formatVmCommandMsg( args, vmArgs, progArgs )` renders: `args` when it
is not NULL, else `vmArgs` followed by `progArgs`. -/
def renderedTokens (args : Option (List (Option Str))) (vmArgs progArgs : List (Option Str)) :
    List Str :=
  match args with
  | some a => tokens a
  | none => tokens vmArgs ++ tokens progArgs

/-- The scan state `s` holds the list `ts` and has passed over its positions `1 .. index-1`
without leaving there a token that matches an option with a removal count above 0. -/
def ParseState.Scanned (s : ParseState) (ts : List Str) : Prop :=
  s.Holds ts ∧
    ∀ j : Nat, 1 ≤ j → (j : Int) < s.index →
      ∀ o, findOption (ts[j]?) = some o → o.remove = 0

/-- Whether the pass that starts in state `s` matches an option on a token with fewer than
`remove` tokens from it to the end of the list: the count is then lowered by `remove` although
the removal loop has nothing to move. -/
def shortMatch (s : ParseState) : Bool :=
  (matchedOption s).any (fun o => decide (s.argc < s.index + o.remove))

/-- A sample platform: a Unix layout where `/usr/bin/java` is on the path, no VM library
and no file is found, and shared memory is available. -/
def samplePlatform : Platform :=
  { dirSeparator := '/'
    win32 := false
    macosx := false
    defaultVM := "java".toList
    shippedVMDir := "jre/bin/".toList
    defaultEquinoxStartup := "org.eclipse.equinox.startup".toList
    initWindowSystem := fun argc argv _ => (argc, argv)
    findCommand := fun c => if c = "java".toList then some "/usr/bin/java".toList else none
    isVMLibrary := fun _ => false
    findVMLibrary := fun _ => none
    fileExists := fun _ => false
    findFile := fun _ _ => none
    createSharedData := some "7b4".toList
    getArgVM := fun _ => ["-Xms40m".toList] }

/-- The globals when `run` is entered on a Linux install: the statics of `eclipse.c` at their
initial values, `osArg`, `wsArg` and `osArchArg` at the defaults of the platform layer. -/
def sampleInitialGlobals : Globals :=
  { osArg := some "linux".toList
    wsArg := some "gtk".toList
    osArchArg := some "x86".toList }

end Eclipse

namespace Eclipse

/-! ## Auxiliary notions used to state further properties of `parseArgs`, `parseArgList` and
`getRelaunchCommand` -/

/-- The removal count of the option matched by the pass that starts in state `s`; 0 when the
pass matches no option. -/
def removedCount (s : ParseState) : Int :=
  match matchedOption s with
  | some o => o.remove
  | none => 0

/-- The arguments joined by single line-feeds. -/
def joinLines : List Str → Str
  | [] => []
  | [a] => a
  | a :: b :: rest => a ++ '\n' :: joinLines (b :: rest)

/-- The offset of the first token of `l` that equals `m` ignoring case. -/
def firstMatch (m : Str) : List Str → Option Nat
  | [] => none
  | t :: rest => if tcsicmpEq t m then some 0 else (firstMatch m rest).map (· + 1)

/-- Whether the tokens of `l` start with the tokens `markers`, compared ignoring case. -/
def startsWithMarkers : List Str → List Str → Bool
  | [], _ => true
  | _ :: _, [] => false
  | m :: ms, t :: rest => tcsicmpEq t m && startsWithMarkers ms rest

/-- The position directly after the first place where the tokens `markers` occur in `cmd` one
directly after the other and in order, compared ignoring case; 1 when there is no such
place. -/
def contiguousAnchor (markers cmd : List Str) : Nat :=
  match (List.range cmd.length).find? (fun i => startsWithMarkers markers (cmd.drop i)) with
  | some i => i + markers.length
  | none => 1

/-- The indices of `vmCommand` read by the first loop of `getRelaunchCommand`,
`while(vmCommand[++i] != NULL)`, entered with the current value of `i`.  A slot outside the
array reads as NULL, so the list ends with the first index read there. -/
def firstLoopReads (vmCommand : List (Option Str)) : Nat → Int → List Int
  | 0, _ => []
  | fuel + 1, i =>
    (i + 1) ::
      (match rd vmCommand (i + 1) with
        | none => []
        | some _ => firstLoopReads vmCommand fuel (i + 1))

/-- The indices of `vmCommand` read by the second loop of `getRelaunchCommand`,
`for (i = begin; vmCommand[i] != NULL; i++)`, entered at `i`: the index `i` itself and, for a
token matching `-showsplash`, the index `i + 1`.  A slot outside the array reads as NULL, so
the list ends with the first index read there. -/
def copyLoopReads (vmCommand : List (Option Str)) : Nat → Int → List Int
  | 0, _ => []
  | fuel + 1, i =>
    i ::
      (match rd vmCommand i with
        | none => []
        | some arg =>
          if tcsicmpEq arg SHOWSPLASH then
            (i + 1) ::
              (match rd vmCommand (i + 1) with
                | some next =>
                  if firstCharIs next '-' then copyLoopReads vmCommand fuel (i + 1 + 1)
                  else copyLoopReads vmCommand fuel (i + 1)
                | none => copyLoopReads vmCommand fuel (i + 1))
          else copyLoopReads vmCommand fuel (i + 1))

/-- The indices of `vmCommand` that `getRelaunchCommand` reads, in order. -/
def getRelaunchReads (g : Globals) (vmCommand : List (Option Str)) : List Int :=
  firstLoopReads vmCommand (vmCommand.length + 1) (-1) ++
    (match relaunchBegin g vmCommand with
      | some begin => copyLoopReads vmCommand (vmCommand.length + 1) begin
      | none => [])

/-- The indices of `relaunch` that `getRelaunchCommand` writes, in order: slot 0 for
`program`, one slot for every copied entry, and the slot of the closing NULL; `none` when a
read leaves the command array. -/
def getRelaunchWrites (g : Globals) (vmCommand : List (Option Str)) : Option (List Nat) :=
  match relaunchBegin g vmCommand with
  | none => none
  | some begin =>
    match copyRelaunch vmCommand (vmCommand.length + 1) begin with
    | none => none
    | some copied => some (List.range (1 + copied.length + 1))

/-- The number of slots `getRelaunchCommand` allocates for `relaunch`: `1 + i + 1`, where `i`
is the index at which the first loop found NULL. -/
def getRelaunchSlots (vmCommand : List (Option Str)) : Nat :=
  1 + (tokens vmCommand).length + 1

end Eclipse

namespace Eclipse

/-! ## Arrays: reading and shifting -/

theorem rd_of_nonneg (a : List (Option Str)) (i : Int) (h : 0 ≤ i) :
    rd a i = (a[i.toNat]?).getD none := by
  unfold rd
  rw [if_neg (by omega), List.getD_eq_getElem?_getD]

theorem rd_natCast (a : List (Option Str)) (n : Nat) : rd a (n : Int) = (a[n]?).getD none := by
  rw [rd_of_nonneg a n (by omega)]
  simp

theorem wr_natCast (a : List (Option Str)) (n : Nat) (p : Option Str) :
    wr a (n : Int) p = a.set n p := by
  unfold wr
  rw [if_neg (by omega)]
  simp

/-- The removal loop on natural-number positions: `count` passes starting at `first + rem`. -/
theorem shiftArgs_natCast (a : List (Option Str)) (first rem : Nat) (argc : Int) :
    shiftArgs a first rem argc =
      (List.range (argc + 1 - ((first : Int) + rem)).toNat).foldl
        (fun b k => b.set (first + k) ((b[first + rem + k]?).getD none)) a := by
  unfold shiftArgs
  rw [List.foldl_map (fun k : Nat => (first : Int) + rem + (k : Int))]
  have hf : (fun (b : List (Option Str)) (k : Nat) =>
      wr b ((first : Int) + rem + (k : Int) - rem) (rd b ((first : Int) + rem + (k : Int)))) =
      fun b k => b.set (first + k) ((b[first + rem + k]?).getD none) := by
    funext b k
    have h1 : (first : Int) + rem + k - rem = ((first + k : Nat) : Int) := by push_cast; omega
    have h2 : (first : Int) + rem + k = ((first + rem + k : Nat) : Int) := by push_cast; omega
    rw [h1, h2, rd_natCast, wr_natCast]
  rw [hf]

theorem shiftFold_getElem? (a : List (Option Str)) (first rem : Nat) (hrem : 1 ≤ rem) (count j : Nat) :
    (((List.range count).foldl
        (fun b k => b.set (first + k) ((b[first + rem + k]?).getD none)) a)[j]?).getD none =
      if first ≤ j ∧ j < first + count then (a[j + rem]?).getD none else (a[j]?).getD none := by
  induction count generalizing j with
  | zero =>
    rw [if_neg (by omega)]
    simp
  | succ c ih =>
    rw [List.range_succ, List.foldl_append]
    simp only [List.foldl_cons, List.foldl_nil]
    rw [List.getElem?_set, ih (first + rem + c)]
    have hread : ¬ (first ≤ first + rem + c ∧ first + rem + c < first + c) := by omega
    rw [if_neg hread]
    by_cases hj : first + c = j
    · subst hj
      rw [if_pos rfl]
      have hin : first ≤ first + c ∧ first + c < first + (c + 1) := by omega
      rw [if_pos hin]
      by_cases hlen : first + c < ((List.range c).foldl
          (fun b k => b.set (first + k) ((b[first + rem + k]?).getD none)) a).length
      · rw [if_pos hlen]
        have : first + c + rem = first + rem + c := by omega
        simp [this]
      · rw [if_neg hlen]
        have hlen2 : a.length ≤ first + c + rem := by
          have hl : ((List.range c).foldl
              (fun b k => b.set (first + k) ((b[first + rem + k]?).getD none)) a).length = a.length := by
            clear ih hread hin hlen
            induction c with
            | zero => simp
            | succ d ihd =>
              rw [List.range_succ, List.foldl_append]
              simp only [List.foldl_cons, List.foldl_nil, List.length_set]
              exact ihd
          omega
        rw [List.getElem?_eq_none hlen2]
    · rw [if_neg hj, ih j]
      by_cases hin : first ≤ j ∧ j < first + c
      · have hin2 : first ≤ j ∧ j < first + (c + 1) := by omega
        rw [if_pos hin, if_pos hin2]
      · have hin2 : ¬ (first ≤ j ∧ j < first + (c + 1)) := by omega
        rw [if_neg hin, if_neg hin2]

theorem shiftFold_length (a : List (Option Str)) (first rem count : Nat) :
    ((List.range count).foldl
        (fun b k => b.set (first + k) ((b[first + rem + k]?).getD none)) a).length = a.length := by
  induction count with
  | zero => simp
  | succ d ihd =>
    rw [List.range_succ, List.foldl_append]
    simp only [List.foldl_cons, List.foldl_nil, List.length_set]
    exact ihd

end Eclipse

namespace Eclipse

/-! ## `parseArgs`: the argument list held by the scan state -/

theorem holds_getElem? {s : ParseState} {ts : List Str} (h : s.Holds ts) (j : Nat)
    (hj : j < ts.length) : s.argv[j]? = some (ts[j]?) := by
  obtain ⟨htake, hlen, _, _⟩ := h
  have h1 : (s.argv.take s.argc.toNat)[j]? = (ts.map some)[j]? := by rw [htake]
  rw [List.getElem?_take, if_pos (by omega), List.getElem?_map] at h1
  rw [h1, List.getElem?_eq_getElem hj]
  rfl

theorem holds_rd {s : ParseState} {ts : List Str} (h : s.Holds ts) (i : Int)
    (h0 : 0 ≤ i) (hi : i < s.argc) : rd s.argv i = ts[i.toNat]? := by
  have hlen := h.2.1
  rw [rd_of_nonneg _ _ h0, holds_getElem? h i.toNat (by omega)]
  rfl

theorem holds_of_getElem? {s : ParseState} {ts : List Str}
    (hpt : ∀ j, j < ts.length → s.argv[j]? = some (ts[j]?)) (hlen : (ts.length : Int) = s.argc)
    (hslot : s.argc.toNat < s.argv.length) (hidx : 1 ≤ s.index) : s.Holds ts := by
  refine ⟨?_, hlen, hslot, hidx⟩
  apply List.ext_getElem?
  intro n
  rw [List.getElem?_take, List.getElem?_map]
  by_cases hn : n < s.argc.toNat
  · rw [if_pos hn, hpt n (by omega), List.getElem?_eq_getElem (by omega : n < ts.length)]
    rfl
  · rw [if_neg hn, List.getElem?_eq_none (by omega : ts.length ≤ n)]
    rfl

theorem scanStart_holds (ts : List Str) (g : Globals) : (scanStart ts g).Holds ts := by
  refine ⟨?_, rfl, ?_, le_refl _⟩
  · simp [scanStart, sentinel]
  · simp [scanStart, sentinel]

/-- The removal loop seen on the argument list, when at least `rem` entries remain from
`index` on. -/
theorem shiftArgs_getElem? (a : List (Option Str)) (first rem : Nat) (hrem : 1 ≤ rem)
    (argc : Nat) (hfit : first + rem ≤ argc) (hslot : argc < a.length) (j : Nat)
    (hj : j < argc - rem) :
    (shiftArgs a first rem argc)[j]? = if j < first then a[j]? else a[j + rem]? := by
  rw [shiftArgs_natCast]
  have hcount : ((argc : Int) + 1 - ((first : Int) + rem)).toNat = argc + 1 - (first + rem) := by
    omega
  rw [hcount]
  have hl := shiftFold_length a first rem (argc + 1 - (first + rem))
  have hg := shiftFold_getElem? a first rem hrem (argc + 1 - (first + rem)) j
  have hjl : j < a.length := by omega
  rw [List.getElem?_eq_getElem (by rw [hl]; exact hjl)] at hg ⊢
  by_cases hjf : j < first
  · rw [if_neg (by omega)] at hg
    rw [if_pos hjf, List.getElem?_eq_getElem hjl] at *
    simpa using hg
  · rw [if_pos (by omega)] at hg
    rw [if_neg hjf, List.getElem?_eq_getElem (by omega : j + rem < a.length)] at *
    simpa using hg

theorem shiftArgs_length (a : List (Option Str)) (first rem : Nat) (argc : Int) :
    (shiftArgs a first rem argc).length = a.length := by
  rw [shiftArgs_natCast]
  exact shiftFold_length a first rem _

end Eclipse

namespace Eclipse

theorem findOption_mem {arg : Option Str} {o : LauncherOption} (h : findOption arg = some o) :
    o ∈ options := by
  unfold findOption at h
  cases arg with
  | none => simp at h
  | some a => exact List.mem_of_find?_eq_some h

theorem options_remove {o : LauncherOption} (h : o ∈ options) :
    o.remove = 0 ∨ o.remove = 1 ∨ o.remove = 2 := by
  simp only [options, List.mem_cons, List.mem_singleton, List.not_mem_nil, or_false] at h
  rcases h with h | h | h | h | h | h | h | h | h | h | h | h <;> subst h <;> simp

theorem options_value_remove {o : LauncherOption} (h : o ∈ options) (v : ValueVar)
    (hv : o.value = some v) : o.remove = 2 := by
  simp only [options, List.mem_cons, List.mem_singleton, List.not_mem_nil, or_false] at h
  rcases h with h | h | h | h | h | h | h | h | h | h | h | h <;> subst h <;> simp at hv ⊢

theorem shiftArgs_of_short (a : List (Option Str)) (index rem argc : Int)
    (h : argc < index + rem) : shiftArgs a index rem argc = a := by
  unfold shiftArgs
  have : (argc + 1 - (index + rem)).toNat = 0 := by omega
  rw [this]
  rfl

theorem removeAt_getElem? (ts : List Str) (k rem : Nat) (hfit : k + rem ≤ ts.length) (j : Nat) :
    (removeAt ts k rem)[j]? = if j < k then ts[j]? else ts[j + rem]? := by
  unfold removeAt
  rw [if_pos hfit, List.getElem?_append, List.length_take, List.getElem?_take, List.getElem?_drop]
  have hk : min k ts.length = k := by omega
  rw [hk]
  by_cases hj : j < k
  · rw [if_pos hj, if_pos hj, if_pos hj]
  · rw [if_neg hj, if_neg hj]
    congr 1
    omega

theorem removeAt_length (ts : List Str) (k rem : Nat) (hk : k ≤ ts.length) :
    (removeAt ts k rem).length = ts.length - rem := by
  unfold removeAt
  by_cases hfit : k + rem ≤ ts.length
  · rw [if_pos hfit, List.length_append, List.length_take, List.length_drop]
    omega
  · rw [if_neg hfit, List.length_take]
    omega

/-- A removal keeps the scan state well formed and turns the list held into `removeAt`. -/
theorem holds_remove {s : ParseState} {ts : List Str} (h : s.Holds ts) (hlt : s.index < s.argc)
    (rem : Int) (hrem : rem = 1 ∨ rem = 2) (g : Globals) :
    ParseState.Holds
      { index := s.index - 1 + 1, argc := s.argc - rem,
        argv := shiftArgs s.argv s.index rem s.argc, g := g }
      (removeAt ts s.index.toNat rem.toNat) := by
  obtain ⟨htake, hlen, hslot, hidx⟩ := h
  have hS : s.Holds ts := ⟨htake, hlen, hslot, hidx⟩
  have hklen : s.index.toNat ≤ ts.length := by omega
  have hrl := removeAt_length ts s.index.toNat rem.toNat hklen
  by_cases hfit : s.index + rem ≤ s.argc
  · obtain ⟨k, hk⟩ : ∃ k : Nat, s.index = k := ⟨s.index.toNat, by omega⟩
    obtain ⟨r, hr⟩ : ∃ r : Nat, rem = r := ⟨rem.toNat, by omega⟩
    have e3 : s.argc = ((ts.length : Nat) : Int) := by omega
    rw [hk, hr, Int.toNat_ofNat, Int.toNat_ofNat] at hrl ⊢
    apply holds_of_getElem?
    · intro j hj
      rw [hrl] at hj
      show (shiftArgs s.argv k r s.argc)[j]? = _
      rw [e3, shiftArgs_getElem? s.argv k r (by omega) ts.length
        (by omega) (by omega) j (by omega), removeAt_getElem? ts _ _ (by omega)]
      by_cases hjk : j < k
      · rw [if_pos hjk, if_pos hjk]
        exact holds_getElem? hS j (by omega)
      · rw [if_neg hjk, if_neg hjk]
        exact holds_getElem? hS (j + r) (by omega)
    · show ((removeAt ts k r).length : Int) = s.argc - r
      rw [hrl]
      omega
    · show (s.argc - r).toNat < (shiftArgs s.argv k r s.argc).length
      rw [shiftArgs_length]
      omega
    · show 1 ≤ (k : Int) - 1 + 1
      omega
  · apply holds_of_getElem?
    · intro j hj
      rw [hrl] at hj
      show (shiftArgs s.argv s.index rem s.argc)[j]? = _
      rw [shiftArgs_of_short _ _ _ _ (by omega)]
      unfold removeAt
      rw [if_neg (by omega), List.getElem?_take, if_pos (by omega)]
      exact holds_getElem? hS j (by omega)
    · show ((removeAt ts s.index.toNat rem.toNat).length : Int) = s.argc - rem
      rw [hrl]
      omega
    · show (s.argc - rem).toNat < (shiftArgs s.argv s.index rem s.argc).length
      rw [shiftArgs_of_short _ _ _ _ (by omega)]
      omega
    · show 1 ≤ s.index - 1 + 1
      omega

/-- One pass of the scan keeps the state well formed; the list it holds afterwards is
`argsAfterStep`. -/
theorem parseArgsStep_holds {s : ParseState} {ts : List Str} (h : s.Holds ts)
    (hlt : s.index < s.argc) : (parseArgsStep s).Holds (argsAfterStep ts s.index) := by
  have hidx : 1 ≤ s.index := h.2.2.2
  have hrd : rd s.argv s.index = ts[s.index.toNat]? := holds_rd h s.index (by omega) hlt
  unfold parseArgsStep argsAfterStep
  rw [hrd]
  cases hfo : findOption (ts[s.index.toNat]?) with
  | none =>
    obtain ⟨h1, h2, h3, _⟩ := h
    exact ⟨h1, h2, h3, by show 1 ≤ s.index + 1; omega⟩
  | some o =>
    have hmem := findOption_mem hfo
    have hr := options_remove hmem
    by_cases hpos : 0 < o.remove
    · simp only [if_pos hpos]
      exact holds_remove h hlt o.remove (by omega) _
    · simp only [if_neg hpos]
      obtain ⟨h1, h2, h3, _⟩ := h
      exact ⟨h1, h2, h3, by show 1 ≤ s.index + 1; omega⟩

end Eclipse

namespace Eclipse

/-! ## `parseArgs`: termination of the scan and the values it stores -/

theorem parseArgsStep_measure (s : ParseState) :
    (parseArgsStep s).argc - (parseArgsStep s).index < s.argc - s.index := by
  unfold parseArgsStep
  cases hfo : findOption (rd s.argv s.index) with
  | none => show s.argc - (s.index + 1) < s.argc - s.index; omega
  | some o =>
    by_cases hpos : 0 < o.remove
    · simp only [if_pos hpos]
      omega
    · simp only [if_neg hpos]
      omega

/-- The scan of `parseArgs` leaves its loop once it has been given enough passes. -/
theorem parseArgsLoop_exits (fuel : Nat) (s : ParseState) (h : (s.argc - s.index).toNat ≤ fuel) :
    ¬ ((parseArgsLoop fuel s).index < (parseArgsLoop fuel s).argc) := by
  induction fuel generalizing s with
  | zero =>
    unfold parseArgsLoop
    omega
  | succ n ih =>
    unfold parseArgsLoop
    by_cases hlt : s.index < s.argc
    · rw [if_pos hlt]
      apply ih
      have := parseArgsStep_measure s
      omega
    · rw [if_neg hlt]
      exact hlt

/-- The function `parseArgs` runs its loop to the end: on return `index < argc` is false. -/
theorem parseArgs_exits (argc : Int) (argv : List (Option Str)) (g : Globals) :
    ¬ ((parseArgs argc argv g).index < (parseArgs argc argv g).argc) := by
  unfold parseArgs
  apply parseArgsLoop_exits
  show (argc - 1).toNat ≤ argc.toNat
  omega

theorem parseArgs_eq_scan (ts : List Str) (g : Globals) :
    parseArgs ts.length (sentinel ts) g = parseArgsLoop ts.length (scanStart ts g) := by
  simp [parseArgs, scanStart]

theorem ValueVar.get_set (g : Globals) (p : Option Str) (w v : ValueVar) :
    v.get (w.set g p) = if w = v then p else v.get g := by
  cases w <;> cases v <;> simp [ValueVar.get, ValueVar.set]

theorem ValueVar.get_set1 (g : Globals) (f : FlagVar) (v : ValueVar) :
    v.get (f.set1 g) = v.get g := by
  cases f <;> cases v <;> rfl

theorem parseArgsStep_g (s : ParseState) (o : LauncherOption)
    (hfo : findOption (rd s.argv s.index) = some o) :
    (parseArgsStep s).g =
      match o.flag with
      | some f => f.set1 (match o.value with
          | some w => if s.index + 1 < s.argc then w.set s.g (rd s.argv (s.index + 1)) else s.g
          | none => s.g)
      | none => (match o.value with
          | some w => if s.index + 1 < s.argc then w.set s.g (rd s.argv (s.index + 1)) else s.g
          | none => s.g) := by
  unfold parseArgsStep
  rw [hfo]
  by_cases hpos : 0 < o.remove
  · simp only [if_pos hpos]
  · simp only [if_neg hpos]

/-- What one pass of the scan does to the variable `v`. -/
theorem parseArgsStep_value (s : ParseState) (v : ValueVar) :
    v.get (parseArgsStep s).g =
      if (matchedOption s).any (fun o => o.value = some v) ∧ s.index + 1 < s.argc then
        rd s.argv (s.index + 1)
      else v.get s.g := by
  unfold matchedOption
  cases hfo : findOption (rd s.argv s.index) with
  | none =>
    unfold parseArgsStep
    rw [hfo]
    simp
  | some o =>
    have hg : ∀ g1 : Globals,
        v.get (match o.flag with | some f => f.set1 g1 | none => g1) = v.get g1 := by
      intro g1
      cases o.flag with
      | none => rfl
      | some f => exact ValueVar.get_set1 g1 f v
    rw [parseArgsStep_g s o hfo, hg]
    cases hv : o.value with
    | none => simp [hv]
    | some w =>
      by_cases hslot : s.index + 1 < s.argc
      · by_cases hwv : w = v
        · simp [hv, hslot, hwv, ValueVar.get_set]
        · simp [hv, hslot, hwv, ValueVar.get_set]
      · simp [hslot]

theorem parseArgsVisits_succ (fuel : Nat) (s : ParseState) :
    parseArgsVisits (fuel + 1) s =
      if s.index < s.argc then s :: parseArgsVisits fuel (parseArgsStep s) else [] := rfl

theorem parseArgsLoop_succ (fuel : Nat) (s : ParseState) :
    parseArgsLoop (fuel + 1) s =
      if s.index < s.argc then parseArgsLoop fuel (parseArgsStep s) else s := rfl

/-- A value option matched on the final token ends the scan: no pass follows it. -/
theorem parseArgsVisits_after_short_match (s : ParseState) (o : LauncherOption) (v : ValueVar)
    (hm : matchedOption s = some o) (hv : o.value = some v)
    (hslot : ¬ s.index + 1 < s.argc) (fuel : Nat) :
    parseArgsVisits fuel (parseArgsStep s) = [] := by
  have hrem : o.remove = 2 := options_value_remove (findOption_mem hm) v hv
  have hidx : (parseArgsStep s).index = s.index - 1 + 1 ∧ (parseArgsStep s).argc = s.argc - 2 := by
    unfold parseArgsStep
    unfold matchedOption at hm
    rw [hm]
    simp [hrem]
  cases fuel with
  | zero => rfl
  | succ n =>
    rw [parseArgsVisits_succ, if_neg]
    omega

end Eclipse

namespace Eclipse

theorem followingToken_of_holds {s : ParseState} {ts : List Str} (h : s.Holds ts)
    (hslot : s.index + 1 < s.argc) :
    ∃ t : Str, followingToken s = some t ∧ rd s.argv (s.index + 1) = some t := by
  have hidx : 1 ≤ s.index := h.2.2.2
  have hlen := h.2.1
  have hrd := holds_rd h (s.index + 1) (by omega) hslot
  obtain ⟨t, ht⟩ : ∃ t, ts[(s.index + 1).toNat]? = some t := by
    rw [List.getElem?_eq_getElem (by omega)]
    exact ⟨_, rfl⟩
  refine ⟨t, ?_, ?_⟩
  · unfold followingToken
    rw [if_pos hslot, hrd, ht]
  · rw [hrd, ht]

/-- Shape of the matches of one value option along a scan: every match has a token after it,
except possibly the last one. -/
theorem valueMatches_shape (v : ValueVar) (fuel : Nat) (s : ParseState) (ts : List Str)
    (h : s.Holds ts) :
    ∃ l : List Str, valueMatches v (parseArgsVisits fuel s) = l.map some ∨
      valueMatches v (parseArgsVisits fuel s) = l.map some ++ [none] := by
  induction fuel generalizing s ts with
  | zero => exact ⟨[], Or.inl rfl⟩
  | succ n ih =>
    rw [parseArgsVisits_succ]
    by_cases hlt : s.index < s.argc
    · rw [if_pos hlt]
      have hnext := parseArgsStep_holds h hlt
      by_cases hm : (matchedOption s).any (fun o => o.value = some v) = true
      · have hvm : valueMatches v (s :: parseArgsVisits n (parseArgsStep s)) =
            followingToken s :: valueMatches v (parseArgsVisits n (parseArgsStep s)) := by
          simp [valueMatches, List.filter_cons, hm]
        rw [hvm]
        by_cases hslot : s.index + 1 < s.argc
        · obtain ⟨t, ht, _⟩ := followingToken_of_holds h hslot
          obtain ⟨l, hl⟩ := ih (parseArgsStep s) _ hnext
          refine ⟨t :: l, ?_⟩
          rcases hl with hl | hl
          · left; rw [ht, hl]; rfl
          · right; rw [ht, hl]; rfl
        · obtain ⟨o, ho, hov⟩ : ∃ o, matchedOption s = some o ∧ o.value = some v := by
            cases hmo : matchedOption s with
            | none => rw [hmo] at hm; simp at hm
            | some o => rw [hmo] at hm; exact ⟨o, rfl, by simpa using hm⟩
          rw [parseArgsVisits_after_short_match s o v ho hov hslot]
          refine ⟨[], Or.inr ?_⟩
          simp [valueMatches, followingToken, hslot]
      · have hvm : valueMatches v (s :: parseArgsVisits n (parseArgsStep s)) =
            valueMatches v (parseArgsVisits n (parseArgsStep s)) := by
          simp [valueMatches, List.filter_cons, hm]
        rw [hvm]
        exact ih (parseArgsStep s) _ hnext
    · rw [if_neg hlt]
      exact ⟨[], Or.inl rfl⟩

/-- The value a scan leaves in `v`: the token after the last match of its option that had a
token after it, and the old value when there was no such match. -/
theorem parseArgsLoop_value (v : ValueVar) (fuel : Nat) (s : ParseState) (ts : List Str)
    (h : s.Holds ts) :
    v.get (parseArgsLoop fuel s).g =
      match ((valueMatches v (parseArgsVisits fuel s)).filterMap id).getLast? with
      | some t => some t
      | none => v.get s.g := by
  induction fuel generalizing s ts with
  | zero => rfl
  | succ n ih =>
    rw [parseArgsVisits_succ, parseArgsLoop_succ]
    by_cases hlt : s.index < s.argc
    · rw [if_pos hlt, if_pos hlt, ih (parseArgsStep s) _ (parseArgsStep_holds h hlt),
        parseArgsStep_value]
      by_cases hm : (matchedOption s).any (fun o => o.value = some v) = true
      · have hvm : valueMatches v (s :: parseArgsVisits n (parseArgsStep s)) =
            followingToken s :: valueMatches v (parseArgsVisits n (parseArgsStep s)) := by
          simp [valueMatches, List.filter_cons, hm]
        rw [hvm]
        by_cases hslot : s.index + 1 < s.argc
        · obtain ⟨t, ht, hrd⟩ := followingToken_of_holds h hslot
          rw [if_pos ⟨hm, hslot⟩, ht, hrd, List.filterMap_cons_some (by rfl : id (some t) = some t)]
          cases hrest : (List.filterMap id
              (valueMatches v (parseArgsVisits n (parseArgsStep s)))) with
          | nil => rfl
          | cons a l =>
            rw [List.getLast?_cons_cons, List.getLast?_eq_getLast (a :: l) (by simp)]
        · have hft : followingToken s = none := by simp [followingToken, hslot]
          rw [if_neg (fun hc => hslot hc.2), hft, List.filterMap_cons_none (by rfl : id (none : Option Str) = none)]
      · have hvm : valueMatches v (s :: parseArgsVisits n (parseArgsStep s)) =
            valueMatches v (parseArgsVisits n (parseArgsStep s)) := by
          simp [valueMatches, List.filter_cons, hm]
        rw [hvm, if_neg (fun hc => hm hc.1)]
    · rw [if_neg hlt, if_neg hlt]
      rfl

end Eclipse

namespace Eclipse

/-! ## Claims on `parseArgs` -/

/-- C1, evaluated on the command line `eclipse foo -vm`: the token `foo` matches no entry of
the option table and no matched option takes it as its value (`-vm` comes after it and binds
nothing), yet after `parseArgs` the argument list is the program name alone.  The final `-vm`
has no token after it, the removal loop does not run, and `argc` is still lowered by 2. -/
theorem parseArgs_drops_unmatched_token :
    findOption (some "foo".toList) = none ∧
    (parseArgs 3 (sentinel ["eclipse".toList, "foo".toList, "-vm".toList]) {}).args
      = [some "eclipse".toList] ∧
    (parseArgs 3 (sentinel ["eclipse".toList, "foo".toList, "-vm".toList]) {}).argc = 1 ∧
    (parseArgs 3 (sentinel ["eclipse".toList, "foo".toList, "-vm".toList]) {}).g.vmName = none := by
  decide

/-- C2 as stated fails on `eclipse -vm a -vm`: the option `-vm` is matched twice, its last
matched occurrence has no token after it, and the value bound afterwards is `a`, the token
after the first occurrence. -/
theorem parseArgs_last_occurrence_counterexample :
    valueMatches ValueVar.vmName (parseArgsVisits 4
        (scanStart ["eclipse".toList, "-vm".toList, "a".toList, "-vm".toList] {}))
      = [some "a".toList, none] ∧
    ValueVar.vmName.get
        (parseArgs 4 (sentinel ["eclipse".toList, "-vm".toList, "a".toList, "-vm".toList]) {}).g
      = some "a".toList := by
  decide

/-- C2, amended: when a value-binding option is matched more than once by `parseArgs`, the
value bound to it afterwards is the token that follows its last matched occurrence that has a
token after it; in particular it is the token after the last matched occurrence whenever that
occurrence has one.  (A match on the final token of the list binds nothing.) -/
theorem parseArgs_value_of_last_occurrence (ts : List Str) (g : Globals) (v : ValueVar)
    (h : 2 ≤ (valueMatches v (parseArgsVisits ts.length (scanStart ts g))).length) :
    (∃ t : Str,
      ((valueMatches v (parseArgsVisits ts.length (scanStart ts g))).filterMap id).getLast?
        = some t ∧
      v.get (parseArgs ts.length (sentinel ts) g).g = some t) ∧
    (∀ t : Str,
      (valueMatches v (parseArgsVisits ts.length (scanStart ts g))).getLast? = some (some t) →
      v.get (parseArgs ts.length (sentinel ts) g).g = some t) := by
  have hval := parseArgsLoop_value v ts.length (scanStart ts g) ts (scanStart_holds ts g)
  rw [← parseArgs_eq_scan] at hval
  obtain ⟨l, hl⟩ := valueMatches_shape v ts.length (scanStart ts g) ts (scanStart_holds ts g)
  have hfm : (valueMatches v (parseArgsVisits ts.length (scanStart ts g))).filterMap id = l := by
    rcases hl with hl | hl
    · rw [hl, List.filterMap_map]
      exact List.filterMap_some l
    · rw [hl, List.filterMap_append, List.filterMap_map]
      simp
  have hne : l ≠ [] := by
    intro hnil
    rcases hl with hl | hl <;> rw [hl, hnil] at h <;> simp at h
  rw [hfm, List.getLast?_eq_getLast l hne] at hval
  refine ⟨⟨l.getLast hne, ?_, hval⟩, ?_⟩
  · rw [hfm, List.getLast?_eq_getLast l hne]
  · intro t ht
    rcases hl with hl | hl
    · rw [hl, List.getLast?_map, List.getLast?_eq_getLast l hne] at ht
      have : l.getLast hne = t := by simpa using ht
      rw [hval, this]
    · rw [hl] at ht
      simp at ht

/-- C2, amended, on `eclipse -vm a -VM b`: two matches, and the value bound is `b`. -/
theorem parseArgs_value_of_last_occurrence_witness :
    2 ≤ (valueMatches ValueVar.vmName (parseArgsVisits
        ["eclipse".toList, "-vm".toList, "a".toList, "-VM".toList, "b".toList].length
        (scanStart ["eclipse".toList, "-vm".toList, "a".toList, "-VM".toList, "b".toList] {}))).length ∧
    ValueVar.vmName.get (parseArgs
        ["eclipse".toList, "-vm".toList, "a".toList, "-VM".toList, "b".toList].length
        (sentinel ["eclipse".toList, "-vm".toList, "a".toList, "-VM".toList, "b".toList]) {}).g
      = some "b".toList :=
  ⟨by decide,
   (parseArgs_value_of_last_occurrence
      ["eclipse".toList, "-vm".toList, "a".toList, "-VM".toList, "b".toList] {} ValueVar.vmName
      (by decide)).2 "b".toList (by decide)⟩

end Eclipse

namespace Eclipse

/-! ## `getVMCommand`: the program arguments -/

/-- The loop over the user arguments copies the entries `argv[1 .. argc-1]`. -/
theorem userArgs_eq (argc : Int) (argv : List (Option Str)) (hlen : argc.toNat ≤ argv.length) :
    userArgs argc argv = (argv.take argc.toNat).drop 1 := by
  unfold userArgs
  apply List.ext_getElem?
  intro n
  rw [List.getElem?_map, List.getElem?_drop, List.getElem?_take]
  by_cases hn : n < (argc - 1).toNat
  · rw [List.getElem?_range hn, if_pos (by omega)]
    have h1 : (1 : Int) + (n : Int) = ((1 + n : Nat) : Int) := by push_cast; rfl
    rw [Option.map_some', h1, rd_natCast, List.getElem?_eq_getElem (by omega)]
    rfl
  · rw [List.getElem?_eq_none (by simpa using hn), if_neg (by omega)]
    rfl

/-- C3: the program-argument array built by `getVMCommand` is the sentinel-terminated list
`-os <os> -ws <ws> [-arch <arch>] -launcher <program> -name <officialName> [-library <library>]
-startup <jarFile> [-showsplash] [-exitdata <sharedID>] <argv[1 .. argc-1]> -vm <vm> -vmargs
<VM arguments> <required VM arguments>`, where `-arch` appears only for a non-empty
architecture, `-library` only when a library was recorded, `-showsplash` (without a value) only
when `noSplash` is unset and `-exitdata` only when a shared-memory id exists. -/
theorem getVMCommand_progArgv_order (argc : Int) (argv : List (Option Str)) (g : Globals)
    (defaultVMarg : List Str) (os ws arch program officialName jarFile vm : Str)
    (user : List Str)
    (hos : g.osArg = some os) (hws : g.wsArg = some ws) (harch : g.osArchArg = some arch)
    (hprogram : g.program = some program) (hname : g.officialName = some officialName)
    (hjar : g.jarFile = some jarFile)
    (hvm : (if g.jniLib ≠ none then g.jniLib else g.javaVM) = some vm)
    (hlen : argc.toNat ≤ argv.length)
    (huser : (argv.take argc.toNat).drop 1 = user.map some) :
    (getVMCommand argc argv g defaultVMarg).2 =
      sentinel ([OS, os, WS, ws]
        ++ (if arch ≠ [] then [OSARCH, arch] else [])
        ++ [LAUNCHER, program, NAME, officialName]
        ++ (match g.library with
            | some library => [LIBRARY, library]
            | none => [])
        ++ [STARTUP, jarFile]
        ++ (if g.noSplash then [] else [SHOWSPLASH])
        ++ (match g.sharedID with
            | some sharedID => [EXITDATA, sharedID]
            | none => [])
        ++ user
        ++ [VM, vm, VMARGS]
        ++ vmArgBase g defaultVMarg
        ++ (reqVMarg g).filterMap id) := by
  have hreq : reqVMargs g = ((reqVMarg g).filterMap id).map some := by
    unfold reqVMargs reqVMarg
    cases g.cp <;> cases g.cpValue <;> rfl
  have harchIf : (if nonEmpty g.osArchArg then [some OSARCH, g.osArchArg] else []) =
      (if arch ≠ [] then [OSARCH, arch] else []).map some := by
    rw [harch]
    cases arch with
    | nil => simp [nonEmpty]
    | cons c cs => simp [nonEmpty]
  have hlib : (if g.library ≠ none then [some LIBRARY, g.library] else []) =
      (match g.library with
        | some library => [LIBRARY, library]
        | none => []).map some := by
    cases g.library <;> simp
  have hsplash : (if ¬ (g.noSplash = true) then [some SHOWSPLASH] else []) =
      (if g.noSplash then [] else [SHOWSPLASH]).map some := by
    cases g.noSplash <;> simp
  have hshared : (if g.sharedID ≠ none then [some EXITDATA, g.sharedID] else []) =
      (match g.sharedID with
        | some sharedID => [EXITDATA, sharedID]
        | none => []).map some := by
    cases g.sharedID <;> simp
  show getVMCommand_progArgv argc argv g defaultVMarg = _
  unfold getVMCommand_progArgv
  rw [userArgs_eq argc argv hlen, huser, hreq, harchIf, hlib, hsplash, hshared, hos, hws, hprogram,
    hname, hjar, hvm]
  simp [sentinel]

end Eclipse

namespace Eclipse

/-- C3 on the command line `eclipse -data /w` of a Linux install with the default VM argument
`-Xms40m`. -/
theorem getVMCommand_progArgv_order_witness :
    (getVMCommand 3 (sentinel ["/opt/eclipse/eclipse".toList, "-data".toList, "/w".toList])
        sampleGlobals ["-Xms40m".toList]).2 =
      sentinel ["-os".toList, "linux".toList, "-ws".toList, "gtk".toList, "-arch".toList,
        "x86".toList, "-launcher".toList, "/opt/eclipse/eclipse".toList, "-name".toList,
        "Eclipse".toList, "-startup".toList, "/opt/eclipse/startup.jar".toList,
        "-showsplash".toList, "-exitdata".toList, "7b4".toList, "-data".toList, "/w".toList,
        "-vm".toList, "/usr/bin/java".toList, "-vmargs".toList, "-Xms40m".toList, "-jar".toList,
        "/opt/eclipse/startup.jar".toList] :=
  (getVMCommand_progArgv_order 3
    (sentinel ["/opt/eclipse/eclipse".toList, "-data".toList, "/w".toList]) sampleGlobals
    ["-Xms40m".toList] "linux".toList "gtk".toList "x86".toList "/opt/eclipse/eclipse".toList
    "Eclipse".toList "/opt/eclipse/startup.jar".toList "/usr/bin/java".toList
    ["-data".toList, "/w".toList] rfl rfl rfl rfl rfl rfl rfl (by decide) (by decide)).trans
    (by decide)

end Eclipse

namespace Eclipse

/-! ## `getVMCommand`: the VM arguments -/

theorem isClasspath_iff (cp : Option Str) (u : List Str) (i : Nat) (hi : i < u.length) :
    (u.get? i).any (fun a => cp.any (fun c => tcscmpEq a c)) = true ↔ u.get? i = cp := by
  rw [List.get?_eq_getElem?, List.getElem?_eq_getElem hi]
  cases cp with
  | none => simp
  | some c => simp [tcscmpEq]

theorem vmArgCopied_succ (cp : Option Str) (u : List Str) (fuel src : Nat) :
    vmArgCopied cp u (fuel + 1) src =
      if src < u.length then
        if (u.get? src).any (fun a => cp.any (fun c => tcscmpEq a c)) then
          vmArgCopied cp u fuel (src + 1 + 1)
        else src :: vmArgCopied cp u fuel (src + 1)
      else [] := rfl

theorem vmArgScanned_succ (cp : Option Str) (u : List Str) (fuel src : Nat) :
    vmArgScanned cp u (fuel + 1) src =
      if src < u.length then
        if (u.get? src).any (fun a => cp.any (fun c => tcscmpEq a c)) then
          src :: vmArgScanned cp u fuel (src + 1 + 1)
        else src :: vmArgScanned cp u fuel (src + 1)
      else [] := rfl

/-- A position the loop scans lies in the list, at or after the start of the scan. -/
theorem vmArgScanned_bounds (cp : Option Str) (u : List Str) (fuel src i : Nat)
    (h : i ∈ vmArgScanned cp u fuel src) : src ≤ i ∧ i < u.length := by
  induction fuel generalizing src with
  | zero => simp [vmArgScanned] at h
  | succ n ih =>
    rw [vmArgScanned_succ] at h
    by_cases hlt : src < u.length
    · rw [if_pos hlt] at h
      by_cases hcp : (u.get? src).any (fun a => cp.any (fun c => tcscmpEq a c)) = true
      · rw [if_pos hcp, List.mem_cons] at h
        rcases h with h | h
        · omega
        · have := ih _ h
          omega
      · rw [if_neg hcp, List.mem_cons] at h
        rcases h with h | h
        · omega
        · have := ih _ h
          omega
    · rw [if_neg hlt] at h
      simp at h

/-- A copied position was scanned, and the token there is not the classpath flag. -/
theorem vmArgCopied_mem (cp : Option Str) (u : List Str) (fuel src i : Nat)
    (h : i ∈ vmArgCopied cp u fuel src) :
    i ∈ vmArgScanned cp u fuel src ∧ u.get? i ≠ cp := by
  induction fuel generalizing src with
  | zero => simp [vmArgCopied] at h
  | succ n ih =>
    rw [vmArgCopied_succ] at h
    rw [vmArgScanned_succ]
    by_cases hlt : src < u.length
    · rw [if_pos hlt] at h ⊢
      by_cases hcp : (u.get? src).any (fun a => cp.any (fun c => tcscmpEq a c)) = true
      · rw [if_pos hcp] at h ⊢
        exact ⟨List.mem_cons_of_mem _ (ih _ h).1, (ih _ h).2⟩
      · rw [if_neg hcp] at h ⊢
        rw [List.mem_cons] at h
        rcases h with h | h
        · subst h
          exact ⟨List.mem_cons_self _ _, fun hc => hcp ((isClasspath_iff cp u i hlt).2 hc)⟩
        · exact ⟨List.mem_cons_of_mem _ (ih _ h).1, (ih _ h).2⟩
    · rw [if_neg hlt] at h
      simp at h

/-- A scanned token equal to the classpath flag is not copied, and neither is the token
after it. -/
theorem vmArgScanned_flag_skipped (cp : Option Str) (u : List Str) (fuel src i : Nat)
    (h : i ∈ vmArgScanned cp u fuel src) (hflag : u.get? i = cp) :
    i ∉ vmArgCopied cp u fuel src ∧ i + 1 ∉ vmArgCopied cp u fuel src := by
  induction fuel generalizing src with
  | zero => simp [vmArgScanned] at h
  | succ n ih =>
    rw [vmArgScanned_succ] at h
    rw [vmArgCopied_succ]
    by_cases hlt : src < u.length
    · rw [if_pos hlt] at h ⊢
      by_cases hcp : (u.get? src).any (fun a => cp.any (fun c => tcscmpEq a c)) = true
      · rw [if_pos hcp] at h ⊢
        rw [List.mem_cons] at h
        rcases h with h | h
        · subst h
          constructor
          · intro hc
            have := vmArgScanned_bounds cp u n _ _ (vmArgCopied_mem cp u n _ _ hc).1
            omega
          · intro hc
            have := vmArgScanned_bounds cp u n _ _ (vmArgCopied_mem cp u n _ _ hc).1
            omega
        · exact ih _ h
      · rw [if_neg hcp] at h ⊢
        rw [List.mem_cons] at h
        rcases h with h | h
        · subst h
          exact absurd ((isClasspath_iff cp u i hlt).2 hflag) hcp
        · have hb := vmArgScanned_bounds cp u n _ _ h
          have := ih _ h
          constructor
          · rw [List.mem_cons]
            rintro (hc | hc)
            · omega
            · exact this.1 hc
          · rw [List.mem_cons]
            rintro (hc | hc)
            · omega
            · exact this.2 hc
    · rw [if_neg hlt] at h
      simp at h

/-- Every position from the start of the scan on is either scanned or directly follows a
scanned token equal to the classpath flag. -/
theorem vmArgScanned_covers (cp : Option Str) (u : List Str) (fuel src i : Nat)
    (hfuel : u.length ≤ src + fuel) (hsrc : src ≤ i) (hi : i < u.length) :
    i ∈ vmArgScanned cp u fuel src ∨
      ∃ j, j ∈ vmArgScanned cp u fuel src ∧ u.get? j = cp ∧ i = j + 1 := by
  induction fuel generalizing src with
  | zero => omega
  | succ n ih =>
    rw [vmArgScanned_succ, if_pos (by omega)]
    by_cases hcp : (u.get? src).any (fun a => cp.any (fun c => tcscmpEq a c)) = true
    · rw [if_pos hcp]
      by_cases h0 : i = src
      · left; rw [h0]; exact List.mem_cons_self _ _
      · by_cases h1 : i = src + 1
        · right
          exact ⟨src, List.mem_cons_self _ _, (isClasspath_iff cp u src (by omega)).1 hcp, h1⟩
        · rcases ih (src + 1 + 1) (by omega) (by omega) with h | ⟨j, hj, hjc, hij⟩
          · left; exact List.mem_cons_of_mem _ h
          · right; exact ⟨j, List.mem_cons_of_mem _ hj, hjc, hij⟩
    · rw [if_neg hcp]
      by_cases h0 : i = src
      · left; rw [h0]; exact List.mem_cons_self _ _
      · rcases ih (src + 1) (by omega) (by omega) with h | ⟨j, hj, hjc, hij⟩
        · left; exact List.mem_cons_of_mem _ h
        · right; exact ⟨j, List.mem_cons_of_mem _ hj, hjc, hij⟩

/-- C4 as stated fails on the user list `-jar -jar x` in external-process mode (the flag is
`-jar`): the token at position 1 equals the flag, and the token after it, `x`, is copied into
the result. -/
theorem getVMCommand_classpath_counterexample :
    ["-jar".toList, "-jar".toList, "x".toList].get? 1 = sampleGlobals.cp ∧
    2 ∈ vmArgCopied sampleGlobals.cp ["-jar".toList, "-jar".toList, "x".toList] 3 0 ∧
    (getVMCommand 1 (sentinel ["/opt/eclipse/eclipse".toList])
        { sampleGlobals with userVMarg := some ["-jar".toList, "-jar".toList, "x".toList] } []).1
      = sentinel ["x".toList, "-jar".toList, "/opt/eclipse/startup.jar".toList] := by
  decide

/-- C4, amended: with the user-supplied VM arguments `u`, the VM-argument array built by
`getVMCommand` consists of the copied entries of `u`, then the required VM arguments the
function appends itself, then the sentinel.  No copied entry equals the classpath flag `cp`;
wherever the left-to-right scan reaches a token equal to the flag, neither that token nor the
token after it is copied; and every token of `u` is either reached by the scan or is the token
skipped after a flag the scan reached. -/
theorem getVMCommand_skips_user_classpath (argc : Int) (argv : List (Option Str)) (g : Globals)
    (defaultVMarg : List Str) (u : List Str) (hu : g.userVMarg = some u) :
    (getVMCommand argc argv g defaultVMarg).1 =
        (vmArgCopied g.cp u u.length 0).map (fun src => u.get? src) ++ reqVMargs g ++ [none] ∧
    (∀ i, i ∈ vmArgCopied g.cp u u.length 0 → i < u.length ∧ u.get? i ≠ g.cp) ∧
    (∀ i, i ∈ vmArgScanned g.cp u u.length 0 → u.get? i = g.cp →
      i ∉ vmArgCopied g.cp u u.length 0 ∧ i + 1 ∉ vmArgCopied g.cp u u.length 0) ∧
    (∀ i, i < u.length →
      i ∈ vmArgScanned g.cp u u.length 0 ∨
        ∃ j, j ∈ vmArgScanned g.cp u u.length 0 ∧ u.get? j = g.cp ∧ i = j + 1) := by
  refine ⟨?_, ?_, ?_, ?_⟩
  · show getVMCommand_vmArgv g defaultVMarg = _
    unfold getVMCommand_vmArgv vmArgBase
    rw [hu]
  · intro i hi
    have hm := vmArgCopied_mem g.cp u u.length 0 i hi
    exact ⟨(vmArgScanned_bounds g.cp u u.length 0 i hm.1).2, hm.2⟩
  · intro i hi hflag
    exact vmArgScanned_flag_skipped g.cp u u.length 0 i hi hflag
  · intro i hi
    exact vmArgScanned_covers g.cp u u.length 0 i (by omega) (by omega) hi

/-- C4, amended, on the user list `-Xmx1g -jar other.jar -jar -jar x`: the result keeps
`-Xmx1g` and `x` and ends with the launcher's own `-jar <startup jar>`. -/
theorem getVMCommand_skips_user_classpath_witness :
    (getVMCommand 1 (sentinel ["/opt/eclipse/eclipse".toList])
        { sampleGlobals with userVMarg := some ["-Xmx1g".toList, "-jar".toList,
            "other.jar".toList, "-jar".toList, "-jar".toList, "x".toList] } []).1
      = sentinel ["-Xmx1g".toList, "x".toList, "-jar".toList, "/opt/eclipse/startup.jar".toList] :=
  (getVMCommand_skips_user_classpath 1 (sentinel ["/opt/eclipse/eclipse".toList])
    { sampleGlobals with userVMarg := some ["-Xmx1g".toList, "-jar".toList,
        "other.jar".toList, "-jar".toList, "-jar".toList, "x".toList] } []
    ["-Xmx1g".toList, "-jar".toList, "other.jar".toList, "-jar".toList, "-jar".toList,
      "x".toList] rfl).1.trans (by decide)

end Eclipse

namespace Eclipse

/-! ## Exit data with a title -/

theorem tcsstr_cons (needle : Str) (c : Char) (hay : Str) :
    tcsstr needle (c :: hay) =
      if needle.isPrefixOf (c :: hay) then some 0 else (tcsstr needle hay).map (· + 1) := rfl

/-- An occurrence of `</title>` that starts inside `s` and is complete within
`s ++ "</title>" ++ b` lies inside `s`: the closing tag does not overlap itself. -/
theorem closeTag_no_straddle (s b : Str) (hs : s ≠ [])
    (h : "</title>".toList <+: s ++ ("</title>".toList ++ b)) : "</title>".toList <+: s := by
  by_cases hlen : 8 ≤ s.length
  · have h8 : ("</title>".toList).length ≤ s.length := hlen
    rw [List.prefix_iff_eq_take, List.take_append_of_le_length h8] at h
    exact List.prefix_iff_eq_take.2 h
  · exfalso
    have h1 : 0 < s.length := List.length_pos.2 hs
    have h2 : s.length < 8 := by omega
    obtain ⟨r, hr⟩ := h
    have hget := congrArg (fun l => l[s.length]?) hr
    simp only [List.getElem?_append_right (le_refl s.length), Nat.sub_self] at hget
    have h3 : ("</title>".toList ++ b)[0]? = some '<' := by simp
    rw [h3] at hget
    have h4 : ("</title>".toList ++ r)[s.length]? = ("</title>".toList)[s.length]? := by
      apply List.getElem?_append_left
      simpa using h2
    rw [h4] at hget
    generalize s.length = n at *
    interval_cases n <;> simp at hget

/-- The first `</title>` in `t ++ "</title>" ++ b` is the one written out, when `t` holds none. -/
theorem tcsstr_closeTag (t b : Str) (ht : ¬ ("</title>".toList <:+: t)) :
    tcsstr "</title>".toList (t ++ ("</title>".toList ++ b)) = some t.length := by
  induction t with
  | nil =>
    show tcsstr "</title>".toList ('<' :: ("/title>".toList ++ b)) = some 0
    rw [tcsstr_cons, if_pos]
    simp [List.isPrefixOf]
  | cons c t ih =>
    have hnot : ¬ ("</title>".toList).isPrefixOf (c :: (t ++ ("</title>".toList ++ b))) = true := by
      intro hp
      rw [List.isPrefixOf_iff_prefix] at hp
      exact ht (closeTag_no_straddle (c :: t) b (by simp) hp).isInfix
    have ht2 : ¬ ("</title>".toList <:+: t) := fun hc => ht (List.infix_cons hc)
    show tcsstr "</title>".toList (c :: (t ++ ("</title>".toList ++ b))) = _
    rw [tcsstr_cons, if_neg hnot, ih ht2]
    rfl

/-- The search for `</title>` passes over a leading `<title>`. -/
theorem tcsstr_after_openTag (rest : Str) :
    tcsstr "</title>".toList ("<title>".toList ++ rest) =
      (tcsstr "</title>".toList rest).map (· + 7) := by
  show tcsstr "</title>".toList ('<' :: 't' :: 'i' :: 't' :: 'l' :: 'e' :: '>' :: rest) = _
  simp only [tcsstr_cons]
  have e : "</title>".toList = ['<', '/', 't', 'i', 't', 'l', 'e', '>'] := rfl
  rw [e]
  simp [List.isPrefixOf, Option.map_map]

/-- Exit data of the form `<title>t</title>b`, with no `</title>` inside `t`, is shown with
title `t` and message `b`. -/
theorem splitTitle_tagged (officialName : Option Str) (t b : Str)
    (ht : ¬ ("</title>".toList <:+: t)) :
    splitTitle officialName ("<title>".toList ++ t ++ "</title>".toList ++ b) = (some t, some b) := by
  unfold splitTitle
  have hp : tcsncmpEq ("<title>".toList ++ t ++ "</title>".toList ++ b) "<title>".toList = true := by
    unfold tcsncmpEq
    rw [List.isPrefixOf_iff_prefix, List.append_assoc, List.append_assoc]
    exact List.prefix_append _ _
  rw [if_pos hp]
  have hs : tcsstr "</title>".toList ("<title>".toList ++ t ++ "</title>".toList ++ b) =
      some (t.length + 7) := by
    rw [List.append_assoc, List.append_assoc, tcsstr_after_openTag, tcsstr_closeTag t b ht]
    rfl
  rw [hs]
  have e7 : ("<title>".toList).length = 7 := rfl
  have e8 : ("</title>".toList).length = 8 := rfl
  simp only [e7, e8]
  congr 1
  · have : ("<title>".toList ++ t ++ "</title>".toList ++ b).take (t.length + 7) =
        "<title>".toList ++ t := by
      rw [List.append_assoc ("<title>".toList ++ t)]
      apply List.take_left'
      rw [List.length_append, e7]
      omega
    rw [this]
    have hdrop7 : ("<title>".toList ++ t).drop 7 = t := List.drop_left' e7
    rw [hdrop7]
  · have : ("<title>".toList ++ t ++ "</title>".toList ++ b).drop (t.length + 7 + 8) = b := by
      apply List.drop_left'
      rw [List.length_append, List.length_append, e7, e8]
      omega
    rw [this]

/-- Exit data that does not begin with `<title>` is shown whole under the application name. -/
theorem splitTitle_plain (officialName : Option Str) (p : Str)
    (hp : ¬ ("<title>".toList <+: p)) : splitTitle officialName p = (officialName, some p) := by
  unfold splitTitle
  rw [if_neg]
  unfold tcsncmpEq
  rw [List.isPrefixOf_iff_prefix]
  exact hp

end Eclipse

namespace Eclipse

/-! ## `getRelaunchCommand` on a sentinel-terminated command -/

theorem sentinel_getElem? (cmd : List Str) (k : Nat) (hk : k ≤ cmd.length) :
    (sentinel cmd)[k]? = some (cmd[k]?) := by
  unfold sentinel
  by_cases hlt : k < cmd.length
  · rw [List.getElem?_append_left (by simpa using hlt), List.getElem?_map,
      List.getElem?_eq_getElem hlt]
    rfl
  · have hk2 : k = cmd.length := by omega
    subst hk2
    rw [List.getElem?_append_right (by simp), List.getElem?_eq_none (le_refl _)]
    simp

theorem rdChecked_sentinel (cmd : List Str) (k : Nat) (hk : k ≤ cmd.length) :
    rdChecked (sentinel cmd) (k : Int) = some (cmd[k]?) := by
  unfold rdChecked
  rw [if_neg (by omega), List.get?_eq_getElem?]
  simpa using sentinel_getElem? cmd k hk

theorem rd_sentinel (cmd : List Str) (k : Nat) (hk : k ≤ cmd.length) :
    rd (sentinel cmd) (k : Int) = cmd[k]? := by
  rw [rd_natCast, sentinel_getElem? cmd k hk]
  rfl

theorem sentinel_length (cmd : List Str) : (sentinel cmd).length = cmd.length + 1 := by
  simp [sentinel]

/-- The first loop stops at the sentinel; the position it leaves in `begin` is -1 or lies
within the command, after the program slot. -/
theorem findBegin_sentinel (reqs : List (Option Str)) (cmd : List Str) (fuel j req : Nat)
    (begin : Int) (hj : j ≤ cmd.length) (hfuel : cmd.length - j < fuel)
    (hb : begin = -1 ∨ (1 ≤ begin ∧ begin ≤ j)) :
    ∃ b : Int, findBegin reqs (sentinel cmd) fuel ((j : Int) - 1) req begin
        = some ((cmd.length : Int), b) ∧
      (b = -1 ∨ (1 ≤ b ∧ b ≤ cmd.length)) := by
  induction fuel generalizing j req begin with
  | zero => omega
  | succ n ih =>
    unfold findBegin
    have hidx : (j : Int) - 1 + 1 = (j : Int) := by omega
    rw [hidx, rdChecked_sentinel cmd j hj]
    by_cases hlt : j < cmd.length
    · rw [List.getElem?_eq_getElem hlt]
      have hnext : (j : Int) = ((j + 1 : Nat) : Int) - 1 := by push_cast; omega
      have hb1 : (begin = -1 ∨ (1 ≤ begin ∧ begin ≤ ((j + 1 : Nat) : Int))) := by
        rcases hb with hb | hb
        · exact Or.inl hb
        · right; push_cast; omega
      have hb2 : ((j : Int) + 1 = -1 ∨ (1 ≤ (j : Int) + 1 ∧ (j : Int) + 1 ≤ ((j + 1 : Nat) : Int))) := by
        right; push_cast; omega
      simp only []
      split
      · split
        · rw [hnext]
          exact ih (j + 1) (req + 1) _ (by omega) (by omega) (by
            have : ((j + 1 : Nat) : Int) - 1 + 1 = (j : Int) + 1 := by push_cast; omega
            rw [this]; exact hb2)
        · rw [hnext]
          exact ih (j + 1) (req + 1) _ (by omega) (by omega) hb1
      · rw [hnext]
        exact ih (j + 1) req _ (by omega) (by omega) hb1
    · have hj2 : j = cmd.length := by omega
      rw [List.getElem?_eq_none (by omega)]
      refine ⟨begin, ?_, ?_⟩
      · simp [hj2]
      · rcases hb with hb | hb
        · exact Or.inl hb
        · right; omega

/-- On a sentinel-terminated command the value of `begin` is found, and it is at least 1; it
lies within the command when the command has a token. -/
theorem relaunchBegin_sentinel (g : Globals) (cmd : List Str) :
    ∃ b : Nat, relaunchBegin g (sentinel cmd) = some (b : Int) ∧ 1 ≤ b ∧
      (cmd ≠ [] → b ≤ cmd.length) := by
  unfold relaunchBegin
  have h := findBegin_sentinel (reqVMarg g) cmd ((sentinel cmd).length + 1) 0 0 (-1)
    (by omega) (by rw [sentinel_length]; omega) (Or.inl rfl)
  obtain ⟨b, hb, hrange⟩ := h
  have h0 : ((0 : Nat) : Int) - 1 = -1 := by simp
  rw [h0] at hb
  rw [hb]
  by_cases hneg : b = -1
  · refine ⟨1, by simp [hneg], le_refl _, ?_⟩
    intro hne
    exact List.length_pos.2 hne
  · have hr : 1 ≤ b ∧ b ≤ cmd.length := by
      rcases hrange with h | h
      · exact absurd h hneg
      · exact h
    refine ⟨b.toNat, ?_, by omega, fun _ => by omega⟩
    simp only [if_neg hneg]
    congr 1
    omega

end Eclipse

namespace Eclipse

theorem toLower_eq_dash (c : Char) (h : c.toLower = '-') : c = '-' := by
  unfold Char.toLower at h
  simp only at h
  split at h
  · rename_i hr
    exfalso
    generalize c.toNat = n at h hr
    obtain ⟨h1, h2⟩ := hr
    interval_cases n <;> exact absurd h (by decide)
  · exact h

/-- A token matching `-showsplash` starts with `-`. -/
theorem splash_dash (a : Str) (h : tcsicmpEq a SHOWSPLASH = true) : firstCharIs a '-' = true := by
  unfold tcsicmpEq at h
  have h2 : a.map Char.toLower = SHOWSPLASH.map Char.toLower := by simpa using h
  cases a with
  | nil => exact absurd h2 (by decide)
  | cons c cs =>
    have h3 : c.toLower = '-' := by
      have := congrArg List.head? h2
      simpa [SHOWSPLASH] using this
    simp [firstCharIs, toLower_eq_dash c h3]

/-- A token starting with the classpath marker starts with `-`. -/
theorem classpath_dash (a : Str) (h : tcsncmpEq a CLASSPATH_PREFIX = true) :
    firstCharIs a '-' = true := by
  unfold tcsncmpEq at h
  rw [List.isPrefixOf_iff_prefix] at h
  obtain ⟨r, hr⟩ := h
  rw [← hr]
  rfl

theorem relaunchKept_cons (a : Str) (l : List Str) :
    relaunchKept (a :: l) =
      if tcsicmpEq a SHOWSPLASH then
        (match l with
          | [] => [a]
          | n :: rest => if firstCharIs n '-' then relaunchKept rest else a :: relaunchKept (n :: rest))
      else if tcsncmpEq a CLASSPATH_PREFIX then relaunchKept l
      else a :: relaunchKept l := by
  cases l with
  | nil =>
    simp only [relaunchKept]
  | cons n rest => simp only [relaunchKept]

theorem copyRelaunch_succ (a : List (Option Str)) (fuel : Nat) (i : Int) :
    copyRelaunch a (fuel + 1) i =
      match rdChecked a i with
      | none => none
      | some none => some []
      | some (some arg) =>
        if tcsicmpEq arg SHOWSPLASH then
          match rdChecked a (i + 1) with
          | none => none
          | some next =>
            if next.any (fun n => firstCharIs n '-') then copyRelaunch a fuel (i + 1 + 1)
            else (copyRelaunch a fuel (i + 1)).map (fun copied => i :: copied)
        else if tcsncmpEq arg CLASSPATH_PREFIX then copyRelaunch a fuel (i + 1)
        else (copyRelaunch a fuel (i + 1)).map (fun copied => i :: copied) := rfl

theorem relaunchScanned_succ (a : List (Option Str)) (fuel : Nat) (i : Int) :
    relaunchScanned a (fuel + 1) i =
      match rdChecked a i with
      | none => none
      | some none => some []
      | some (some arg) =>
        if tcsicmpEq arg SHOWSPLASH then
          match rdChecked a (i + 1) with
          | none => none
          | some next =>
            if next.any (fun n => firstCharIs n '-') then
              (relaunchScanned a fuel (i + 1 + 1)).map (fun scanned => i :: scanned)
            else (relaunchScanned a fuel (i + 1)).map (fun scanned => i :: scanned)
        else (relaunchScanned a fuel (i + 1)).map (fun scanned => i :: scanned) := rfl

theorem natCast_succ (k : Nat) : (k : Int) + 1 = ((k + 1 : Nat) : Int) := by
  push_cast; rfl

theorem splashHandled_cons (a : List (Option Str)) (copied : List Int) (i k : Int)
    (h : SplashHandled a copied i) (hne : i ≠ k) : SplashHandled a (k :: copied) i := by
  intro tok htok hsplash
  obtain ⟨h1, h2, h3⟩ := h tok htok hsplash
  refine ⟨?_, ?_, ?_⟩
  · intro nx hnx hd
    exact ⟨List.mem_cons_of_mem _ (h1 nx hnx hd).1, List.mem_cons_of_mem _ (h1 nx hnx hd).2⟩
  · intro hn
    exact List.mem_cons_of_mem _ (h2 hn)
  · intro nx hnx hd hmem
    rcases List.mem_cons.1 hmem with hm | hm
    · exact hne hm
    · exact h3 nx hnx hd hm

end Eclipse

namespace Eclipse

/-- The second loop of `getRelaunchCommand` on a sentinel-terminated command, entered at a
position `k` within it: it stops at the sentinel, the tokens it copies are `relaunchKept` of
the tokens from `k` on, every token matching `-showsplash` it reaches is treated as
`SplashHandled` says, and a first token that does not start with `-` is copied. -/
theorem copyRelaunch_sentinel (cmd : List Str) (fuel k : Nat) (hk : k ≤ cmd.length)
    (hfuel : cmd.length - k < fuel) :
    ∃ copied scanned : List Int,
      copyRelaunch (sentinel cmd) fuel k = some copied ∧
      relaunchScanned (sentinel cmd) fuel k = some scanned ∧
      copied.map (fun i => rd (sentinel cmd) i) = (relaunchKept (cmd.drop k)).map some ∧
      (∀ i ∈ scanned, (k : Int) ≤ i ∧ i < cmd.length) ∧
      (∀ i ∈ copied, i ∈ scanned) ∧
      (∀ i ∈ scanned, SplashHandled (sentinel cmd) copied i) ∧
      (∀ tok, cmd[k]? = some tok → firstCharIs tok '-' = false → (k : Int) ∈ copied) := by
  induction fuel generalizing k with
  | zero => omega
  | succ n ih =>
    rw [copyRelaunch_succ, relaunchScanned_succ, rdChecked_sentinel cmd k hk]
    by_cases hlt : k < cmd.length
    · obtain ⟨tok, htok⟩ : ∃ tok, cmd[k]? = some tok := ⟨cmd[k], List.getElem?_eq_getElem hlt⟩
      have hdrop : cmd.drop k = tok :: cmd.drop (k + 1) := by
        rw [List.drop_eq_getElem_cons hlt]
        congr 1
        rw [List.getElem?_eq_getElem hlt] at htok
        exact Option.some.inj htok
      have hrdk : rd (sentinel cmd) (k : Int) = some tok := by rw [rd_sentinel cmd k hk, htok]
      have hrdk1 : rd (sentinel cmd) ((k : Int) + 1) = cmd[k + 1]? := by
        rw [natCast_succ, rd_sentinel cmd (k + 1) (by omega)]
      rw [htok, natCast_succ, rdChecked_sentinel cmd (k + 1) (by omega), hdrop, relaunchKept_cons]
      simp only []
      obtain ⟨c1, s1, hc1, hs1, hmap1, hb1, hsub1, hsp1, hhd1⟩ := ih (k + 1) (by omega) (by omega)
      by_cases hsplash : tcsicmpEq tok SHOWSPLASH = true
      · rw [if_pos hsplash, if_pos hsplash, if_pos hsplash]
        by_cases hdash : (cmd[k + 1]?).any (fun n => firstCharIs n '-') = true
        · -- `-showsplash` followed by a token starting with `-`: both are passed over
          obtain ⟨nx, hnx, hnxd⟩ : ∃ nx, cmd[k + 1]? = some nx ∧ firstCharIs nx '-' = true := by
            cases hc : cmd[k + 1]? with
            | none => rw [hc] at hdash; simp at hdash
            | some nx => rw [hc] at hdash; exact ⟨nx, rfl, by simpa using hdash⟩
          have hlt2 : k + 1 < cmd.length := (List.getElem?_eq_some.1 hnx).1
          have hdrop2 : cmd.drop (k + 1) = nx :: cmd.drop (k + 1 + 1) := by
            rw [List.drop_eq_getElem_cons hlt2]
            congr 1
            rw [List.getElem?_eq_getElem hlt2] at hnx
            exact Option.some.inj hnx
          obtain ⟨c2, s2, hc2, hs2, hmap2, hb2, hsub2, hsp2, _⟩ :=
            ih (k + 1 + 1) (by omega) (by omega)
          rw [if_pos hdash, if_pos hdash, natCast_succ, hc2, hs2, hdrop2]
          simp only [if_pos hnxd]
          refine ⟨c2, (k : Int) :: s2, rfl, rfl, hmap2, ?_, ?_, ?_, ?_⟩
          · intro i hi
            rcases List.mem_cons.1 hi with hi | hi
            · omega
            · have := hb2 i hi
              push_cast at this
              omega
          · intro i hi
            exact List.mem_cons_of_mem _ (hsub2 i hi)
          · intro i hi
            rcases List.mem_cons.1 hi with hi | hi
            · subst hi
              intro tok2 htok2 _
              refine ⟨?_, ?_, ?_⟩
              · intro nx2 hnx2 hd2
                rw [hrdk1, hnx] at hnx2
                rw [← Option.some.inj hnx2, hnxd] at hd2
                exact absurd hd2 (by simp)
              · intro hn
                rw [hrdk1, hnx] at hn
                exact absurd hn (by simp)
              · intro _ _ _ hmem
                have := hb2 _ (hsub2 _ hmem)
                push_cast at this
                omega
            · exact hsp2 i hi
          · intro tok2 htok2 hd2
            rw [← Option.some.inj htok2, splash_dash tok hsplash] at hd2
            exact absurd hd2 (by simp)
        · -- `-showsplash` followed by its value or by the sentinel: it is copied
          rw [if_neg hdash, if_neg hdash, hc1, hs1]
          have hkept : (match cmd.drop (k + 1) with
              | [] => [tok]
              | n :: rest =>
                if firstCharIs n '-' = true then relaunchKept rest
                else tok :: relaunchKept (n :: rest)) = tok :: relaunchKept (cmd.drop (k + 1)) := by
            cases hd : cmd.drop (k + 1) with
            | nil => rfl
            | cons nx rest =>
              have hnx : cmd[k + 1]? = some nx := by
                rw [← List.head?_drop, hd]
                rfl
              rw [hnx] at hdash
              have : ¬ firstCharIs nx '-' = true := by simpa using hdash
              simp only [if_neg this]
          rw [hkept]
          refine ⟨(k : Int) :: c1, (k : Int) :: s1, rfl, rfl, ?_, ?_, ?_, ?_, ?_⟩
          · rw [List.map_cons, List.map_cons, hmap1, hrdk]
          · intro i hi
            rcases List.mem_cons.1 hi with hi | hi
            · omega
            · have := hb1 i hi
              push_cast at this
              omega
          · intro i hi
            rcases List.mem_cons.1 hi with hi | hi
            · rw [hi]; exact List.mem_cons_self _ _
            · exact List.mem_cons_of_mem _ (hsub1 i hi)
          · intro i hi
            rcases List.mem_cons.1 hi with hi | hi
            · subst hi
              intro tok2 _ _
              refine ⟨?_, ?_, ?_⟩
              · intro nx2 hnx2 hd2
                rw [hrdk1] at hnx2
                refine ⟨List.mem_cons_self _ _, List.mem_cons_of_mem _ ?_⟩
                rw [natCast_succ]
                exact hhd1 nx2 hnx2 hd2
              · intro _
                exact List.mem_cons_self _ _
              · intro nx2 hnx2 hd2
                rw [hrdk1] at hnx2
                rw [hnx2] at hdash
                exact absurd (by simpa using hd2) hdash
            · apply splashHandled_cons _ _ _ _ (hsp1 i hi)
              have := hb1 i hi
              push_cast at this
              omega
          · intro _ _ _
            exact List.mem_cons_self _ _
      · rw [if_neg hsplash, if_neg hsplash, if_neg hsplash, hs1]
        by_cases hcp : tcsncmpEq tok CLASSPATH_PREFIX = true
        · -- a token starting with the classpath marker is passed over
          rw [if_pos hcp, if_pos hcp, hc1]
          refine ⟨c1, (k : Int) :: s1, rfl, rfl, hmap1, ?_, ?_, ?_, ?_⟩
          · intro i hi
            rcases List.mem_cons.1 hi with hi | hi
            · omega
            · have := hb1 i hi
              push_cast at this
              omega
          · intro i hi
            exact List.mem_cons_of_mem _ (hsub1 i hi)
          · intro i hi
            rcases List.mem_cons.1 hi with hi | hi
            · subst hi
              intro tok2 htok2 hsp2
              rw [hrdk] at htok2
              rw [← Option.some.inj htok2] at hsp2
              exact absurd hsp2 hsplash
            · exact hsp1 i hi
          · intro tok2 htok2 hd2
            rw [← Option.some.inj htok2, classpath_dash tok hcp] at hd2
            exact absurd hd2 (by simp)
        · -- any other token is copied
          rw [if_neg hcp, if_neg hcp, hc1]
          refine ⟨(k : Int) :: c1, (k : Int) :: s1, rfl, rfl, ?_, ?_, ?_, ?_, ?_⟩
          · rw [List.map_cons, List.map_cons, hmap1, hrdk]
          · intro i hi
            rcases List.mem_cons.1 hi with hi | hi
            · omega
            · have := hb1 i hi
              push_cast at this
              omega
          · intro i hi
            rcases List.mem_cons.1 hi with hi | hi
            · rw [hi]; exact List.mem_cons_self _ _
            · exact List.mem_cons_of_mem _ (hsub1 i hi)
          · intro i hi
            rcases List.mem_cons.1 hi with hi | hi
            · subst hi
              intro tok2 htok2 hsp2
              rw [hrdk] at htok2
              rw [← Option.some.inj htok2] at hsp2
              exact absurd hsp2 hsplash
            · apply splashHandled_cons _ _ _ _ (hsp1 i hi)
              have := hb1 i hi
              push_cast at this
              omega
          · intro _ _ _
            exact List.mem_cons_self _ _
    · have hk2 : k = cmd.length := by omega
      rw [List.getElem?_eq_none (by omega), List.drop_eq_nil_of_le (by omega)]
      refine ⟨[], [], rfl, rfl, rfl, ?_, ?_, ?_, ?_⟩
      · intro i hi; simp at hi
      · intro i hi; simp at hi
      · intro i hi; simp at hi
      · intro tok htok
        exact absurd htok (by simp)

end Eclipse

namespace Eclipse

theorem tokens_sentinel_append (l : List Str) (rest : List (Option Str)) :
    tokens (l.map some ++ none :: rest) = l := by
  induction l with
  | nil => rfl
  | cons a l ih =>
    show a :: tokens (l.map some ++ none :: rest) = a :: l
    rw [ih]

theorem tokens_sentinel (l : List Str) : tokens (sentinel l) = l :=
  tokens_sentinel_append l []

/-- A token that does not start with `-` is copied by the second loop. -/
theorem relaunchKept_of_not_dash (a : Str) (l : List Str) (h : firstCharIs a '-' = false) :
    relaunchKept (a :: l) = a :: relaunchKept l := by
  have h1 : ¬ tcsicmpEq a SHOWSPLASH = true := by
    intro hc
    rw [splash_dash a hc] at h
    exact absurd h (by simp)
  have h2 : ¬ tcsncmpEq a CLASSPATH_PREFIX = true := by
    intro hc
    rw [classpath_dash a hc] at h
    exact absurd h (by simp)
  rw [relaunchKept_cons, if_neg h1, if_neg h2]

/-- Among the tokens the second loop copies, none that matches `-showsplash` is directly
followed by a token starting with `-`. -/
theorem relaunchKept_splashHasValue (l : List Str) : SplashHasValue (relaunchKept l) := by
  have key : ∀ n (l : List Str), l.length ≤ n → SplashHasValue (relaunchKept l) := by
    intro n
    induction n with
    | zero =>
      intro l hl
      have : l = [] := List.length_eq_zero.1 (by omega)
      subst this
      exact List.chain'_nil
    | succ n ih =>
      intro l hl
      cases l with
      | nil => exact List.chain'_nil
      | cons a l =>
        have hl2 : l.length ≤ n := by simpa using hl
        rw [relaunchKept_cons]
        by_cases hs : tcsicmpEq a SHOWSPLASH = true
        · rw [if_pos hs]
          cases l with
          | nil => exact List.chain'_singleton a
          | cons nx rest =>
            by_cases hd : firstCharIs nx '-' = true
            · simp only [if_pos hd]
              exact ih rest (by simp at hl2; omega)
            · simp only [if_neg hd]
              have hd2 : firstCharIs nx '-' = false := by simpa using hd
              apply List.Chain'.cons' (ih (nx :: rest) hl2)
              intro y hy
              rw [relaunchKept_of_not_dash nx rest hd2] at hy
              have : nx = y := by simpa using hy
              rw [← this]
              intro hc
              exact hd hc.2
        · rw [if_neg hs]
          by_cases hc : tcsncmpEq a CLASSPATH_PREFIX = true
          · rw [if_pos hc]
            exact ih l hl2
          · rw [if_neg hc]
            apply List.Chain'.cons' (ih l hl2)
            intro y _ hcon
            exact hs hcon.1
  exact key l.length l (le_refl _)

theorem getRelaunchCommand_empty (g : Globals) : getRelaunchCommand g (sentinel []) = none := by
  simp [getRelaunchCommand, relaunchBegin, findBegin, copyRelaunch, rdChecked, sentinel]

/-- The function `getRelaunchCommand` on a sentinel-terminated command that has a token: it
returns, `begin` lies within the command, and the entries after the launcher's own path are
the tokens `relaunchKept` keeps from `begin` on. -/
theorem getRelaunchCommand_sentinel (g : Globals) (cmd : List Str) (hne : cmd ≠ []) :
    ∃ (begin : Nat) (copied scanned : List Int),
      relaunchBegin g (sentinel cmd) = some (begin : Int) ∧ 1 ≤ begin ∧ begin ≤ cmd.length ∧
      copyRelaunch (sentinel cmd) ((sentinel cmd).length + 1) begin = some copied ∧
      relaunchScanned (sentinel cmd) ((sentinel cmd).length + 1) begin = some scanned ∧
      getRelaunchCommand g (sentinel cmd) =
        some (g.program :: (copied.map (fun i => rd (sentinel cmd) i) ++ [none])) ∧
      copied.map (fun i => rd (sentinel cmd) i) = (relaunchKept (cmd.drop begin)).map some ∧
      (∀ i ∈ scanned, (begin : Int) ≤ i ∧ i < cmd.length) ∧
      (∀ i ∈ copied, i ∈ scanned) ∧
      (∀ i ∈ scanned, SplashHandled (sentinel cmd) copied i) := by
  obtain ⟨b, hb, hb1, hbn⟩ := relaunchBegin_sentinel g cmd
  obtain ⟨copied, scanned, hc, hs, hmap, hbound, hsub, hsp, _⟩ :=
    copyRelaunch_sentinel cmd ((sentinel cmd).length + 1) b (hbn hne)
      (by rw [sentinel_length]; omega)
  refine ⟨b, copied, scanned, hb, hb1, hbn hne, hc, hs, ?_, hmap, hbound, hsub, hsp⟩
  unfold getRelaunchCommand
  rw [hb]
  simp only []
  rw [hc]

end Eclipse

namespace Eclipse

/-! ## The launch loop of `run` -/

theorem launches_append (a b : List Event) : launches (a ++ b) = launches a ++ launches b := by
  simp [launches]

theorem displays_append (a b : List Event) : displays (a ++ b) = displays a ++ displays b := by
  simp [displays]

theorem launches_launchEvent (s : RunState) : launches [launchEvent s] = [launchEvent s] := by
  unfold launchEvent
  cases s.jniLaunching <;> rfl

theorem displays_launchEvent (s : RunState) : displays [launchEvent s] = [] := by
  unfold launchEvent
  cases s.jniLaunching <;> rfl

theorem launches_nil : launches [] = [] := rfl

theorem displays_nil : displays [] = [] := rfl

theorem launches_print (m : Str) : launches [Event.print m] = [] := rfl

theorem displays_print (m : Str) : displays [Event.print m] = [] := rfl

theorem launches_displayMessage (t m : Option Str) :
    launches [Event.displayMessage t m] = [] := rfl

theorem displays_displayMessage (t m : Option Str) :
    displays [Event.displayMessage t m] = [Event.displayMessage t m] := rfl

theorem getRelaunchCommand_exitData (g : Globals) (x : Option Str) (a : List (Option Str)) :
    getRelaunchCommand { g with exitData := x } a = getRelaunchCommand g a := rfl

/-- The loop `while(running)` makes one pass and goes on from the state it leaves. -/
theorem runLoop_cons (r : VMResult) (results : List VMResult) (s : RunState)
    (hrun : s.running = true) :
    runLoop (r :: results) s =
      match runStep r s with
      | none => none
      | some s1 => runLoop results s1 := by
  show (if s.running = true then _ else _) = _
  rw [if_pos hrun]

/-- C5 as stated fails in external-process mode: after exit code 24 with no exit data the loop
is still running, and the next pass launches the same command again; after exit code 24 with
empty exit data the loop is still running with the command replaced by the empty command. -/
theorem runLoop_restart_without_data_counterexample :
    (runStep ⟨24, none⟩ sampleRun).map (fun s => s.running) = some true ∧
    (runLoop [⟨24, none⟩, ⟨0, none⟩] sampleRun).map (fun s => launches s.events)
      = some [Event.launchJavaVM sampleRun.vmCommand, Event.launchJavaVM sampleRun.vmCommand] ∧
    (runStep ⟨24, some []⟩ sampleRun).map (fun s => (s.running, launchEvent s))
      = some (true, Event.launchJavaVM (some [none])) := by
  decide


/-- The pass for exit code 24 without exit data: the globals lose their exit data, the launch
is recorded (after a debug print of the command), and with `debug` set one message is shown. -/
theorem stepEq_restart_without_data (s : RunState) (r : VMResult)
    (hcode : r.exitCode = RESTART_NEW_EC) (hdata : r.exitData = none) :
    runStep r s = some { s with
      g := { s.g with exitData := none }
      events := s.events
        ++ (if s.g.debug then
              [Event.print (formatVmCommandMsg s.vmCommand s.vmCommandArgs s.progCommandArgs)]
            else [])
        ++ [launchEvent s]
        ++ (if s.g.debug then [Event.displayMessage s.g.officialName (some shareMsg)] else []) } := by
  have h0 : ¬ RESTART_NEW_EC = 0 := by decide
  have h23 : ¬ RESTART_NEW_EC = RESTART_LAST_EC := by decide
  cases hj : s.jniLaunching <;> cases hd : s.g.debug <;>
    simp [runStep, launchVM, handleExit, hcode, hdata, h0, h23, hj, hd]

end Eclipse

namespace Eclipse

theorem launchVM_launches (r : VMResult) (s : RunState) :
    launches (launchVM r s).events = launches s.events ++ [launchEvent s] := by
  unfold launchVM
  cases s.jniLaunching <;> cases s.g.debug <;>
    simp only [launches_append, launches_launchEvent, launches_print, Bool.false_eq_true,
      if_true, if_false, List.append_nil]

/-- The `switch( exitCode )` launches nothing: it only shows messages. -/
theorem handleExit_launches (r : VMResult) (m : Str) (s1 s2 : RunState)
    (h : handleExit r m s1 = some s2) : launches s2.events = launches s1.events := by
  unfold handleExit at h
  by_cases h0 : r.exitCode = 0
  · rw [if_pos h0] at h
    rw [← Option.some.inj h]
  · rw [if_neg h0] at h
    by_cases h23 : r.exitCode = RESTART_LAST_EC
    · rw [if_pos h23] at h
      cases hj : s1.jniLaunching
      · rw [hj] at h
        rw [← Option.some.inj h]
      · rw [hj] at h
        cases hc : copyInitialArgs s1.g with
        | none => rw [hc] at h; simp at h
        | some c => rw [hc] at h; simp at h; rw [← h]
    · rw [if_neg h23] at h
      by_cases h24 : r.exitCode = RESTART_NEW_EC
      · rw [if_pos h24] at h
        cases hj : s1.jniLaunching <;> cases hd : r.exitData <;> cases hg : s1.g.exitData <;>
          cases hdb : s1.g.debug <;> simp [hj, hd, hg, hdb] at h
        all_goals first
          | (rw [← h]; done)
          | (rw [← h]; simp [launches_append, launches_displayMessage])
          | (split at h
             · simp at h
             · simp at h; rw [← h])
      · rw [if_neg h24] at h
        cases hj : s1.jniLaunching <;> cases hd : r.exitData <;> cases hg : s1.g.exitData <;>
          cases hdb : s1.g.debug <;> simp [hj, hd, hg, hdb] at h
        all_goals first
          | (rw [← h]; done)
          | (rw [← h]; simp [launches]; done)
          | (split at h <;> simp at h <;> rw [← h] <;> simp [launches])

/-- Every pass of the loop makes exactly one launch, the one of the state it starts in. -/
theorem runStep_launches (r : VMResult) (s s1 : RunState) (h : runStep r s = some s1) :
    launches s1.events = launches s.events ++ [launchEvent s] := by
  unfold runStep at h
  rw [handleExit_launches r _ _ s1 h, launchVM_launches]

end Eclipse

namespace Eclipse

/-- The pass for exit code 24 with exit data in external-process mode. -/
theorem stepEq_restart_with_data_external (s : RunState) (r : VMResult) (data : Str)
    (hcode : r.exitCode = RESTART_NEW_EC) (hdata : r.exitData = some data)
    (hj : s.jniLaunching = false) :
    runStep r s = some { s with
      g := { s.g with exitData := some data }
      vmCommand := some (parseArgList data)
      events := s.events
        ++ (if s.g.debug then
              [Event.print (formatVmCommandMsg s.vmCommand s.vmCommandArgs s.progCommandArgs)]
            else [])
        ++ [launchEvent s] } := by
  have h0 : ¬ RESTART_NEW_EC = 0 := by decide
  have h23 : ¬ RESTART_NEW_EC = RESTART_LAST_EC := by decide
  cases hd : s.g.debug <;> simp [runStep, launchVM, handleExit, hcode, hdata, h0, h23, hj, hd]

/-- The pass for exit code 24 with exit data in JNI mode. -/
theorem stepEq_restart_with_data_jni (s : RunState) (r : VMResult) (data : Str)
    (hcode : r.exitCode = RESTART_NEW_EC) (hdata : r.exitData = some data)
    (hj : s.jniLaunching = true) :
    runStep r s = (getRelaunchCommand s.g (parseArgList data)).map (fun c => { s with
      g := { s.g with exitData := some data }
      vmCommand := some (parseArgList data)
      relaunchCommand := some c
      running := false
      events := s.events
        ++ (if s.g.debug then
              [Event.print (formatVmCommandMsg s.vmCommand s.vmCommandArgs s.progCommandArgs)]
            else [])
        ++ [launchEvent s] }) := by
  have h0 : ¬ RESTART_NEW_EC = 0 := by decide
  have h23 : ¬ RESTART_NEW_EC = RESTART_LAST_EC := by decide
  have hg : getRelaunchCommand { s.g with exitData := some data } (parseArgList data) =
      getRelaunchCommand s.g (parseArgList data) := rfl
  unfold runStep launchVM handleExit
  simp only [hcode, hdata, h0, h23, hj, if_true, if_false, not_true_eq_false, hg]
  cases hc : getRelaunchCommand s.g (parseArgList data) <;> cases hd : s.g.debug <;> simp

/-- C5, amended: in either launch mode, exit code 24 with no exit data available shows at
most one message (`No exit data available.`, only when `debug` is set) and leaves the command
and the relaunch command as they were; in external-process mode `running` is left as it was,
so the loop goes on and its next pass launches the same command again.  Empty exit data is
exit data: in external-process mode no message is shown, the command becomes the empty
command and the loop goes on. -/
theorem runStep_restart_without_data (s : RunState) (r : VMResult)
    (hcode : r.exitCode = RESTART_NEW_EC) :
    (r.exitData = none →
      ∃ s1, runStep r s = some s1 ∧
        s1.vmCommand = s.vmCommand ∧ s1.relaunchCommand = s.relaunchCommand ∧
        s1.vmCommandArgs = s.vmCommandArgs ∧ s1.progCommandArgs = s.progCommandArgs ∧
        s1.jniLaunching = s.jniLaunching ∧
        launches s1.events = launches s.events ++ [launchEvent s] ∧
        displays s1.events = displays s.events ++
          (if s.g.debug then [Event.displayMessage s.g.officialName (some shareMsg)] else []) ∧
        (s.jniLaunching = false →
          s1.running = s.running ∧ launchEvent s1 = launchEvent s ∧
          (∀ results, s.running = true → runLoop (r :: results) s = runLoop results s1) ∧
          ∀ r2 s2, runStep r2 s1 = some s2 →
            launches s2.events = launches s.events ++ [launchEvent s, launchEvent s])) ∧
    (r.exitData = some [] → s.jniLaunching = false →
      ∃ s1, runStep r s = some s1 ∧
        s1.vmCommand = some [none] ∧ s1.relaunchCommand = s.relaunchCommand ∧
        s1.running = s.running ∧ displays s1.events = displays s.events ∧
        launchEvent s1 = Event.launchJavaVM (some [none]) ∧
        ∀ results, s.running = true → runLoop (r :: results) s = runLoop results s1) := by
  constructor
  · intro hdata
    have hstep := stepEq_restart_without_data s r hcode hdata
    have hlaunch := runStep_launches r s _ hstep
    refine ⟨_, hstep, rfl, rfl, rfl, rfl, rfl, hlaunch, ?_, ?_⟩
    · cases hd : s.g.debug <;>
        simp only [displays_append, displays_launchEvent, displays_nil, displays_print,
          displays_displayMessage, Bool.false_eq_true, if_true, if_false, List.append_nil]
    · intro hj
      have hsame : launchEvent { s with
          g := { s.g with exitData := none }
          events := s.events
            ++ (if s.g.debug then
                  [Event.print (formatVmCommandMsg s.vmCommand s.vmCommandArgs s.progCommandArgs)]
                else [])
            ++ [launchEvent s]
            ++ (if s.g.debug then [Event.displayMessage s.g.officialName (some shareMsg)]
                else []) } = launchEvent s := by
        simp [launchEvent, hj]
      refine ⟨rfl, hsame, ?_, ?_⟩
      · intro results hrun
        rw [runLoop_cons r results s hrun, hstep]
      · intro r2 s2 h2
        rw [runStep_launches r2 _ s2 h2, hlaunch, hsame, List.append_assoc]
        rfl
  · intro hdata hj
    refine ⟨_, stepEq_restart_with_data_external s r [] hcode hdata hj, rfl, rfl, rfl, ?_, ?_, ?_⟩
    · cases hd : s.g.debug <;>
        simp only [displays_append, displays_launchEvent, displays_nil, displays_print,
          Bool.false_eq_true, if_true, if_false, List.append_nil]
    · simp [launchEvent, hj]
      rfl
    · intro results hrun
      rw [runLoop_cons r results s hrun, stepEq_restart_with_data_external s r [] hcode hdata hj]

/-- C5, amended, on the sample external-process state with `debug` unset: no message is shown
and the next pass launches the same command. -/
theorem runStep_restart_without_data_witness :
    ∃ s1, runStep ⟨24, none⟩ sampleRun = some s1 ∧ s1.running = true ∧
      displays s1.events = [] ∧ launchEvent s1 = launchEvent sampleRun := by
  obtain ⟨s1, h1, _, _, _, _, _, _, h8, h9⟩ :=
    (runStep_restart_without_data sampleRun ⟨24, none⟩ rfl).1 rfl
  exact ⟨s1, h1, (h9 rfl).1, h8, (h9 rfl).2.1⟩

/-- C6: exit code 24 with exit data `data` replaces the command by `parseArgList( data )`.  In
external-process mode the loop goes on from the new state, whose launch is
`launchJavaVM( parseArgList( data ) )`; in JNI mode the pass ends the loop with the relaunch
command `getRelaunchCommand( parseArgList( data ) )`, which exists whenever the exit data
holds at least one argument. -/
theorem runStep_restart_with_data (s : RunState) (r : VMResult) (data : Str)
    (hcode : r.exitCode = RESTART_NEW_EC) (hdata : r.exitData = some data) :
    (s.jniLaunching = false →
      ∃ s1, runStep r s = some s1 ∧ s1.vmCommand = some (parseArgList data) ∧
        s1.running = s.running ∧
        launchEvent s1 = Event.launchJavaVM (some (parseArgList data)) ∧
        (∀ results, s.running = true → runLoop (r :: results) s = runLoop results s1) ∧
        ∀ r2 s2, runStep r2 s1 = some s2 →
          launches s2.events =
            launches s.events ++ [launchEvent s, Event.launchJavaVM (some (parseArgList data))]) ∧
    (s.jniLaunching = true →
      (∀ c, getRelaunchCommand s.g (parseArgList data) = some c →
        ∃ s1, runStep r s = some s1 ∧ s1.vmCommand = some (parseArgList data) ∧
          s1.running = false ∧ s1.relaunchCommand = some c ∧
          ∀ results, s.running = true → runLoop (r :: results) s = some s1) ∧
      (getRelaunchCommand s.g (parseArgList data) = none → runStep r s = none) ∧
      (parseArgListTokens data ≠ [] →
        ∃ c, getRelaunchCommand s.g (parseArgList data) = some c)) := by
  constructor
  · intro hj
    have hstep := stepEq_restart_with_data_external s r data hcode hdata hj
    have hlaunch := runStep_launches r s _ hstep
    have hnext : launchEvent { s with
        g := { s.g with exitData := some data }
        vmCommand := some (parseArgList data)
        events := s.events
          ++ (if s.g.debug then
                [Event.print (formatVmCommandMsg s.vmCommand s.vmCommandArgs s.progCommandArgs)]
              else [])
          ++ [launchEvent s] } = Event.launchJavaVM (some (parseArgList data)) := by
      simp [launchEvent, hj]
    refine ⟨_, hstep, rfl, rfl, hnext, ?_, ?_⟩
    · intro results hrun
      rw [runLoop_cons r results s hrun, hstep]
    · intro r2 s2 h2
      rw [runStep_launches r2 _ s2 h2, hlaunch, hnext, List.append_assoc]
      rfl
  · intro hj
    refine ⟨?_, ?_, ?_⟩
    · intro c hc
      have hstep := stepEq_restart_with_data_jni s r data hcode hdata hj
      rw [hc] at hstep
      refine ⟨_, hstep, rfl, rfl, rfl, ?_⟩
      intro results hrun
      rw [runLoop_cons r results s hrun, hstep]
      cases results <;> rfl
    · intro hc
      rw [stepEq_restart_with_data_jni s r data hcode hdata hj, hc]
      rfl
    · intro hne
      obtain ⟨b, copied, scanned, _, _, _, _, _, hget, _⟩ :=
        getRelaunchCommand_sentinel s.g (parseArgListTokens data) hne
      exact ⟨_, hget⟩

/-- C6 on the sample states: the exit data `-data\n/w` makes the external-process loop launch
`-data /w` next, and ends the JNI loop with the relaunch command `<launcher> /w`. -/
theorem runStep_restart_with_data_witness :
    (∃ s1, runStep ⟨24, some "-data\n/w".toList⟩ sampleRun = some s1 ∧
      launchEvent s1 = Event.launchJavaVM (some (sentinel ["-data".toList, "/w".toList]))) ∧
    (∃ s1, runStep ⟨24, some "-data\n/w".toList⟩ sampleRunJNI = some s1 ∧
      s1.running = false ∧
      s1.relaunchCommand = some (sentinel ["/opt/eclipse/eclipse".toList, "/w".toList])) := by
  have h := runStep_restart_with_data
  constructor
  · obtain ⟨s1, h1, _, _, h4, _⟩ :=
      (h sampleRun ⟨24, some "-data\n/w".toList⟩ "-data\n/w".toList rfl rfl).1 rfl
    exact ⟨s1, h1, h4.trans (by decide)⟩
  · obtain ⟨s1, h1, _, h3, h4, _⟩ :=
      ((h sampleRunJNI ⟨24, some "-data\n/w".toList⟩ "-data\n/w".toList rfl rfl).2 rfl).1
        (sentinel ["/opt/eclipse/eclipse".toList, "/w".toList]) (by decide)
    exact ⟨s1, h1, h3, h4⟩

end Eclipse

namespace Eclipse

theorem set_take_succ (l : List (Option Str)) (n : Nat) (hn : n < l.length) :
    (l.take (n + 1)).set n none = l.take n ++ [none] := by
  apply List.ext_getElem?
  intro j
  rw [List.getElem?_set, List.getElem?_append, List.getElem?_take, List.length_take,
    List.length_take, List.getElem?_take]
  have hmin : min (n + 1) l.length = n + 1 := by omega
  have hmin2 : min n l.length = n := by omega
  rw [hmin, hmin2]
  by_cases hj : n = j
  · subst hj
    simp
  · rw [if_neg hj]
    by_cases hlt : j < n
    · rw [if_pos (by omega), if_pos hlt, if_pos hlt]
    · rw [if_neg (by omega), if_neg hlt, List.getElem?_eq_none]
      simp
      omega

/-- The copy of the initial arguments: the first `argc` entries followed by NULL. -/
theorem copyInitialArgs_eq (g : Globals) (h0 : 0 ≤ g.initialArgc)
    (hslot : g.initialArgc.toNat < g.initialArgv.length) :
    copyInitialArgs g = some (g.initialArgv.take g.initialArgc.toNat ++ [none]) := by
  unfold copyInitialArgs
  have e1 : (g.initialArgc + 1).toNat = g.initialArgc.toNat + 1 := by omega
  rw [if_pos ⟨h0, by omega⟩, e1]
  congr 1
  have e2 : g.initialArgc = ((g.initialArgc.toNat : Nat) : Int) := by omega
  rw [e2, wr_natCast, Int.toNat_ofNat]
  exact set_take_succ g.initialArgv g.initialArgc.toNat hslot

/-- The pass for exit code 23 in JNI mode. -/
theorem stepEq_restart_last_jni (s : RunState) (r : VMResult)
    (hcode : r.exitCode = RESTART_LAST_EC) (hj : s.jniLaunching = true) :
    runStep r s = (copyInitialArgs s.g).map (fun c => { s with
      g := { s.g with exitData := r.exitData }
      relaunchCommand := some c
      running := false
      events := (if s.g.debug then
              s.events ++
                [Event.print (formatVmCommandMsg s.vmCommand s.vmCommandArgs s.progCommandArgs)]
            else s.events)
        ++ [launchEvent s] }) := by
  have h0 : ¬ RESTART_LAST_EC = 0 := by decide
  have hg : copyInitialArgs { s.g with exitData := r.exitData } = copyInitialArgs s.g := rfl
  unfold runStep launchVM handleExit
  simp only [hcode, h0, hj, if_true, if_false, hg]
  cases hc : copyInitialArgs s.g <;> rfl

/-- C7: in JNI mode, with the initial arguments recorded by `setInitialArgs( argc, argv, lib )`
still in place (`argv` having the `argc` entries and one more slot), exit code 23 ends the loop
with the relaunch command made of `argv[0 .. argc-1]`, in order, followed by NULL. -/
theorem runStep_restart_last_jni (s : RunState) (r : VMResult) (argc : Int)
    (argv : List (Option Str)) (lib : Option Str) (g0 : Globals)
    (hcode : r.exitCode = RESTART_LAST_EC) (hj : s.jniLaunching = true)
    (hargc : s.g.initialArgc = (setInitialArgs argc argv lib g0).initialArgc)
    (hargv : s.g.initialArgv = (setInitialArgs argc argv lib g0).initialArgv)
    (h0 : 0 ≤ argc) (hslot : argc.toNat < argv.length) :
    ∃ s1, runStep r s = some s1 ∧ s1.running = false ∧
      s1.relaunchCommand = some (argv.take argc.toNat ++ [none]) ∧
      ∀ results, s.running = true → runLoop (r :: results) s = some s1 := by
  have hargc2 : s.g.initialArgc = argc := hargc
  have hargv2 : s.g.initialArgv = argv := hargv
  have hstep := stepEq_restart_last_jni s r hcode hj
  rw [copyInitialArgs_eq s.g (by omega) (by rw [hargc2, hargv2]; exact hslot)] at hstep
  refine ⟨_, hstep, rfl, ?_, ?_⟩
  · show some (s.g.initialArgv.take s.g.initialArgc.toNat ++ [none]) = _
    rw [hargc2, hargv2]
  · intro results hrun
    rw [runLoop_cons r results s hrun, hstep]
    cases results <;> rfl

/-- C7 on the sample JNI state, started as `eclipse -data /w`: the relaunch command is that
command line. -/
theorem runStep_restart_last_jni_witness :
    ∃ s1, runStep ⟨23, none⟩ sampleRunJNI = some s1 ∧ s1.running = false ∧
      s1.relaunchCommand =
        some (sentinel ["/opt/eclipse/eclipse".toList, "-data".toList, "/w".toList]) := by
  obtain ⟨s1, h1, h2, h3, _⟩ := runStep_restart_last_jni sampleRunJNI ⟨23, none⟩ 3
    (sentinel ["/opt/eclipse/eclipse".toList, "-data".toList, "/w".toList]) none {}
    rfl rfl rfl rfl (by decide) (by decide)
  exact ⟨s1, h1, h2, h3⟩

/-- The pass for an exit code other than 0, 23 and 24 with exit data that is not empty. -/
theorem stepEq_failure_with_data (s : RunState) (r : VMResult) (p : Str)
    (h0 : r.exitCode ≠ 0) (h23 : r.exitCode ≠ RESTART_LAST_EC) (h24 : r.exitCode ≠ RESTART_NEW_EC)
    (hdata : r.exitData = some p) (hne : p ≠ []) :
    runStep r s = some { s with
      g := { s.g with exitData := some p }
      running := false
      events := (if s.g.debug then
              s.events ++
                [Event.print (formatVmCommandMsg s.vmCommand s.vmCommandArgs s.progCommandArgs)]
            else s.events)
        ++ [launchEvent s]
        ++ [Event.displayMessage (splitTitle s.g.officialName p).1
              (match (splitTitle s.g.officialName p).2 with
                | none => some (exitMessage r.exitCode
                    (formatVmCommandMsg s.vmCommand s.vmCommandArgs s.progCommandArgs))
                | some m => some m)] } := by
  have hlen : ¬ p.length = 0 := fun h => hne (List.length_eq_zero.1 h)
  unfold runStep launchVM handleExit
  cases hj : s.jniLaunching <;>
    simp only [h0, h23, h24, hdata, hj, hlen, if_true, if_false, not_true_eq_false,
      not_false_eq_true, Bool.false_eq_true]

end Eclipse

namespace Eclipse

theorem displays_after_launch (s : RunState) (d : Event) (hd : displays [d] = [d]) :
    displays ((if s.g.debug then
          s.events ++
            [Event.print (formatVmCommandMsg s.vmCommand s.vmCommandArgs s.progCommandArgs)]
        else s.events) ++ [launchEvent s] ++ [d]) = displays s.events ++ [d] := by
  cases s.g.debug <;>
    simp only [displays_append, displays_launchEvent, displays_print, hd, Bool.false_eq_true,
      if_true, if_false, List.append_nil]

/-- C8: for an exit code other than 0, 23 and 24 and exit data `p` that is not empty, the
pass ends the loop after showing one message.  When `p` is `<title>t</title>b` with no
`</title>` inside `t`, the message has title `t` and body `b`; when `p` does not begin with
`<title>`, it has the application name as title and the whole of `p` as body. -/
theorem runStep_failure_with_data (s : RunState) (r : VMResult) (p : Str)
    (h0 : r.exitCode ≠ 0) (h23 : r.exitCode ≠ RESTART_LAST_EC) (h24 : r.exitCode ≠ RESTART_NEW_EC)
    (hdata : r.exitData = some p) (hne : p ≠ []) :
    (∀ t b : Str, p = "<title>".toList ++ t ++ "</title>".toList ++ b →
      ¬ ("</title>".toList <:+: t) →
      ∃ s1, runStep r s = some s1 ∧ s1.running = false ∧
        displays s1.events = displays s.events ++ [Event.displayMessage (some t) (some b)]) ∧
    (¬ ("<title>".toList <+: p) →
      ∃ s1, runStep r s = some s1 ∧ s1.running = false ∧
        displays s1.events = displays s.events ++
          [Event.displayMessage s.g.officialName (some p)]) := by
  have hstep := stepEq_failure_with_data s r p h0 h23 h24 hdata hne
  constructor
  · intro t b hp ht
    rw [hp, splitTitle_tagged s.g.officialName t b ht] at hstep
    refine ⟨_, hstep, rfl, ?_⟩
    exact displays_after_launch s _ rfl
  · intro hplain
    rw [splitTitle_plain s.g.officialName p hplain] at hstep
    refine ⟨_, hstep, rfl, ?_⟩
    exact displays_after_launch s _ rfl

/-- C8 on exit code 42 with the exit data `<title>Oops</title>Something broke`: the message
shown has title `Oops` and body `Something broke`. -/
theorem runStep_failure_with_data_witness :
    ∃ s1, runStep ⟨42, some "<title>Oops</title>Something broke".toList⟩ sampleRun = some s1 ∧
      s1.running = false ∧
      displays s1.events =
        [Event.displayMessage (some "Oops".toList) (some "Something broke".toList)] :=
  (runStep_failure_with_data sampleRun ⟨42, some "<title>Oops</title>Something broke".toList⟩
    "<title>Oops</title>Something broke".toList (by decide) (by decide) (by decide) rfl
    (by decide)).1 "Oops".toList "Something broke".toList rfl (by decide)

/-! ## Claims on `getRelaunchCommand` -/

/-- C9 as stated fails: from `<vm> -showsplash 600` the relaunch command keeps both
`-showsplash` and `600`, and from `<vm> -showsplash -debug x` it drops `-debug` together with
`-showsplash`. -/
theorem getRelaunchCommand_showsplash_counterexample :
    getRelaunchCommand sampleGlobals
        (sentinel ["/usr/bin/java".toList, "-showsplash".toList, "600".toList])
      = some (sentinel ["/opt/eclipse/eclipse".toList, "-showsplash".toList, "600".toList]) ∧
    getRelaunchCommand sampleGlobals
        (sentinel ["/usr/bin/java".toList, "-showsplash".toList, "-debug".toList, "x".toList])
      = some (sentinel ["/opt/eclipse/eclipse".toList, "x".toList]) := by
  decide

/-- C9, amended: on a command with at least one token, `getRelaunchCommand` copies, after the
launcher's own path, the entries at the positions `copied`, all at or after `begin` and all
among the positions `scanned` that its copy loop reaches.  A reached token matching
`-showsplash` is copied together with the token after it when that token does not start with
`-`, is copied when it is the last token, and is not copied when the token after it starts
with `-`. -/
theorem getRelaunchCommand_showsplash (g : Globals) (cmd : List Str) (hne : cmd ≠ []) :
    ∃ (begin : Int) (copied scanned : List Int),
      relaunchBegin g (sentinel cmd) = some begin ∧
      copyRelaunch (sentinel cmd) ((sentinel cmd).length + 1) begin = some copied ∧
      relaunchScanned (sentinel cmd) ((sentinel cmd).length + 1) begin = some scanned ∧
      getRelaunchCommand g (sentinel cmd) =
        some (g.program :: (copied.map (fun i => rd (sentinel cmd) i) ++ [none])) ∧
      (∀ i ∈ scanned, begin ≤ i ∧ i < cmd.length) ∧
      (∀ i ∈ copied, i ∈ scanned) ∧
      (∀ i ∈ scanned, SplashHandled (sentinel cmd) copied i) := by
  obtain ⟨b, copied, scanned, hb, _, _, hc, hs, hget, _, hbound, hsub, hsp⟩ :=
    getRelaunchCommand_sentinel g cmd hne
  exact ⟨b, copied, scanned, hb, hc, hs, hget, hbound, hsub, hsp⟩

/-- C9, amended, on `<vm> -showsplash 600`: the command has a token and the function returns. -/
theorem getRelaunchCommand_showsplash_witness :
    ["/usr/bin/java".toList, "-showsplash".toList, "600".toList] ≠ [] ∧
    (getRelaunchCommand sampleGlobals
      (sentinel ["/usr/bin/java".toList, "-showsplash".toList, "600".toList])).isSome = true := by
  refine ⟨by decide, ?_⟩
  obtain ⟨_, _, _, _, _, _, hget, _⟩ := getRelaunchCommand_showsplash sampleGlobals
    ["/usr/bin/java".toList, "-showsplash".toList, "600".toList] (by decide)
  rw [hget]
  rfl

/-- C10: when the launcher's own path does not match `-showsplash`, no token of the relaunch
command that matches `-showsplash` is directly followed by a token starting with `-`; the
relaunch command exists for every command with at least one token. -/
theorem getRelaunchCommand_splash_has_value (g : Globals) (cmd : List Str)
    (hprogram : ∀ p, g.program = some p → tcsicmpEq p SHOWSPLASH = false) :
    (∀ r, getRelaunchCommand g (sentinel cmd) = some r → SplashHasValue (tokens r)) ∧
    (cmd ≠ [] → ∃ r, getRelaunchCommand g (sentinel cmd) = some r) := by
  constructor
  · intro r hr
    by_cases hne : cmd = []
    · rw [hne, getRelaunchCommand_empty] at hr
      exact absurd hr (by simp)
    · obtain ⟨b, copied, scanned, _, _, _, _, _, hget, hmap, _⟩ :=
        getRelaunchCommand_sentinel g cmd hne
      rw [hget] at hr
      rw [← Option.some.inj hr, hmap]
      cases hp : g.program with
      | none => exact List.chain'_nil
      | some p =>
        show SplashHasValue (p :: tokens ((relaunchKept (cmd.drop b)).map some ++ [none]))
        rw [tokens_sentinel_append]
        apply List.Chain'.cons' (relaunchKept_splashHasValue _)
        intro y _ hcon
        rw [hprogram p hp] at hcon
        exact absurd hcon.1 (by simp)
  · intro hne
    obtain ⟨b, copied, scanned, _, _, _, _, _, hget, _⟩ := getRelaunchCommand_sentinel g cmd hne
    exact ⟨_, hget⟩

/-- C10 on `<vm> -showsplash -debug -showsplash 600 -showsplash`: the relaunch command is
`<launcher> -showsplash 600 -showsplash`. -/
theorem getRelaunchCommand_splash_has_value_witness :
    getRelaunchCommand sampleGlobals (sentinel ["/usr/bin/java".toList, "-showsplash".toList,
        "-debug".toList, "-showsplash".toList, "600".toList, "-showsplash".toList])
      = some (sentinel ["/opt/eclipse/eclipse".toList, "-showsplash".toList, "600".toList,
          "-showsplash".toList]) ∧
    SplashHasValue ["/opt/eclipse/eclipse".toList, "-showsplash".toList, "600".toList,
      "-showsplash".toList] := by
  have h := (getRelaunchCommand_splash_has_value sampleGlobals ["/usr/bin/java".toList,
    "-showsplash".toList, "-debug".toList, "-showsplash".toList, "600".toList,
    "-showsplash".toList] (by
      intro p hp
      have : p = "/opt/eclipse/eclipse".toList := (Option.some.inj hp).symm
      rw [this]
      decide)).1
  have hr : getRelaunchCommand sampleGlobals (sentinel ["/usr/bin/java".toList,
      "-showsplash".toList, "-debug".toList, "-showsplash".toList, "600".toList,
      "-showsplash".toList])
      = some (sentinel ["/opt/eclipse/eclipse".toList, "-showsplash".toList, "600".toList,
          "-showsplash".toList]) := by decide
  exact ⟨hr, by simpa [tokens_sentinel] using h _ hr⟩

end Eclipse

namespace Eclipse

/-! ## The relaunch command holds no classpath token of the command -/

/-- A token matching `-showsplash` does not start with the classpath marker. -/
theorem splash_not_classpath (a : Str) (h : tcsicmpEq a SHOWSPLASH = true) :
    tcsncmpEq a CLASSPATH_PREFIX = false := by
  cases hc : tcsncmpEq a CLASSPATH_PREFIX with
  | false => rfl
  | true =>
    exfalso
    unfold tcsncmpEq at hc
    rw [List.isPrefixOf_iff_prefix] at hc
    obtain ⟨r, hr⟩ := hc
    unfold tcsicmpEq at h
    have h2 : a.map Char.toLower = SHOWSPLASH.map Char.toLower := by simpa using h
    rw [← hr] at h2
    have h3 := congrArg (fun l => l[1]?) h2
    revert h3
    simp [CLASSPATH_PREFIX, SHOWSPLASH]

/-- None of the tokens the second loop of `getRelaunchCommand` copies starts with the
classpath marker. -/
theorem relaunchKept_no_classpath (l : List Str) :
    ∀ t ∈ relaunchKept l, tcsncmpEq t CLASSPATH_PREFIX = false := by
  have key : ∀ n (l : List Str), l.length ≤ n →
      ∀ t ∈ relaunchKept l, tcsncmpEq t CLASSPATH_PREFIX = false := by
    intro n
    induction n with
    | zero =>
      intro l hl t ht
      have : l = [] := List.length_eq_zero.1 (by omega)
      subst this
      simp [relaunchKept] at ht
    | succ n ih =>
      intro l hl t ht
      cases l with
      | nil => simp [relaunchKept] at ht
      | cons a l =>
        have hl2 : l.length ≤ n := by simpa using hl
        rw [relaunchKept_cons] at ht
        by_cases hs : tcsicmpEq a SHOWSPLASH = true
        · rw [if_pos hs] at ht
          cases l with
          | nil =>
            have : t = a := by simpa using ht
            rw [this]
            exact splash_not_classpath a hs
          | cons nx rest =>
            by_cases hd : firstCharIs nx '-' = true
            · simp only [if_pos hd] at ht
              exact ih rest (by simp at hl2; omega) t ht
            · simp only [if_neg hd] at ht
              rcases List.mem_cons.1 ht with h1 | h1
              · rw [h1]
                exact splash_not_classpath a hs
              · exact ih (nx :: rest) hl2 t h1
        · rw [if_neg hs] at ht
          by_cases hc : tcsncmpEq a CLASSPATH_PREFIX = true
          · rw [if_pos hc] at ht
            exact ih l hl2 t ht
          · rw [if_neg hc] at ht
            rcases List.mem_cons.1 ht with h1 | h1
            · rw [h1]
              simpa using hc
            · exact ih l hl2 t h1
  exact key l.length l (Nat.le_refl _)

/-- C11: whatever the command, none of the tokens `getRelaunchCommand` copies from it into
its result (the tokens after the leading `program`) begins with `-Djava.class.path=`; the
result exists for every command with at least one token. -/
theorem getRelaunchCommand_emits_no_classpath (g : Globals) (cmd : List Str) :
    (∀ r, getRelaunchCommand g (sentinel cmd) = some r →
      ∀ t, some t ∈ r.tail → tcsncmpEq t CLASSPATH_PREFIX = false) ∧
    (cmd ≠ [] → ∃ r, getRelaunchCommand g (sentinel cmd) = some r) := by
  constructor
  · intro r hr t ht
    by_cases hne : cmd = []
    · rw [hne, getRelaunchCommand_empty] at hr
      exact absurd hr (by simp)
    · obtain ⟨b, copied, scanned, _, _, _, _, _, hget, hmap, _⟩ :=
        getRelaunchCommand_sentinel g cmd hne
      rw [hget] at hr
      rw [← Option.some.inj hr, hmap] at ht
      have ht2 : t ∈ relaunchKept (cmd.drop b) := by simpa using ht
      exact relaunchKept_no_classpath _ t ht2
  · intro hne
    obtain ⟨b, copied, scanned, _, _, _, _, _, hget, _⟩ := getRelaunchCommand_sentinel g cmd hne
    exact ⟨_, hget⟩

/-- C11 on `<vm> -Djava.class.path=/a.jar -Xmx1g -Djava.class.path=/b.jar -data /w`: the
relaunch command is `<launcher> -Xmx1g -data /w`. -/
theorem getRelaunchCommand_emits_no_classpath_witness :
    getRelaunchCommand sampleGlobalsJNI (sentinel ["/usr/bin/java".toList,
        "-Djava.class.path=/a.jar".toList, "-Xmx1g".toList, "-Djava.class.path=/b.jar".toList,
        "-data".toList, "/w".toList])
      = some (sentinel ["/opt/eclipse/eclipse".toList, "-Xmx1g".toList, "-data".toList,
          "/w".toList]) ∧
    ∀ t, some t ∈ (sentinel ["/opt/eclipse/eclipse".toList, "-Xmx1g".toList, "-data".toList,
        "/w".toList]).tail → tcsncmpEq t CLASSPATH_PREFIX = false := by
  have hr : getRelaunchCommand sampleGlobalsJNI (sentinel ["/usr/bin/java".toList,
      "-Djava.class.path=/a.jar".toList, "-Xmx1g".toList, "-Djava.class.path=/b.jar".toList,
      "-data".toList, "/w".toList])
      = some (sentinel ["/opt/eclipse/eclipse".toList, "-Xmx1g".toList, "-data".toList,
          "/w".toList]) := by decide
  exact ⟨hr, (getRelaunchCommand_emits_no_classpath sampleGlobalsJNI _).1 _ hr⟩

/-! ## The relaunch command of the empty command -/

/-- Every command with at least one token has a relaunch command: `program`, then the copied
tokens, then the sentinel. -/
theorem getRelaunchCommand_shape (g : Globals) (cmd : List Str) (hne : cmd ≠ []) :
    ∃ (begin : Nat), 1 ≤ begin ∧
      getRelaunchCommand g (sentinel cmd) =
        some (g.program :: ((relaunchKept (cmd.drop begin)).map some ++ [none])) := by
  obtain ⟨b, copied, scanned, _, hb1, _, _, _, hget, hmap, _⟩ :=
    getRelaunchCommand_sentinel g cmd hne
  exact ⟨b, hb1, by rw [hget, hmap]⟩

/-- C12 on the empty command, which `parseArgList` returns for an empty payload: no marker is
found, the first loop ends with `i = 0`, the fallback sets `begin = 1`, and the second loop
starts by reading `vmCommand[1]`, which lies after the sentinel `vmCommand[0]`, outside the
array: there is no defined result. -/
theorem getRelaunchCommand_of_empty_command :
    parseArgList [] = [none] ∧
    findBegin (reqVMarg sampleGlobalsJNI) [none] 2 (-1) 0 (-1) = some (0, -1) ∧
    relaunchBegin sampleGlobalsJNI [none] = some 1 ∧
    rdChecked [none] 1 = none ∧
    getRelaunchCommand sampleGlobalsJNI (parseArgList []) = none := by
  decide

end Eclipse

namespace Eclipse

/-! ## `parseArgList` splits the payload at its line-feeds -/

theorem tcschr_none (c : Char) (s : Str) (h : tcschr c s = none) : c ∉ s := by
  induction s with
  | nil => simp
  | cons d s ih =>
    unfold tcschr at h
    by_cases hd : d = c
    · rw [if_pos hd] at h
      exact absurd h (by simp)
    · rw [if_neg hd] at h
      have h2 : tcschr c s = none := by simpa using h
      intro hmem
      rcases List.mem_cons.1 hmem with h3 | h3
      · exact hd h3.symm
      · exact ih h2 h3

theorem tcschr_some (c : Char) (s : Str) (k : Nat) (h : tcschr c s = some k) :
    c ∉ s.take k ∧ s = s.take k ++ c :: s.drop (k + 1) := by
  induction s generalizing k with
  | nil => simp [tcschr] at h
  | cons d s ih =>
    unfold tcschr at h
    by_cases hd : d = c
    · rw [if_pos hd] at h
      have hk : k = 0 := by simpa using h.symm
      subst hk
      simp [hd]
    · rw [if_neg hd] at h
      cases hs : tcschr c s with
      | none => rw [hs] at h; simp at h
      | some j =>
        rw [hs] at h
        have hk : k = j + 1 := by simpa using h.symm
        subst hk
        obtain ⟨h1, h2⟩ := ih j hs
        constructor
        · intro hmem
          rw [List.take_succ_cons] at hmem
          rcases List.mem_cons.1 hmem with h3 | h3
          · exact hd h3.symm
          · exact h1 h3
        · rw [List.take_succ_cons, List.drop_succ_cons, List.cons_append, ← h2]

/-- The filling loop of `parseArgList` with enough fuel: the arguments are the pieces of the
string that a line-feed ends and, when the string does not end there, the piece after the
last line-feed. -/
theorem parseArgListLoop_segments (fuel : Nat) (rest : Str) (hfuel : rest.length < fuel) :
    ∃ segs : List Str,
      (∀ a ∈ segs, '\n' ∉ a) ∧
      ((rest = (segs.map (fun a => a ++ ['\n'])).flatten ∧ parseArgListLoop fuel rest = segs) ∨
       (∃ last, last ≠ [] ∧ '\n' ∉ last ∧
          rest = (segs.map (fun a => a ++ ['\n'])).flatten ++ last ∧
          parseArgListLoop fuel rest = segs ++ [last])) := by
  induction fuel generalizing rest with
  | zero => omega
  | succ fuel ih =>
    unfold parseArgListLoop
    cases hk : tcschr '\n' rest with
    | none =>
      refine ⟨[], by simp, ?_⟩
      by_cases hr : rest = []
      · left
        simp [hr]
      · right
        exact ⟨rest, hr, tcschr_none _ _ hk, by simp, by simp [hr]⟩
    | some k =>
      obtain ⟨hnot, hsplit⟩ := tcschr_some _ _ _ hk
      have hlen : (rest.drop (k + 1)).length < fuel := by
        have := congrArg List.length hsplit
        simp only [List.length_append, List.length_cons] at this
        omega
      obtain ⟨segs, hsegs, hcase⟩ := ih (rest.drop (k + 1)) hlen
      refine ⟨rest.take k :: segs, ?_, ?_⟩
      · intro a ha
        rcases List.mem_cons.1 ha with h1 | h1
        · rw [h1]; exact hnot
        · exact hsegs a h1
      · rcases hcase with ⟨h1, h2⟩ | ⟨last, hl1, hl2, h1, h2⟩
        · left
          refine ⟨?_, by simp only [h2]⟩
          rw [List.map_cons, List.flatten_cons, ← h1, List.append_assoc]
          exact hsplit
        · right
          refine ⟨last, hl1, hl2, ?_, by simp only [h2, List.cons_append]⟩
          rw [List.map_cons, List.flatten_cons, List.append_assoc, ← h1, List.append_assoc]
          exact hsplit

/-- C13: for every payload, `parseArgList` returns, in order and closed by the sentinel, the
segments of the payload that a line-feed ends (none of them holds a line-feed), followed by
the final segment when the payload does not end with a line-feed; so
`-data\n/tmp/x\n-debug` yields `-data`, `/tmp/x`, `-debug`. -/
theorem parseArgList_segments (data : Str) :
    (∃ segs : List Str,
      (∀ a ∈ segs, '\n' ∉ a) ∧
      ((data = (segs.map (fun a => a ++ ['\n'])).flatten ∧ parseArgList data = sentinel segs) ∨
       (∃ last, last ≠ [] ∧ '\n' ∉ last ∧
          data = (segs.map (fun a => a ++ ['\n'])).flatten ++ last ∧
          parseArgList data = sentinel (segs ++ [last])))) ∧
    parseArgList "-data\n/tmp/x\n-debug".toList =
      sentinel ["-data".toList, "/tmp/x".toList, "-debug".toList] := by
  refine ⟨?_, by decide⟩
  obtain ⟨segs, hsegs, hcase⟩ :=
    parseArgListLoop_segments (data.length + 1) data (Nat.lt_succ_self _)
  refine ⟨segs, hsegs, ?_⟩
  rcases hcase with ⟨h1, h2⟩ | ⟨last, hl1, hl2, h1, h2⟩
  · left
    exact ⟨h1, by unfold parseArgList parseArgListTokens; rw [h2]⟩
  · right
    exact ⟨last, hl1, hl2, h1, by unfold parseArgList parseArgListTokens; rw [h2]⟩

end Eclipse

namespace Eclipse

/-! ## The first loop of `getVMCommand` as a function on lists -/

theorem withoutClasspath_cons (c t : Str) (l : List Str) :
    withoutClasspath c (t :: l) =
      if t = c then withoutClasspath c (l.drop 1) else t :: withoutClasspath c l := by
  cases l with
  | nil => by_cases h : t = c <;> simp [withoutClasspath, h]
  | cons v rest => simp [withoutClasspath]

theorem withoutClasspath_length (c : Str) (l : List Str) :
    (withoutClasspath c l).length ≤ l.length ∧
      (c ∈ l → (withoutClasspath c l).length < l.length) := by
  have key : ∀ n (l : List Str), l.length ≤ n →
      (withoutClasspath c l).length ≤ l.length ∧
        (c ∈ l → (withoutClasspath c l).length < l.length) := by
    intro n
    induction n with
    | zero =>
      intro l hl
      have : l = [] := List.length_eq_zero.1 (by omega)
      subst this
      simp [withoutClasspath]
    | succ n ih =>
      intro l hl
      cases l with
      | nil => simp [withoutClasspath]
      | cons t l =>
        have hl2 : l.length ≤ n := by simpa using hl
        rw [withoutClasspath_cons]
        by_cases h : t = c
        · rw [if_pos h]
          have h1 := (ih (l.drop 1) (by rw [List.length_drop]; omega)).1
          rw [List.length_drop] at h1
          simp only [List.length_cons]
          exact ⟨by omega, fun _ => by omega⟩
        · rw [if_neg h]
          obtain ⟨h1, h2⟩ := ih l hl2
          simp only [List.length_cons]
          refine ⟨by omega, fun hmem => ?_⟩
          rcases List.mem_cons.1 hmem with h3 | h3
          · exact absurd h3.symm h
          · have := h2 h3
            omega
  exact key l.length l (Nat.le_refl _)

theorem withoutClasspath_of_not_mem (c : Str) (l : List Str) (h : c ∉ l) :
    withoutClasspath c l = l := by
  induction l with
  | nil => simp [withoutClasspath]
  | cons t l ih =>
    rw [withoutClasspath_cons]
    have h1 : t ≠ c := fun e => h (by simp [e])
    have h2 : c ∉ l := fun e => h (List.mem_cons_of_mem _ e)
    rw [if_neg h1, ih h2]

/-- The entries the first loop of `getVMCommand` copies from position `src` on, when `cp` is
not NULL: the rest of the list without its classpath entries. -/
theorem vmArgCopied_eq (c : Str) (u : List Str) (fuel src : Nat) (hfuel : u.length ≤ src + fuel) :
    (vmArgCopied (some c) u fuel src).map (fun i => u.get? i) =
      (withoutClasspath c (u.drop src)).map some := by
  induction fuel generalizing src with
  | zero =>
    have : u.drop src = [] := List.drop_eq_nil_of_le (by omega)
    simp [vmArgCopied, this, withoutClasspath]
  | succ fuel ih =>
    rw [vmArgCopied_succ]
    by_cases hsrc : src < u.length
    · rw [if_pos hsrc]
      have hdrop : u.drop src = u[src] :: u.drop (src + 1) := List.drop_eq_getElem_cons hsrc
      rw [hdrop, withoutClasspath_cons]
      have hcp := isClasspath_iff (some c) u src hsrc
      rw [List.get?_eq_getElem?, List.getElem?_eq_getElem hsrc] at hcp
      by_cases hc : u[src] = c
      · rw [if_pos hc, if_pos (by
          rw [List.get?_eq_getElem?, List.getElem?_eq_getElem hsrc]
          exact hcp.2 (by rw [hc]))]
        rw [ih (src + 1 + 1) (by omega), List.drop_drop]
      · rw [if_neg hc, if_neg (by
          rw [List.get?_eq_getElem?, List.getElem?_eq_getElem hsrc]
          intro h
          exact hc (Option.some.inj (hcp.1 h)))]
        rw [List.map_cons, List.map_cons, ih (src + 1) (by omega),
          List.get?_eq_getElem?, List.getElem?_eq_getElem hsrc]
    · rw [if_neg hsrc]
      have : u.drop src = [] := List.drop_eq_nil_of_le (by omega)
      simp [this, withoutClasspath]

/-- The first loop of `getVMCommand` copies every entry when `cp` is NULL. -/
theorem vmArgCopied_none (u : List Str) (fuel src : Nat) (hfuel : u.length ≤ src + fuel) :
    (vmArgCopied none u fuel src).map (fun i => u.get? i) = (u.drop src).map some := by
  induction fuel generalizing src with
  | zero =>
    have : u.drop src = [] := List.drop_eq_nil_of_le (by omega)
    simp [vmArgCopied, this]
  | succ fuel ih =>
    rw [vmArgCopied_succ]
    by_cases hsrc : src < u.length
    · rw [if_pos hsrc]
      have hdrop : u.drop src = u[src] :: u.drop (src + 1) := List.drop_eq_getElem_cons hsrc
      rw [hdrop, if_neg (by
        rw [List.get?_eq_getElem?, List.getElem?_eq_getElem hsrc]
        simp)]
      rw [List.map_cons, List.map_cons, ih (src + 1) (by omega),
        List.get?_eq_getElem?, List.getElem?_eq_getElem hsrc]
    · rw [if_neg hsrc]
      have : u.drop src = [] := List.drop_eq_nil_of_le (by omega)
      simp [this]

/-- The array `*vmArgv` when `cp` is not NULL: the VM arguments without their classpath
entries, the required VM arguments, the sentinel. -/
theorem getVMCommand_vmArgv_eq (g : Globals) (d : List Str) (c : Str) (hcp : g.cp = some c) :
    getVMCommand_vmArgv g d =
      (withoutClasspath c (vmArgBase g d)).map some ++ reqVMargs g ++ [none] := by
  unfold getVMCommand_vmArgv
  simp only []
  rw [hcp, vmArgCopied_eq c _ _ 0 (by omega), List.drop_zero]

end Eclipse

namespace Eclipse

/-! ## The trailer of the program arguments -/

/-- C14 as stated fails with the user VM arguments `-jar other.jar` in a launch in a separate
process: the VM arguments are `-jar /opt/eclipse/startup.jar`, while the program arguments
end with `-vm /usr/bin/java -vmargs -jar other.jar -jar /opt/eclipse/startup.jar`. -/
theorem getVMCommand_trailer_counterexample :
    (getVMCommand 1 (sentinel ["/opt/eclipse/eclipse".toList])
        { sampleGlobals with userVMarg := some ["-jar".toList, "other.jar".toList] } []).1
      = sentinel ["-jar".toList, "/opt/eclipse/startup.jar".toList] ∧
    (getVMCommand 1 (sentinel ["/opt/eclipse/eclipse".toList])
        { sampleGlobals with userVMarg := some ["-jar".toList, "other.jar".toList] } []).2
      = sentinel ["-os".toList, "linux".toList, "-ws".toList, "gtk".toList, "-arch".toList,
          "x86".toList, "-launcher".toList, "/opt/eclipse/eclipse".toList, "-name".toList,
          "Eclipse".toList, "-startup".toList, "/opt/eclipse/startup.jar".toList,
          "-showsplash".toList, "-exitdata".toList, "7b4".toList,
          "-vm".toList, "/usr/bin/java".toList, "-vmargs".toList,
          "-jar".toList, "other.jar".toList, "-jar".toList, "/opt/eclipse/startup.jar".toList] ∧
    ¬ ([some VM, some "/usr/bin/java".toList, some VMARGS] ++
        (getVMCommand 1 (sentinel ["/opt/eclipse/eclipse".toList])
          { sampleGlobals with userVMarg := some ["-jar".toList, "other.jar".toList] } []).1)
      <:+ (getVMCommand 1 (sentinel ["/opt/eclipse/eclipse".toList])
          { sampleGlobals with userVMarg := some ["-jar".toList, "other.jar".toList] } []).2 := by
  decide

/-- C14 (amended): the program arguments built by `getVMCommand` end with `-vm`, the runtime
path (`jniLib` when set, else `javaVM`), `-vmargs`, then the complete VM arguments the call
started from (the user's when given, else the defaults, nothing filtered out), the required
VM arguments and the sentinel.  What follows `-vmargs` is the VM argument array of the same
call when no VM argument equals the classpath flag `cp`, and differs from it when one does. -/
theorem getVMCommand_trailer (argc : Int) (argv : List (Option Str)) (g : Globals)
    (d : List Str) :
    ∃ front : List (Option Str),
      (getVMCommand argc argv g d).2 =
        front ++ [some VM, if g.jniLib ≠ none then g.jniLib else g.javaVM, some VMARGS]
          ++ ((vmArgBase g d).map some ++ reqVMargs g ++ [none]) ∧
      ((∀ t ∈ vmArgBase g d, some t ≠ g.cp) →
        (vmArgBase g d).map some ++ reqVMargs g ++ [none] = (getVMCommand argc argv g d).1) ∧
      ((∃ t ∈ vmArgBase g d, some t = g.cp) →
        (vmArgBase g d).map some ++ reqVMargs g ++ [none] ≠ (getVMCommand argc argv g d).1) := by
  refine ⟨[some OS, g.osArg, some WS, g.wsArg]
    ++ (if nonEmpty g.osArchArg then [some OSARCH, g.osArchArg] else [])
    ++ [some LAUNCHER, g.program]
    ++ [some NAME, g.officialName]
    ++ (if g.library ≠ none then [some LIBRARY, g.library] else [])
    ++ [some STARTUP, g.jarFile]
    ++ (if ¬ g.noSplash then [some SHOWSPLASH] else [])
    ++ (if g.sharedID ≠ none then [some EXITDATA, g.sharedID] else [])
    ++ userArgs argc argv, ?_, ?_, ?_⟩
  · simp only [getVMCommand, getVMCommand_progArgv, List.append_assoc]
  · intro hno
    show _ = getVMCommand_vmArgv g d
    cases hcp : g.cp with
    | none =>
      unfold getVMCommand_vmArgv
      simp only []
      rw [hcp, vmArgCopied_none _ _ 0 (by omega), List.drop_zero]
    | some c =>
      rw [getVMCommand_vmArgv_eq g d c hcp, withoutClasspath_of_not_mem]
      intro hmem
      exact hno c hmem (by rw [hcp])
  · rintro ⟨t, ht, hcp⟩
    show _ ≠ getVMCommand_vmArgv g d
    rw [getVMCommand_vmArgv_eq g d t hcp.symm]
    intro heq
    have hlen := congrArg List.length heq
    have := (withoutClasspath_length t (vmArgBase g d)).2 ht
    simp only [List.length_append, List.length_map] at hlen
    omega

/-- C14 (amended) on the default VM arguments `-Xms40m`, none of which is the classpath flag:
the program arguments end with `-vm /usr/bin/java -vmargs` and the VM argument array
`-Xms40m -jar /opt/eclipse/startup.jar`. -/
theorem getVMCommand_trailer_witness :
    ∃ front : List (Option Str),
      (getVMCommand 1 (sentinel ["/opt/eclipse/eclipse".toList]) sampleGlobals
          ["-Xms40m".toList]).2 =
        front ++ [some VM, some "/usr/bin/java".toList, some VMARGS]
          ++ sentinel ["-Xms40m".toList, "-jar".toList, "/opt/eclipse/startup.jar".toList] ∧
      (getVMCommand 1 (sentinel ["/opt/eclipse/eclipse".toList]) sampleGlobals
          ["-Xms40m".toList]).1 =
        sentinel ["-Xms40m".toList, "-jar".toList, "/opt/eclipse/startup.jar".toList] := by
  obtain ⟨front, h1, h2, _⟩ := getVMCommand_trailer 1 (sentinel ["/opt/eclipse/eclipse".toList])
    sampleGlobals ["-Xms40m".toList]
  have h3 := h2 (by decide)
  refine ⟨front, ?_, ?_⟩
  · rw [h1]
    rfl
  · rw [← h3]
    rfl

end Eclipse

namespace Eclipse

/-! ## The composition of the VM arguments -/

end Eclipse

namespace Eclipse

/-! ## The text `formatVmCommandMsg` renders -/

/-- The formatting loop continued over `rest` after the token `t` has been written behind the
text `m`. -/
theorem foldl_appendArg (rest : List Str) (m t : Str) :
    rest.foldl appendArg (m ++ t ++ [' ']) = m ++ joinArgs (t :: rest) ++ [' '] := by
  induction rest generalizing m t with
  | nil => simp [joinArgs]
  | cons u rest ih =>
    have hstep : appendArg (m ++ t ++ [' ']) u =
        (m ++ t ++ [if firstCharIs u '-' then '\n' else ' ']) ++ u ++ [' '] := by
      unfold appendArg
      by_cases hd : firstCharIs u '-' = true
      · simp [hd, List.dropLast_concat]
      · have hd2 : firstCharIs u '-' = false := by simpa using hd
        simp [hd2]
    rw [List.foldl_cons, hstep, ih]
    simp [joinArgs, List.append_assoc]

/-- The formatting loop over a token sequence, started on the empty buffer. -/
theorem foldl_appendArg_nil (toks : List Str) :
    toks.foldl appendArg [] = if toks = [] then [] else joinArgs toks ++ [' '] := by
  cases toks with
  | nil => rfl
  | cons t rest =>
    have h0 : appendArg [] t = [] ++ t ++ [' '] := by
      simp [appendArg]
    rw [List.foldl_cons, h0, foldl_appendArg]
    simp

/-- C16 as stated fails on the primary list `java -jar x`: the text ends with a space, which
the tokens joined by single separators do not. -/
theorem formatVmCommandMsg_join_counterexample :
    formatVmCommandMsg (some (sentinel ["java".toList, "-jar".toList, "x".toList])) [] []
      = "java\n-jar x ".toList ∧
    joinArgs (renderedTokens (some (sentinel ["java".toList, "-jar".toList, "x".toList])) [] [])
      = "java\n-jar x".toList ∧
    formatVmCommandMsg (some (sentinel ["java".toList, "-jar".toList, "x".toList])) [] []
      ≠ joinArgs
          (renderedTokens (some (sentinel ["java".toList, "-jar".toList, "x".toList])) [] []) := by
  decide

/-- C16 (amended): `formatVmCommandMsg` renders the primary list alone when it is not NULL and
otherwise the VM arguments followed by the program arguments; the text is empty when there is
no token, and otherwise it is the tokens joined with a single space, a line break taking the
place of the space before every token but the first that begins with `-`, followed by one
more space after the last token. -/
theorem formatVmCommandMsg_join (args : Option (List (Option Str)))
    (vmArgs progArgs : List (Option Str)) :
    (∀ a, args = some a → renderedTokens args vmArgs progArgs = tokens a) ∧
    (args = none → renderedTokens args vmArgs progArgs = tokens vmArgs ++ tokens progArgs) ∧
    formatVmCommandMsg args vmArgs progArgs =
      if renderedTokens args vmArgs progArgs = [] then []
      else joinArgs (renderedTokens args vmArgs progArgs) ++ [' '] := by
  refine ⟨?_, ?_, ?_⟩
  · intro a ha
    rw [ha]
    rfl
  · intro ha
    rw [ha]
    rfl
  · cases args with
    | some a =>
      show (tokens a).foldl appendArg [] = _
      exact foldl_appendArg_nil _
    | none =>
      show (tokens progArgs).foldl appendArg ((tokens vmArgs).foldl appendArg []) = _
      rw [← List.foldl_append]
      exact foldl_appendArg_nil _

/-- C16 (amended) without a primary list, on the VM arguments `-Xms40m -jar s.jar` and the
program arguments `-os linux`: a line break stands before `-jar` and `-os`, not before the
leading `-Xms40m`, and the text ends with a space. -/
theorem formatVmCommandMsg_join_witness :
    formatVmCommandMsg none (sentinel ["-Xms40m".toList, "-jar".toList, "s.jar".toList])
        (sentinel ["-os".toList, "linux".toList])
      = "-Xms40m\n-jar s.jar\n-os linux ".toList := by
  rw [(formatVmCommandMsg_join none (sentinel ["-Xms40m".toList, "-jar".toList, "s.jar".toList])
    (sentinel ["-os".toList, "linux".toList])).2.2]
  decide

end Eclipse

namespace Eclipse

/-! ## The startup jar -/

/-- The default lookup of `findStartupJar` always yields a jar. -/
theorem defaultStartupJar_isSome (pf : Platform) (programDir : Str) :
    ∃ file, defaultStartupJar pf programDir = some file := by
  unfold defaultStartupJar
  cases pf.findFile (pluginsPath pf programDir) pf.defaultEquinoxStartup with
  | none => exact ⟨_, rfl⟩
  | some f => exact ⟨_, rfl⟩

/-- The function `findStartupJar` never returns NULL. -/
theorem findStartupJar_isSome (pf : Platform) (programDir : Str) (g : Globals) :
    ∃ file, findStartupJar pf programDir g = some file := by
  unfold findStartupJar
  cases g.startupArg with
  | none => exact defaultStartupJar_isSome pf programDir
  | some a =>
    simp only []
    by_cases h1 : pf.fileExists (programDir ++ a) = true
    · simp [h1]
    · by_cases h2 : pf.fileExists a = true
      · simp [h1, h2]
      · simp only [h1, h2, if_false, Bool.false_eq_true]
        exact defaultStartupJar_isSome pf programDir

/-- Once the VM discovery has not failed, `run` enters its loop with the jar
`findStartupJar` yields. -/
theorem runLaunchSetup_ready (pf : Platform) (argc : Int) (argv : List (Option Str))
    (vmArgs : Option (List Str)) (g : Globals) (officialName programDir : Str)
    (hvm : ¬ ((discoverVM pf programDir g).jniLaunching = false ∧
      (discoverVM pf programDir g).javaVM = none)) :
    ∃ s, runLaunchSetup pf argc argv vmArgs g officialName programDir = SetupResult.ready s ∧
      s.jniLaunching = (discoverVM pf programDir g).jniLaunching ∧
      s.g.javaVM = (discoverVM pf programDir g).javaVM ∧
      s.g.jniLib = (discoverVM pf programDir g).jniLib ∧
      s.g.jarFile = findStartupJar pf programDir
        { g with officialName := some officialName, programDir := some programDir,
                 javaVM := (discoverVM pf programDir g).javaVM,
                 jniLib := (discoverVM pf programDir g).jniLib,
                 vmName := (discoverVM pf programDir g).vmName } := by
  obtain ⟨file, hfile⟩ := findStartupJar_isSome pf programDir
    { g with officialName := some officialName, programDir := some programDir,
             javaVM := (discoverVM pf programDir g).javaVM,
             jniLib := (discoverVM pf programDir g).jniLib,
             vmName := (discoverVM pf programDir g).vmName }
  have hcond : ¬ (¬ (discoverVM pf programDir g).jniLaunching = true ∧
      (discoverVM pf programDir g).javaVM = none) := by
    intro h
    exact hvm ⟨by simpa using h.1, h.2⟩
  unfold runLaunchSetup
  simp only [hcond, if_false, hfile]
  refine ⟨_, rfl, rfl, ?_, ?_, ?_⟩
  · cases (discoverVM pf programDir g).jniLaunching <;>
      cases pf.createSharedData <;> simp [setClasspath]
  · cases (discoverVM pf programDir g).jniLaunching <;>
      cases pf.createSharedData <;> simp [setClasspath]
  · cases (discoverVM pf programDir g).jniLaunching <;>
      cases pf.createSharedData <;> simp [setClasspath]

/-- C17 as stated fails on `eclipse -startup my.jar` where neither `/opt/eclipse/my.jar` nor
`my.jar` exists: `findStartupJar` yields `startup.jar`, and `run` enters its loop, for a
launch in a separate process, with that jar instead of leaving through `exit`. -/
theorem findStartupJar_missing_counterexample :
    samplePlatform.fileExists ("/opt/eclipse/".toList ++ "my.jar".toList) = false ∧
    samplePlatform.fileExists "my.jar".toList = false ∧
    findStartupJar samplePlatform "/opt/eclipse/".toList
        { sampleInitialGlobals with startupArg := some "my.jar".toList }
      = some "startup.jar".toList ∧
    ((runSetup samplePlatform 3
        (sentinel ["/opt/eclipse/eclipse".toList, "-startup".toList, "my.jar".toList]) none
        sampleInitialGlobals).bind SetupResult.state).map
          (fun s => (s.g.jarFile, s.jniLaunching, s.vmCommand))
      = some (some "startup.jar".toList, false,
          some (sentinel ["/usr/bin/java".toList, "-Xms40m".toList, "-jar".toList,
            "startup.jar".toList, "-os".toList, "linux".toList, "-ws".toList, "gtk".toList,
            "-arch".toList, "x86".toList, "-launcher".toList, "/opt/eclipse/eclipse".toList,
            "-name".toList, "Eclipse".toList, "-startup".toList, "startup.jar".toList,
            "-showsplash".toList, "-exitdata".toList, "7b4".toList, "-vm".toList,
            "/usr/bin/java".toList, "-vmargs".toList, "-Xms40m".toList, "-jar".toList,
            "startup.jar".toList])) := by
  refine ⟨by decide, by decide, by decide, ?_⟩
  decide

/-- C17 (amended): when a `-startup` value is configured and no file exists at
`programDir ++ value` nor at `value` itself, `findStartupJar` falls back to its default
lookup, the equinox startup jar found under the `plugins` directory or else `startup.jar`;
it yields a jar in every case, and `run`, once the VM discovery has not failed, enters its
loop with that jar. -/
theorem findStartupJar_missing (pf : Platform) (argc : Int) (argv : List (Option Str))
    (vmArgs : Option (List Str)) (g : Globals) (officialName programDir value : Str)
    (hstartup : g.startupArg = some value)
    (hrel : pf.fileExists (programDir ++ value) = false)
    (habs : pf.fileExists value = false) :
    findStartupJar pf programDir g = defaultStartupJar pf programDir ∧
    defaultStartupJar pf programDir =
      some ((pf.findFile (pluginsPath pf programDir) pf.defaultEquinoxStartup).getD
        DEFAULT_STARTUP) ∧
    (¬ ((discoverVM pf programDir g).jniLaunching = false ∧
        (discoverVM pf programDir g).javaVM = none) →
      ∃ s, runLaunchSetup pf argc argv vmArgs g officialName programDir = SetupResult.ready s ∧
        s.g.jarFile = defaultStartupJar pf programDir) := by
  refine ⟨?_, ?_, ?_⟩
  · unfold findStartupJar
    simp [hstartup, hrel, habs]
  · unfold defaultStartupJar
    cases pf.findFile (pluginsPath pf programDir) pf.defaultEquinoxStartup <;> rfl
  · intro hvm
    obtain ⟨s, hs, _, _, _, hjar⟩ :=
      runLaunchSetup_ready pf argc argv vmArgs g officialName programDir hvm
    refine ⟨s, hs, ?_⟩
    rw [hjar]
    unfold findStartupJar
    simp [hstartup, hrel, habs]

/-- C17 (amended) on the sample platform, the program directory `/opt/eclipse/` and
`-startup my.jar`: the jar is `startup.jar`. -/
theorem findStartupJar_missing_witness :
    findStartupJar samplePlatform "/opt/eclipse/".toList
        { sampleInitialGlobals with startupArg := some "my.jar".toList } = some "startup.jar".toList ∧
    ∃ s, runLaunchSetup samplePlatform 1 (sentinel ["/opt/eclipse/eclipse".toList]) none
        { sampleInitialGlobals with startupArg := some "my.jar".toList } "Eclipse".toList
        "/opt/eclipse/".toList = SetupResult.ready s ∧
      s.g.jarFile = some "startup.jar".toList := by
  have h := findStartupJar_missing samplePlatform 1 (sentinel ["/opt/eclipse/eclipse".toList])
    none { sampleInitialGlobals with startupArg := some "my.jar".toList } "Eclipse".toList
    "/opt/eclipse/".toList "my.jar".toList rfl rfl rfl
  refine ⟨by rw [h.1]; decide, ?_⟩
  obtain ⟨s, hs, hjar⟩ := h.2.2 (by decide)
  exact ⟨s, hs, by rw [hjar]; decide⟩

end Eclipse

namespace Eclipse

/-! ## The VM discovery of `run` -/

/-- The discovery leaves `javaVM` NULL exactly when the path searches find nothing: the search
for the VM the user named or, when none is named, the searches for the shipped VM and for
the default VM. -/
theorem discoverVM_javaVM (pf : Platform) (programDir : Str) (g : Globals) :
    (discoverVM pf programDir g).javaVM = none ↔
      match g.vmName with
      | some v => pf.findCommand v = none
      | none =>
        pf.findCommand (programDir ++ pf.shippedVMDir ++ pf.defaultVM) = none ∧
          pf.findCommand pf.defaultVM = none := by
  unfold discoverVM
  cases hv : g.vmName with
  | some v =>
    simp only []
    cases hf : pf.findCommand v <;> cases hl : pf.isVMLibrary none <;>
      cases hl2 : pf.isVMLibrary (pf.findCommand v) <;>
      cases hm : pf.findVMLibrary none <;>
      cases hm2 : pf.findVMLibrary (pf.findCommand v) <;> simp_all
  | none =>
    simp only []
    cases hf : pf.findCommand (programDir ++ pf.shippedVMDir ++ pf.defaultVM) <;>
      cases hf2 : pf.findCommand pf.defaultVM <;>
      cases hm : pf.findVMLibrary none <;>
      cases hm2 : pf.findVMLibrary (pf.findCommand pf.defaultVM) <;>
      cases hm3 : pf.findVMLibrary
        (pf.findCommand (programDir ++ pf.shippedVMDir ++ pf.defaultVM)) <;> simp_all

/-- With `jniLib` at its initial NULL, the discovery selects the JNI launch exactly when it
leaves a VM library in `jniLib`, and that library is the one `findVMLibrary` returns for the
VM found. -/
theorem discoverVM_jniLib (pf : Platform) (programDir : Str) (g : Globals)
    (hlib : g.jniLib = none) :
    ((discoverVM pf programDir g).jniLaunching = true ↔
      (discoverVM pf programDir g).jniLib ≠ none) ∧
    ((discoverVM pf programDir g).jniLib ≠ none →
      (discoverVM pf programDir g).jniLib =
        pf.findVMLibrary (discoverVM pf programDir g).javaVM) := by
  unfold discoverVM
  cases hv : g.vmName with
  | some v =>
    simp only []
    cases hf : pf.findCommand v <;> cases hl : pf.isVMLibrary none <;>
      cases hl2 : pf.isVMLibrary (pf.findCommand v) <;>
      cases hm : pf.findVMLibrary none <;>
      cases hm2 : pf.findVMLibrary (pf.findCommand v) <;> simp_all
  | none =>
    simp only []
    cases hf : pf.findCommand (programDir ++ pf.shippedVMDir ++ pf.defaultVM) <;>
      cases hf2 : pf.findCommand pf.defaultVM <;>
      cases hm : pf.findVMLibrary none <;>
      cases hm2 : pf.findVMLibrary (pf.findCommand pf.defaultVM) <;>
      cases hm3 : pf.findVMLibrary
        (pf.findCommand (programDir ++ pf.shippedVMDir ++ pf.defaultVM)) <;> simp_all

/-- The locations named in the no-VM message. -/
theorem discoverVM_searched (pf : Platform) (programDir : Str) (g : Globals) :
    (match (discoverVM pf programDir g).vmSearchPath with
      | some path => path
      | none => (discoverVM pf programDir g).vmName.getD []) =
    match g.vmName with
    | some v => v
    | none => pathMessage (programDir ++ pf.shippedVMDir ++ pf.defaultVM) pf.defaultVM := by
  unfold discoverVM
  cases hv : g.vmName with
  | some v =>
    simp only []
    cases hf : pf.findCommand v <;> cases hl : pf.isVMLibrary none <;>
      cases hl2 : pf.isVMLibrary (pf.findCommand v) <;>
      cases hm : pf.findVMLibrary none <;>
      cases hm2 : pf.findVMLibrary (pf.findCommand v) <;> simp_all
  | none =>
    simp only []
    cases hf : pf.findCommand (programDir ++ pf.shippedVMDir ++ pf.defaultVM) <;>
      cases hf2 : pf.findCommand pf.defaultVM <;>
      cases hm : pf.findVMLibrary none <;>
      cases hm2 : pf.findVMLibrary (pf.findCommand pf.defaultVM) <;>
      cases hm3 : pf.findVMLibrary
        (pf.findCommand (programDir ++ pf.shippedVMDir ++ pf.defaultVM)) <;> simp_all

end Eclipse

namespace Eclipse

/-- C18: entered with `jniLib` at its initial NULL, the VM discovery of `run` ends in the
no-VM error (the no-VM message naming the searched locations, exit status 1) exactly when
the path search yields no executable (`javaVM` is NULL) and no VM library was found (`jniLib`
is NULL); when an executable is found and no library is, `run` goes on with a launch in a
separate process; and it goes on with a JNI launch only when, and whenever, a library was
found, which is then the library `findVMLibrary` returns. -/
theorem discoverVM_outcome (pf : Platform) (argc : Int) (argv : List (Option Str))
    (vmArgs : Option (List Str)) (g : Globals) (officialName programDir : Str)
    (hlib : g.jniLib = none) :
    ((discoverVM pf programDir g).javaVM = none ↔
      match g.vmName with
      | some v => pf.findCommand v = none
      | none =>
        pf.findCommand (programDir ++ pf.shippedVMDir ++ pf.defaultVM) = none ∧
          pf.findCommand pf.defaultVM = none) ∧
    ((discoverVM pf programDir g).jniLib ≠ none →
      (discoverVM pf programDir g).jniLib =
        pf.findVMLibrary (discoverVM pf programDir g).javaVM) ∧
    (runLaunchSetup pf argc argv vmArgs g officialName programDir =
        SetupResult.fatal (some officialName)
          (noVMMessage officialName
            (match g.vmName with
              | some v => v
              | none => pathMessage (programDir ++ pf.shippedVMDir ++ pf.defaultVM) pf.defaultVM))
          1 ↔
      ((discoverVM pf programDir g).javaVM = none ∧
        (discoverVM pf programDir g).jniLib = none)) ∧
    (¬ ((discoverVM pf programDir g).javaVM = none ∧
        (discoverVM pf programDir g).jniLib = none) →
      ∃ s, runLaunchSetup pf argc argv vmArgs g officialName programDir = SetupResult.ready s ∧
        (s.jniLaunching = true ↔ (discoverVM pf programDir g).jniLib ≠ none) ∧
        s.g.javaVM = (discoverVM pf programDir g).javaVM ∧
        s.g.jniLib = (discoverVM pf programDir g).jniLib) ∧
    ((discoverVM pf programDir g).javaVM ≠ none →
      (discoverVM pf programDir g).jniLib = none →
      ∃ s, runLaunchSetup pf argc argv vmArgs g officialName programDir = SetupResult.ready s ∧
        s.jniLaunching = false) := by
  obtain ⟨hjni, hfound⟩ := discoverVM_jniLib pf programDir g hlib
  have hoff : (discoverVM pf programDir g).jniLaunching = false ↔
      (discoverVM pf programDir g).jniLib = none := by
    constructor
    · intro h
      by_contra hne
      have := hjni.2 hne
      rw [h] at this
      exact absurd this (by simp)
    · intro h
      cases hj : (discoverVM pf programDir g).jniLaunching with
      | false => rfl
      | true => exact absurd h (hjni.1 hj)
  have hready : ¬ ((discoverVM pf programDir g).javaVM = none ∧
      (discoverVM pf programDir g).jniLib = none) →
      ∃ s, runLaunchSetup pf argc argv vmArgs g officialName programDir = SetupResult.ready s ∧
        (s.jniLaunching = true ↔ (discoverVM pf programDir g).jniLib ≠ none) ∧
        s.g.javaVM = (discoverVM pf programDir g).javaVM ∧
        s.g.jniLib = (discoverVM pf programDir g).jniLib := by
    intro hno
    obtain ⟨s, hs, h1, h2, h3, _⟩ :=
      runLaunchSetup_ready pf argc argv vmArgs g officialName programDir
        (fun h => hno ⟨h.2, hoff.1 h.1⟩)
    exact ⟨s, hs, by rw [h1]; exact hjni, h2, h3⟩
  refine ⟨discoverVM_javaVM pf programDir g, hfound, ⟨?_, ?_⟩, hready, ?_⟩
  · intro hfatal
    by_contra hno
    obtain ⟨s, hs, _⟩ := hready hno
    rw [hs] at hfatal
    exact absurd hfatal (by simp)
  · intro hno
    have hcond : ¬ (discoverVM pf programDir g).jniLaunching = true ∧
        (discoverVM pf programDir g).javaVM = none := by
      refine ⟨?_, hno.1⟩
      rw [hoff.2 hno.2]
      simp
    have hsearched := discoverVM_searched pf programDir g
    unfold runLaunchSetup
    simp only []
    rw [if_pos hcond, hsearched]
  · intro hvm hnolib
    obtain ⟨s, hs, h1, _⟩ := hready (fun h => hvm h.1)
    refine ⟨s, hs, ?_⟩
    cases hj : s.jniLaunching with
    | false => rfl
    | true => exact absurd hnolib (h1.1 hj)

/-- C18 on the sample platform, where `/usr/bin/java` is on the path and no VM library is
found: with no `-vm` the launch is in a separate process; with `-vm nojava`, which the path
search does not find, `run` ends in the no-VM error naming `nojava`. -/
theorem discoverVM_outcome_witness :
    (∃ s, runLaunchSetup samplePlatform 1 (sentinel ["/opt/eclipse/eclipse".toList]) none
        sampleInitialGlobals "Eclipse".toList "/opt/eclipse/".toList = SetupResult.ready s ∧
      s.jniLaunching = false) ∧
    runLaunchSetup samplePlatform 1 (sentinel ["/opt/eclipse/eclipse".toList]) none
        { sampleInitialGlobals with vmName := some "nojava".toList } "Eclipse".toList
        "/opt/eclipse/".toList =
      SetupResult.fatal (some "Eclipse".toList)
        (noVMMessage "Eclipse".toList "nojava".toList) 1 := by
  constructor
  · exact (discoverVM_outcome samplePlatform 1 (sentinel ["/opt/eclipse/eclipse".toList]) none
      sampleInitialGlobals "Eclipse".toList "/opt/eclipse/".toList rfl).2.2.2.2
      (by decide) (by decide)
  · exact ((discoverVM_outcome samplePlatform 1 (sentinel ["/opt/eclipse/eclipse".toList]) none
      { sampleInitialGlobals with vmName := some "nojava".toList } "Eclipse".toList
      "/opt/eclipse/".toList rfl).2.2.1).2 (by decide)

end Eclipse

namespace Eclipse

/-! ## More on the passes of `parseArgs` -/

/-- The search loop of `parseArgs` finds the table entry whose name the token matches: no
two names of the table are equal ignoring case. -/
theorem findOption_eq (tok : Str) (o : LauncherOption) (ho : o ∈ options)
    (h : tcsicmpEq tok o.name = true) : findOption (some tok) = some o := by
  unfold tcsicmpEq at h
  have hl : tok.map Char.toLower = o.name.map Char.toLower := by simpa using h
  unfold findOption
  simp only [options, List.mem_cons, List.mem_singleton, List.not_mem_nil, or_false] at ho
  rcases ho with rfl | rfl | rfl | rfl | rfl | rfl | rfl | rfl | rfl | rfl | rfl | rfl <;>
    simp only [options, List.find?, tcsicmpEq, hl] <;> rfl

theorem parseArgsStep_index (s : ParseState) :
    (parseArgsStep s).index =
      match matchedOption s with
      | some o => if 0 < o.remove then s.index else s.index + 1
      | none => s.index + 1 := by
  unfold parseArgsStep matchedOption
  cases findOption (rd s.argv s.index) with
  | none => rfl
  | some o =>
    simp only []
    split_ifs <;> simp

theorem parseArgsStep_argc (s : ParseState) :
    (parseArgsStep s).argc =
      match matchedOption s with
      | some o => if 0 < o.remove then s.argc - o.remove else s.argc
      | none => s.argc := by
  unfold parseArgsStep matchedOption
  cases findOption (rd s.argv s.index) with
  | none => rfl
  | some o =>
    simp only []
    split_ifs <;> simp

theorem parseArgsStep_argv_of_keep (s : ParseState)
    (h : ∀ o, matchedOption s = some o → o.remove = 0) : (parseArgsStep s).argv = s.argv := by
  unfold parseArgsStep
  unfold matchedOption at h
  cases hf : findOption (rd s.argv s.index) with
  | none => rfl
  | some o =>
    have h0 := h o hf
    simp only []
    rw [if_neg (by omega)]

theorem FlagVar.get_valueSet (g : Globals) (p : Option Str) (v : ValueVar) (f : FlagVar) :
    f.get (v.set g p) = f.get g := by
  cases f <;> cases v <;> rfl

theorem FlagVar.get_set1_self (g : Globals) (f : FlagVar) : f.get (f.set1 g) = true := by
  cases f <;> rfl

theorem FlagVar.get_set1_mono (g : Globals) (f f2 : FlagVar) (h : f.get g = true) :
    f.get (f2.set1 g) = true := by
  cases f <;> cases f2 <;> simp_all [FlagVar.get, FlagVar.set1]

/-- A pass of `parseArgs` never clears a flag, and sets the flag of the option it matches. -/
theorem parseArgsStep_flag (s : ParseState) (f : FlagVar) :
    (f.get s.g = true → f.get (parseArgsStep s).g = true) ∧
    (∀ o, matchedOption s = some o → o.flag = some f → f.get (parseArgsStep s).g = true) := by
  unfold matchedOption
  cases hf : findOption (rd s.argv s.index) with
  | none =>
    refine ⟨fun h => ?_, fun o ho => by simp at ho⟩
    unfold parseArgsStep
    rw [hf]
    exact h
  | some o =>
    rw [parseArgsStep_g s o hf]
    have hval : f.get (match o.value with
        | some w => if s.index + 1 < s.argc then w.set s.g (rd s.argv (s.index + 1)) else s.g
        | none => s.g) = f.get s.g := by
      cases o.value with
      | none => rfl
      | some w =>
        simp only []
        split_ifs
        · exact FlagVar.get_valueSet _ _ _ _
        · rfl
    constructor
    · intro h
      cases o.flag with
      | none =>
        simp only []
        rw [hval]
        exact h
      | some f2 =>
        simp only []
        exact FlagVar.get_set1_mono _ _ _ (by rw [hval]; exact h)
    · intro o2 ho2 hflag
      have : o = o2 := Option.some.inj ho2
      subst this
      rw [hflag]
      exact FlagVar.get_set1_self _ _

theorem parseArgsLoop_flag_mono (f : FlagVar) (fuel : Nat) (s : ParseState)
    (h : f.get s.g = true) : f.get (parseArgsLoop fuel s).g = true := by
  induction fuel generalizing s with
  | zero => exact h
  | succ fuel ih =>
    rw [parseArgsLoop_succ]
    split_ifs
    · exact ih _ ((parseArgsStep_flag s f).1 h)
    · exact h

/-- The flag of an option matched during the scan is set when the scan ends. -/
theorem parseArgsLoop_flag (f : FlagVar) (fuel : Nat) (s s1 : ParseState) (o : LauncherOption)
    (hvisit : s1 ∈ parseArgsVisits fuel s) (hm : matchedOption s1 = some o)
    (hflag : o.flag = some f) : f.get (parseArgsLoop fuel s).g = true := by
  induction fuel generalizing s with
  | zero => simp [parseArgsVisits] at hvisit
  | succ fuel ih =>
    rw [parseArgsVisits_succ] at hvisit
    rw [parseArgsLoop_succ]
    by_cases hlt : s.index < s.argc
    · rw [if_pos hlt] at hvisit ⊢
      rcases List.mem_cons.1 hvisit with h1 | h1
      · subst h1
        exact parseArgsLoop_flag_mono f fuel _ ((parseArgsStep_flag s1 f).2 o hm hflag)
      · exact ih _ h1
    · rw [if_neg hlt] at hvisit
      simp at hvisit

/-- A visited state holds a list, and the scan continues from it. -/
theorem parseArgsVisits_reach (fuel : Nat) (s0 s : ParseState) (ts0 : List Str)
    (h0 : s0.Holds ts0) (hvisit : s ∈ parseArgsVisits fuel s0) :
    ∃ (tsS : List Str) (fuel1 : Nat), s.Holds tsS ∧ s.index < s.argc ∧
      parseArgsLoop fuel s0 = parseArgsLoop fuel1 (parseArgsStep s) ∧
      ∀ x ∈ parseArgsVisits fuel1 (parseArgsStep s), x ∈ parseArgsVisits fuel s0 := by
  induction fuel generalizing s0 ts0 with
  | zero => simp [parseArgsVisits] at hvisit
  | succ fuel ih =>
    rw [parseArgsVisits_succ] at hvisit
    by_cases hlt : s0.index < s0.argc
    · rw [if_pos hlt] at hvisit
      rcases List.mem_cons.1 hvisit with h1 | h1
      · subst h1
        refine ⟨ts0, fuel, h0, hlt, ?_, ?_⟩
        · rw [parseArgsLoop_succ, if_pos hlt]
        · intro x hx
          rw [parseArgsVisits_succ, if_pos hlt]
          exact List.mem_cons_of_mem _ hx
      · obtain ⟨tsS, fuel1, hS, hSlt, heq, hsub⟩ :=
          ih (parseArgsStep s0) _ (parseArgsStep_holds h0 hlt) h1
        refine ⟨tsS, fuel1, hS, hSlt, ?_, ?_⟩
        · rw [parseArgsLoop_succ, if_pos hlt, heq]
        · intro x hx
          rw [parseArgsVisits_succ, if_pos hlt]
          exact List.mem_cons_of_mem _ (hsub x hx)
    · rw [if_neg hlt] at hvisit
      simp at hvisit

end Eclipse

namespace Eclipse

/-! ## No token that `parseArgs` has passed over matches an option it removes -/

theorem scanStart_scanned (ts : List Str) (g : Globals) : (scanStart ts g).Scanned ts := by
  refine ⟨scanStart_holds ts g, ?_⟩
  intro j hj1 hj2
  simp only [scanStart] at hj2
  omega

theorem parseArgsStep_scanned {s : ParseState} {ts : List Str} (h : s.Scanned ts)
    (hlt : s.index < s.argc) : (parseArgsStep s).Scanned (argsAfterStep ts s.index) := by
  obtain ⟨hh, hpast⟩ := h
  refine ⟨parseArgsStep_holds hh hlt, ?_⟩
  have hidx : 1 ≤ s.index := hh.2.2.2
  have hrd : rd s.argv s.index = ts[s.index.toNat]? := holds_rd hh s.index (by omega) hlt
  intro j hj1 hj2 o2 ho2
  rw [parseArgsStep_index] at hj2
  unfold matchedOption at hj2
  unfold argsAfterStep at ho2
  rw [hrd] at hj2
  cases hf : findOption (ts[s.index.toNat]?) with
  | none =>
    rw [hf] at hj2 ho2
    simp only [] at hj2 ho2
    have hj3 : (j : Int) < s.index + 1 := hj2
    by_cases hjk : (j : Int) < s.index
    · exact hpast j hj1 hjk o2 ho2
    · have : j = s.index.toNat := by omega
      rw [this, hf] at ho2
      exact absurd ho2 (by simp)
  | some o =>
    rw [hf] at hj2 ho2
    simp only [] at hj2 ho2
    by_cases hrem : 0 < o.remove
    · rw [if_pos hrem] at hj2 ho2
      have hjk : j < s.index.toNat := by omega
      have hslot : (removeAt ts s.index.toNat o.remove.toNat)[j]? = ts[j]? ∨
          (removeAt ts s.index.toNat o.remove.toNat)[j]? = none := by
        by_cases hfit : s.index.toNat + o.remove.toNat ≤ ts.length
        · left
          rw [removeAt_getElem? ts _ _ hfit, if_pos hjk]
        · unfold removeAt
          rw [if_neg hfit, List.getElem?_take]
          split_ifs
          · left; rfl
          · right; rfl
      rcases hslot with h1 | h1
      · rw [h1] at ho2
        exact hpast j hj1 hj2 o2 ho2
      · rw [h1] at ho2
        exact absurd ho2 (by simp [findOption])
    · rw [if_neg hrem] at hj2 ho2
      have hj3 : (j : Int) < s.index + 1 := hj2
      by_cases hjk : (j : Int) < s.index
      · exact hpast j hj1 hjk o2 ho2
      · have : j = s.index.toNat := by omega
        rw [this, hf] at ho2
        have ho : o = o2 := Option.some.inj ho2
        rw [← ho]
        rcases options_remove (findOption_mem hf) with h0 | h0 | h0 <;> omega

theorem parseArgsLoop_scanned (fuel : Nat) (s : ParseState) (ts : List Str) (h : s.Scanned ts) :
    ∃ ts1, (parseArgsLoop fuel s).Scanned ts1 := by
  induction fuel generalizing s ts with
  | zero => exact ⟨ts, h⟩
  | succ fuel ih =>
    rw [parseArgsLoop_succ]
    by_cases hlt : s.index < s.argc
    · rw [if_pos hlt]
      exact ih _ _ (parseArgsStep_scanned h hlt)
    · rw [if_neg hlt]
      exact ⟨ts, h⟩

/-- After `parseArgs`, the entries `argv[1 .. argc-1]` are tokens, none of which matches an
option of the table with a removal count above 0. -/
theorem parseArgs_userArgs (ts : List Str) (g : Globals) :
    ∃ user : List Str,
      userArgs (parseArgs ts.length (sentinel ts) g).argc
          (parseArgs ts.length (sentinel ts) g).argv = user.map some ∧
      ∀ t ∈ user, ∀ o, findOption (some t) = some o → o.remove = 0 := by
  have hexit := parseArgs_exits ts.length (sentinel ts) g
  rw [parseArgs_eq_scan] at hexit ⊢
  obtain ⟨ts1, hh, hpast⟩ := parseArgsLoop_scanned ts.length _ ts (scanStart_scanned ts g)
  generalize parseArgsLoop ts.length (scanStart ts g) = p at hexit hh hpast
  obtain ⟨htake, hlen, hslot, hidx⟩ := hh
  refine ⟨ts1.drop 1, ?_, ?_⟩
  · rw [userArgs_eq _ _ (by omega), htake, List.map_drop]
  · intro t ht o ho
    obtain ⟨i, hi⟩ := List.mem_iff_getElem?.1 ht
    rw [List.getElem?_drop] at hi
    have hlt : 1 + i < ts1.length := by
      by_contra hge
      rw [List.getElem?_eq_none (by omega)] at hi
      exact absurd hi (by simp)
    apply hpast (1 + i) (by omega) (by omega) o
    rw [hi]
    exact ho

end Eclipse

namespace Eclipse

/-! ## `-nosplash` and the program arguments -/

/-- C19 as stated fails on `eclipse -nosplash -os -showsplash`: `-nosplash` is matched, then
`-os` is matched and binds `-showsplash` as its value, and the program arguments `run` has
`getVMCommand` build start with `-os -showsplash`, ahead of the `-vm` trailer. -/
theorem getVMCommand_nosplash_counterexample :
    (parseArgsVisits 4 (scanStart ["/opt/eclipse/eclipse".toList, "-nosplash".toList,
        "-os".toList, "-showsplash".toList] sampleInitialGlobals)).map
          (fun s => (matchedOption s).map (fun o => o.name))
      = [some NOSPLASH, some OS] ∧
    ((runSetup samplePlatform 4 (sentinel ["/opt/eclipse/eclipse".toList, "-nosplash".toList,
        "-os".toList, "-showsplash".toList]) none sampleInitialGlobals).bind
          SetupResult.state).map (fun s => (s.g.noSplash, s.progCommandArgs))
      = some (true, sentinel ["-os".toList, "-showsplash".toList, "-ws".toList, "gtk".toList,
          "-arch".toList, "x86".toList, "-launcher".toList, "/opt/eclipse/eclipse".toList,
          "-name".toList, "Eclipse".toList, "-startup".toList, "startup.jar".toList,
          "-exitdata".toList, "7b4".toList, "-vm".toList, "/usr/bin/java".toList,
          "-vmargs".toList, "-Xms40m".toList, "-jar".toList, "startup.jar".toList]) := by
  refine ⟨by decide, ?_⟩
  decide

/-- C19 (amended): when `-nosplash` is matched as an option by `parseArgs`, `noSplash` is set
and the program arguments `getVMCommand` builds from the stripped list, with `noSplash`
unchanged since, hold ahead of the `-vm` trailer only the flags `-os`, `-ws`, `-arch`,
`-launcher`, `-name`, `-library`, `-startup`, `-exitdata`, each with the value configured for
it, and the user arguments left by `parseArgs`: the value-less `-showsplash` flag is not
emitted, and no user argument matches `-showsplash`. -/
theorem getVMCommand_nosplash (ts : List Str) (g g1 : Globals) (d : List Str)
    (hmatch : ∃ s ∈ parseArgsVisits ts.length (scanStart ts g),
      ∃ o, matchedOption s = some o ∧ o.name = NOSPLASH)
    (hflag : g1.noSplash = (parseArgs ts.length (sentinel ts) g).g.noSplash) :
    (parseArgs ts.length (sentinel ts) g).g.noSplash = true ∧
    ∃ user : List Str,
      userArgs (parseArgs ts.length (sentinel ts) g).argc
          (parseArgs ts.length (sentinel ts) g).argv = user.map some ∧
      (∀ t ∈ user, tcsicmpEq t SHOWSPLASH = false) ∧
      (getVMCommand (parseArgs ts.length (sentinel ts) g).argc
          (parseArgs ts.length (sentinel ts) g).argv g1 d).2 =
        [some OS, g1.osArg, some WS, g1.wsArg]
          ++ (if nonEmpty g1.osArchArg then [some OSARCH, g1.osArchArg] else [])
          ++ [some LAUNCHER, g1.program]
          ++ [some NAME, g1.officialName]
          ++ (if g1.library ≠ none then [some LIBRARY, g1.library] else [])
          ++ [some STARTUP, g1.jarFile]
          ++ (if g1.sharedID ≠ none then [some EXITDATA, g1.sharedID] else [])
          ++ user.map some
          ++ [some VM, if g1.jniLib ≠ none then g1.jniLib else g1.javaVM, some VMARGS]
          ++ (vmArgBase g1 d).map some
          ++ reqVMargs g1
          ++ [none] := by
  have hns : (parseArgs ts.length (sentinel ts) g).g.noSplash = true := by
    obtain ⟨s, hs, o, hm, hname⟩ := hmatch
    have hmem : o ∈ options := findOption_mem hm
    have hfl : o.flag = some FlagVar.noSplash := by
      simp only [options, List.mem_cons, List.mem_singleton, List.not_mem_nil, or_false] at hmem
      rcases hmem with rfl | rfl | rfl | rfl | rfl | rfl | rfl | rfl | rfl | rfl | rfl | rfl <;>
        first
          | rfl
          | exact absurd hname (by decide)
    rw [parseArgs_eq_scan]
    exact parseArgsLoop_flag FlagVar.noSplash _ _ s o hs hm hfl
  refine ⟨hns, ?_⟩
  obtain ⟨user, huser, hnone⟩ := parseArgs_userArgs ts g
  refine ⟨user, huser, ?_, ?_⟩
  · intro t ht
    cases hc : tcsicmpEq t SHOWSPLASH with
    | false => rfl
    | true =>
      have hfo := findOption_eq t ⟨SHOWSPLASH, some ValueVar.showSplashArg, none, 2⟩
        (by simp [options]) hc
      have := hnone t ht _ hfo
      exact absurd this (by decide)
  · show getVMCommand_progArgv _ _ g1 d = _
    unfold getVMCommand_progArgv
    rw [huser]
    simp [hflag, hns]

/-- C19 (amended) on `eclipse -NoSplash -showsplash 600 -data /w`: the user arguments left
are `-data /w`, and the program arguments hold no `-showsplash`. -/
theorem getVMCommand_nosplash_witness :
    (getVMCommand
        (parseArgs 6 (sentinel ["/opt/eclipse/eclipse".toList, "-NoSplash".toList,
          "-showsplash".toList, "600".toList, "-data".toList, "/w".toList])
          sampleInitialGlobals).argc
        (parseArgs 6 (sentinel ["/opt/eclipse/eclipse".toList, "-NoSplash".toList,
          "-showsplash".toList, "600".toList, "-data".toList, "/w".toList])
          sampleInitialGlobals).argv
        { sampleGlobals with noSplash := true } ["-Xms40m".toList]).2
      = sentinel ["-os".toList, "linux".toList, "-ws".toList, "gtk".toList, "-arch".toList,
          "x86".toList, "-launcher".toList, "/opt/eclipse/eclipse".toList, "-name".toList,
          "Eclipse".toList, "-startup".toList, "/opt/eclipse/startup.jar".toList,
          "-exitdata".toList, "7b4".toList, "-data".toList, "/w".toList,
          "-vm".toList, "/usr/bin/java".toList, "-vmargs".toList, "-Xms40m".toList,
          "-jar".toList, "/opt/eclipse/startup.jar".toList] ∧
    ∀ t ∈ ["-data".toList, "/w".toList], tcsicmpEq t SHOWSPLASH = false := by
  obtain ⟨_, user, huser, hnone, _⟩ := getVMCommand_nosplash
    ["/opt/eclipse/eclipse".toList, "-NoSplash".toList, "-showsplash".toList, "600".toList,
      "-data".toList, "/w".toList] sampleInitialGlobals { sampleGlobals with noSplash := true }
    ["-Xms40m".toList]
    ⟨_, by
      show scanStart ["/opt/eclipse/eclipse".toList, "-NoSplash".toList, "-showsplash".toList,
        "600".toList, "-data".toList, "/w".toList] sampleInitialGlobals ∈ _
      decide, ⟨NOSPLASH, none, some FlagVar.noSplash, 1⟩, by decide, by decide⟩
    (by decide)
  have hu : user = ["-data".toList, "/w".toList] := by
    have h2 : userArgs
        (parseArgs 6 (sentinel ["/opt/eclipse/eclipse".toList, "-NoSplash".toList,
          "-showsplash".toList, "600".toList, "-data".toList, "/w".toList])
          sampleInitialGlobals).argc
        (parseArgs 6 (sentinel ["/opt/eclipse/eclipse".toList, "-NoSplash".toList,
          "-showsplash".toList, "600".toList, "-data".toList, "/w".toList])
          sampleInitialGlobals).argv
        = ["-data".toList, "/w".toList].map some := by decide
    have h3 : user.map some = ["-data".toList, "/w".toList].map some := by
      rw [← h2]
      exact huser.symm
    exact List.map_injective_iff.2 (Option.some_injective _) h3
  rw [← hu]
  exact ⟨by rw [hu]; decide, hnone⟩

end Eclipse

namespace Eclipse

/-! ## The flag options stay in the argument list -/

/-- The list held after a pass that matches no option, or an option that removes nothing. -/
theorem argsAfterStep_of_keep {s : ParseState} {ts : List Str} (h : s.Holds ts)
    (hlt : s.index < s.argc) (hkeep : ∀ o, matchedOption s = some o → o.remove = 0) :
    argsAfterStep ts s.index = ts := by
  have hrd : rd s.argv s.index = ts[s.index.toNat]? :=
    holds_rd h s.index (by have := h.2.2.2; omega) hlt
  unfold argsAfterStep
  unfold matchedOption at hkeep
  rw [← hrd]
  cases hf : findOption (rd s.argv s.index) with
  | none => rfl
  | some o =>
    simp only []
    rw [if_neg (by have := hkeep o hf; omega)]

/-- While no pass lowers the count without moving tokens, the scan leaves the tokens below
the index where they are. -/
theorem parseArgsLoop_keeps_scanned (n fuel : Nat) (s : ParseState) (ts : List Str)
    (h : s.Holds ts) (hn : (n : Int) ≤ s.index) (hle : s.index ≤ s.argc)
    (hshort : ∀ x ∈ parseArgsVisits fuel s, shortMatch x = false) :
    ∃ ts1, (parseArgsLoop fuel s).Holds ts1 ∧ ts1.take n = ts.take n ∧ n ≤ ts1.length := by
  induction fuel generalizing s ts with
  | zero =>
    refine ⟨ts, h, rfl, ?_⟩
    have := h.2.1
    omega
  | succ fuel ih =>
    rw [parseArgsLoop_succ]
    by_cases hlt : s.index < s.argc
    · rw [if_pos hlt]
      rw [parseArgsVisits_succ, if_pos hlt] at hshort
      have hs0 : shortMatch s = false := hshort s (List.mem_cons_self _ _)
      have hidx : 1 ≤ s.index := h.2.2.2
      have hlen : (ts.length : Int) = s.argc := h.2.1
      have hrd : rd s.argv s.index = ts[s.index.toNat]? := holds_rd h s.index (by omega) hlt
      have hstep := parseArgsStep_holds h hlt
      have hi := parseArgsStep_index s
      have ha := parseArgsStep_argc s
      have hlist : (argsAfterStep ts s.index).take n = ts.take n ∧
          (n : Int) ≤ (parseArgsStep s).index ∧
          (parseArgsStep s).index ≤ (parseArgsStep s).argc := by
        unfold shortMatch at hs0
        unfold argsAfterStep
        rw [← hrd]
        unfold matchedOption at hi ha hs0
        cases hf : findOption (rd s.argv s.index) with
        | none =>
          rw [hf] at hi ha
          have hi2 : (parseArgsStep s).index = s.index + 1 := hi
          have ha2 : (parseArgsStep s).argc = s.argc := ha
          exact ⟨rfl, by omega, by omega⟩
        | some o =>
          rw [hf] at hi ha hs0
          have hfit : ¬ s.argc < s.index + o.remove := by simpa using hs0
          by_cases hrem : 0 < o.remove
          · have hi2 : (parseArgsStep s).index = s.index := by
              rw [hi]
              exact if_pos hrem
            have ha2 : (parseArgsStep s).argc = s.argc - o.remove := by
              rw [ha]
              exact if_pos hrem
            simp only [if_pos hrem]
            refine ⟨?_, by omega, by omega⟩
            unfold removeAt
            rw [if_pos (by omega), List.take_append_of_le_length (by
              rw [List.length_take]; omega), List.take_take, Nat.min_eq_left (by omega)]
          · have hi2 : (parseArgsStep s).index = s.index + 1 := by
              rw [hi]
              exact if_neg hrem
            have ha2 : (parseArgsStep s).argc = s.argc := by
              rw [ha]
              exact if_neg hrem
            simp only [if_neg hrem]
            exact ⟨trivial, by omega, by omega⟩
      obtain ⟨ts1, h1, h2, h3⟩ := ih (parseArgsStep s) _ hstep hlist.2.1 hlist.2.2
        (fun x hx => hshort x (List.mem_cons_of_mem _ hx))
      exact ⟨ts1, h1, by rw [h2, hlist.1], h3⟩
    · rw [if_neg hlt]
      refine ⟨ts, h, rfl, ?_⟩
      have := h.2.1
      omega

end Eclipse

namespace Eclipse

/-- C20 as stated fails on `eclipse -vm -debug`: `-debug` is taken as the value of `-vm`; it
does not set `debug`, and it is removed from the list together with `-vm`. -/
theorem parseArgs_flag_option_counterexample :
    (parseArgs 3 (sentinel ["eclipse".toList, "-vm".toList, "-debug".toList])
        sampleInitialGlobals).g.debug = false ∧
    (parseArgs 3 (sentinel ["eclipse".toList, "-vm".toList, "-debug".toList])
        sampleInitialGlobals).g.vmName = some "-debug".toList ∧
    (parseArgs 3 (sentinel ["eclipse".toList, "-vm".toList, "-debug".toList])
        sampleInitialGlobals).args = [some "eclipse".toList] := by
  decide

/-- C20 (amended): a token equal in any letter case to `-console`, `-consoleLog` or `-debug`
that the scan of `parseArgs` examines (it is not taken as the value of the option before it)
sets its flag, `debug` for `-debug` and `needConsole` for the other two, and the pass that
matches it moves on by one token and leaves the count and the array as they are.  In a scan
in which no option is matched on a token with fewer tokens behind it than the option removes,
the list `parseArgs` returns holds the token at the same position, behind the same tokens. -/
theorem parseArgs_keeps_flag_option (ts : List Str) (g : Globals) (s : ParseState) (tok : Str)
    (hvisit : s ∈ parseArgsVisits ts.length (scanStart ts g))
    (htok : rd s.argv s.index = some tok)
    (hname : tcsicmpEq tok CONSOLE = true ∨ tcsicmpEq tok CONSOLELOG = true ∨
      tcsicmpEq tok DEBUG = true) :
    (tcsicmpEq tok DEBUG = true → (parseArgs ts.length (sentinel ts) g).g.debug = true) ∧
    (tcsicmpEq tok CONSOLE = true ∨ tcsicmpEq tok CONSOLELOG = true →
      (parseArgs ts.length (sentinel ts) g).g.needConsole = true) ∧
    (parseArgsStep s).index = s.index + 1 ∧
    (parseArgsStep s).argc = s.argc ∧
    (parseArgsStep s).argv = s.argv ∧
    ((∀ x ∈ parseArgsVisits ts.length (scanStart ts g), shortMatch x = false) →
      (parseArgs ts.length (sentinel ts) g).args.take (s.index.toNat + 1) =
        s.args.take (s.index.toNat + 1) ∧
      (parseArgs ts.length (sentinel ts) g).args[s.index.toNat]? = some (some tok)) := by
  obtain ⟨tsS, fuel1, hS, hlt, hloop, hsub⟩ :=
    parseArgsVisits_reach ts.length (scanStart ts g) s ts (scanStart_holds ts g) hvisit
  have hidx : 1 ≤ s.index := hS.2.2.2
  -- the table entry the token matches
  have hopt : ∃ o, matchedOption s = some o ∧ o.remove = 0 ∧
      (tcsicmpEq tok DEBUG = true → o.flag = some FlagVar.debug) ∧
      (tcsicmpEq tok CONSOLE = true ∨ tcsicmpEq tok CONSOLELOG = true →
        o.flag = some FlagVar.needConsole) := by
    unfold matchedOption
    rw [htok]
    rcases hname with h1 | h1 | h1
    · refine ⟨⟨CONSOLE, none, some FlagVar.needConsole, 0⟩,
        findOption_eq tok _ (by simp [options]) h1, rfl, ?_, fun _ => rfl⟩
      intro h2
      have := (findOption_eq tok ⟨DEBUG, none, some FlagVar.debug, 0⟩ (by simp [options]) h2).symm.trans
        (findOption_eq tok ⟨CONSOLE, none, some FlagVar.needConsole, 0⟩ (by simp [options]) h1)
      exact absurd this (by decide)
    · refine ⟨⟨CONSOLELOG, none, some FlagVar.needConsole, 0⟩,
        findOption_eq tok _ (by simp [options]) h1, rfl, ?_, fun _ => rfl⟩
      intro h2
      have := (findOption_eq tok ⟨DEBUG, none, some FlagVar.debug, 0⟩ (by simp [options]) h2).symm.trans
        (findOption_eq tok ⟨CONSOLELOG, none, some FlagVar.needConsole, 0⟩ (by simp [options]) h1)
      exact absurd this (by decide)
    · refine ⟨⟨DEBUG, none, some FlagVar.debug, 0⟩,
        findOption_eq tok _ (by simp [options]) h1, rfl, fun _ => rfl, ?_⟩
      rintro (h2 | h2)
      · have := (findOption_eq tok ⟨DEBUG, none, some FlagVar.debug, 0⟩ (by simp [options]) h1).symm.trans
          (findOption_eq tok ⟨CONSOLE, none, some FlagVar.needConsole, 0⟩ (by simp [options]) h2)
        exact absurd this (by decide)
      · have := (findOption_eq tok ⟨DEBUG, none, some FlagVar.debug, 0⟩ (by simp [options]) h1).symm.trans
          (findOption_eq tok ⟨CONSOLELOG, none, some FlagVar.needConsole, 0⟩ (by simp [options]) h2)
        exact absurd this (by decide)
  obtain ⟨o, hm, hrem, hdebug, hconsole⟩ := hopt
  have hkeep : ∀ o2, matchedOption s = some o2 → o2.remove = 0 := by
    intro o2 h2
    rw [hm] at h2
    rw [← Option.some.inj h2]
    exact hrem
  have hi : (parseArgsStep s).index = s.index + 1 := by
    rw [parseArgsStep_index, hm]
    exact if_neg (by omega)
  have ha : (parseArgsStep s).argc = s.argc := by
    rw [parseArgsStep_argc, hm]
    exact if_neg (by omega)
  refine ⟨?_, ?_, hi, ha, parseArgsStep_argv_of_keep s hkeep, ?_⟩
  · intro h
    rw [parseArgs_eq_scan]
    exact parseArgsLoop_flag FlagVar.debug _ _ s o hvisit hm (hdebug h)
  · intro h
    rw [parseArgs_eq_scan]
    exact parseArgsLoop_flag FlagVar.needConsole _ _ s o hvisit hm (hconsole h)
  · intro hshort
    rw [parseArgs_eq_scan, hloop]
    have hstep := parseArgsStep_holds hS hlt
    rw [argsAfterStep_of_keep hS hlt hkeep] at hstep
    obtain ⟨ts1, h1, h2, h3⟩ := parseArgsLoop_keeps_scanned (s.index.toNat + 1) fuel1
      (parseArgsStep s) tsS hstep (by rw [hi]; omega) (by rw [hi, ha]; omega)
      (fun x hx => hshort x (hsub x hx))
    have hargs : (parseArgsLoop fuel1 (parseArgsStep s)).args.take (s.index.toNat + 1) =
        s.args.take (s.index.toNat + 1) := by
      unfold ParseState.args
      rw [h1.1, hS.1, ← List.map_take, ← List.map_take, h2]
    refine ⟨hargs, ?_⟩
    have hget := congrArg (fun l => l[s.index.toNat]?) hargs
    simp only [List.getElem?_take, if_pos (Nat.lt_succ_self _)] at hget
    rw [hget]
    unfold ParseState.args
    rw [hS.1, List.getElem?_map]
    have hrd : rd s.argv s.index = tsS[s.index.toNat]? := holds_rd hS s.index (by omega) hlt
    rw [← hrd, htok]
    rfl

/-- C20 (amended) on `eclipse -vm java -DEBUG -data /w -consolelog`: `-DEBUG` is examined at
position 1 once `-vm java` is removed, `debug` is set, and the returned list is
`eclipse -DEBUG -data /w -consolelog`. -/
theorem parseArgs_keeps_flag_option_witness :
    (parseArgs 7 (sentinel ["eclipse".toList, "-vm".toList, "java".toList, "-DEBUG".toList,
        "-data".toList, "/w".toList, "-consolelog".toList]) sampleInitialGlobals).g.debug
      = true ∧
    (parseArgs 7 (sentinel ["eclipse".toList, "-vm".toList, "java".toList, "-DEBUG".toList,
        "-data".toList, "/w".toList, "-consolelog".toList]) sampleInitialGlobals).args
      = [some "eclipse".toList, some "-DEBUG".toList, some "-data".toList, some "/w".toList,
          some "-consolelog".toList] ∧
    (parseArgs 7 (sentinel ["eclipse".toList, "-vm".toList, "java".toList, "-DEBUG".toList,
        "-data".toList, "/w".toList, "-consolelog".toList]) sampleInitialGlobals).args[1]?
      = some (some "-DEBUG".toList) := by
  have h := parseArgs_keeps_flag_option ["eclipse".toList, "-vm".toList, "java".toList,
    "-DEBUG".toList, "-data".toList, "/w".toList, "-consolelog".toList] sampleInitialGlobals
    (parseArgsStep (scanStart ["eclipse".toList, "-vm".toList, "java".toList,
      "-DEBUG".toList, "-data".toList, "/w".toList, "-consolelog".toList] sampleInitialGlobals))
    "-DEBUG".toList (by decide) (by decide) (by decide)
  exact ⟨h.1 (by decide), by decide, (h.2.2.2.2.2 (by decide)).2⟩

end Eclipse

namespace Eclipse

/-! ## `buildLaunchCommand` -/

/-- C21: for every runtime path and every sentinel-terminated VM argument and program
argument array (whatever lies behind their sentinels), `buildLaunchCommand` returns the
sentinel-terminated list made of the runtime path, the VM arguments in order and the program
arguments in order; it holds `1 + nVM + nProg` tokens before its sentinel. -/
theorem buildLaunchCommand_sentinel (program : Str) (vm prog : List Str)
    (rest1 rest2 : List (Option Str)) :
    buildLaunchCommand (some program) (vm.map some ++ none :: rest1)
        (prog.map some ++ none :: rest2) = sentinel (program :: (vm ++ prog)) ∧
    (tokens (buildLaunchCommand (some program) (vm.map some ++ none :: rest1)
        (prog.map some ++ none :: rest2))).length = 1 + vm.length + prog.length ∧
    (buildLaunchCommand (some program) (vm.map some ++ none :: rest1)
        (prog.map some ++ none :: rest2)).length = vm.length + prog.length + 2 := by
  have h : buildLaunchCommand (some program) (vm.map some ++ none :: rest1)
      (prog.map some ++ none :: rest2) = sentinel (program :: (vm ++ prog)) := by
    unfold buildLaunchCommand
    rw [tokens_sentinel_append, tokens_sentinel_append]
    simp [sentinel]
  refine ⟨h, ?_, ?_⟩
  · rw [h, tokens_sentinel]
    simp
    omega
  · rw [h, sentinel_length]
    simp

end Eclipse

namespace Eclipse

/-! ## The count after `parseArgs` -/

/-- A pass of `parseArgs` lowers the count by the removal count of the option it matches. -/
theorem parseArgsStep_removed (s : ParseState) :
    (parseArgsStep s).argc = s.argc - removedCount s := by
  rw [parseArgsStep_argc]
  unfold removedCount
  cases hm : matchedOption s with
  | none => simp
  | some o =>
    simp only []
    have hmem : o ∈ options := findOption_mem hm
    rcases options_remove hmem with h | h | h <;> rw [h] <;> simp

theorem parseArgsLoop_removed (fuel : Nat) (s : ParseState) :
    (parseArgsLoop fuel s).argc = s.argc - ((parseArgsVisits fuel s).map removedCount).sum := by
  induction fuel generalizing s with
  | zero => simp [parseArgsLoop, parseArgsVisits]
  | succ fuel ih =>
    rw [parseArgsLoop_succ, parseArgsVisits_succ]
    by_cases hlt : s.index < s.argc
    · rw [if_pos hlt, if_pos hlt, ih, parseArgsStep_removed, List.map_cons, List.sum_cons]
      omega
    · rw [if_neg hlt, if_neg hlt]
      simp

/-- The list held when the scan of `parseArgs` over the tokens `ts` ends. -/
theorem parseArgs_holds (ts : List Str) (g : Globals) :
    ∃ ts1, (parseArgs ts.length (sentinel ts) g).Holds ts1 := by
  rw [parseArgs_eq_scan]
  obtain ⟨ts1, h, _⟩ := parseArgsLoop_scanned ts.length _ ts (scanStart_scanned ts g)
  exact ⟨ts1, h⟩

/-- C22: the count after `parseArgs` is the count before minus the sum, over the passes of
the scan, of the removal count of the option the pass matches (0 for a pass that matches
none); every pass lowers the count by exactly that number, which is 0 for `-console`,
`-consoleLog` and `-debug`, 1 for `-nosplash` and 2 for every other entry of the table; and
the list returned for the tokens `ts` is shorter than `ts` by that sum. -/
theorem parseArgs_count (ts : List Str) (g : Globals) :
    (parseArgs ts.length (sentinel ts) g).argc =
      ts.length - ((parseArgsVisits ts.length (scanStart ts g)).map removedCount).sum ∧
    (((parseArgs ts.length (sentinel ts) g).args.length : Nat) : Int) =
      ts.length - ((parseArgsVisits ts.length (scanStart ts g)).map removedCount).sum ∧
    (∀ s : ParseState, (parseArgsStep s).argc = s.argc - removedCount s) ∧
    (∀ o ∈ options, o.remove =
      if o.name = CONSOLE ∨ o.name = CONSOLELOG ∨ o.name = DEBUG then 0
      else if o.name = NOSPLASH then 1 else 2) := by
  have hcount : (parseArgs ts.length (sentinel ts) g).argc =
      ts.length - ((parseArgsVisits ts.length (scanStart ts g)).map removedCount).sum := by
    rw [parseArgs_eq_scan, parseArgsLoop_removed]
    rfl
  refine ⟨hcount, ?_, parseArgsStep_removed, by decide⟩
  obtain ⟨ts1, htake, hlen, _, _⟩ := parseArgs_holds ts g
  unfold ParseState.args
  rw [htake, List.length_map, hlen, hcount]

end Eclipse

namespace Eclipse

/-! ## Failure without exit data, and the restart with the same command -/

/-- The pass for an exit code other than 0, 23 and 24 with exit data that is absent or
empty. -/
theorem stepEq_failure_without_data (s : RunState) (r : VMResult)
    (h0 : r.exitCode ≠ 0) (h23 : r.exitCode ≠ RESTART_LAST_EC) (h24 : r.exitCode ≠ RESTART_NEW_EC)
    (hdata : r.exitData = none ∨ r.exitData = some []) :
    runStep r s = some { s with
      g := { s.g with exitData := r.exitData }
      running := false
      events := s.events
        ++ (if s.g.debug then
              [Event.print (formatVmCommandMsg s.vmCommand s.vmCommandArgs s.progCommandArgs)]
            else [])
        ++ [launchEvent s]
        ++ (if r.exitData = none ∧ s.g.debug = true then
              [Event.displayMessage s.g.officialName (some shareMsg)]
            else [])
        ++ [Event.displayMessage s.g.officialName
              (some (exitMessage r.exitCode
                (formatVmCommandMsg s.vmCommand s.vmCommandArgs s.progCommandArgs)))] } := by
  rcases hdata with hd | hd <;> cases hj : s.jniLaunching <;> cases hdb : s.g.debug <;>
    simp [runStep, launchVM, handleExit, h0, h23, h24, hd, hj, hdb]

/-- C23: for every exit code other than 0, 23 and 24, in either launch mode, when the exit
data is absent or empty the pass shows, with the application name as title, the generic
message `JVM terminated. Exit code=<code>`, a line break and the text `formatVmCommandMsg`
rendered for this pass; it is the last message of the pass, preceded only, when the exit data
is absent and `debug` is set, by the note that no exit data is available.  The pass launches
the VM once, leaves the command and the relaunch command as they are and ends the loop. -/
theorem runStep_failure_without_data (s : RunState) (r : VMResult)
    (h0 : r.exitCode ≠ 0) (h23 : r.exitCode ≠ RESTART_LAST_EC) (h24 : r.exitCode ≠ RESTART_NEW_EC)
    (hdata : r.exitData = none ∨ r.exitData = some []) :
    ∃ s1, runStep r s = some s1 ∧
      s1.running = false ∧
      s1.relaunchCommand = s.relaunchCommand ∧
      s1.vmCommand = s.vmCommand ∧
      launches s1.events = launches s.events ++ [launchEvent s] ∧
      displays s1.events = displays s.events
        ++ (if r.exitData = none ∧ s.g.debug = true then
              [Event.displayMessage s.g.officialName (some shareMsg)]
            else [])
        ++ [Event.displayMessage s.g.officialName
              (some ("JVM terminated. Exit code=".toList ++ decimal r.exitCode ++ ['\n'] ++
                formatVmCommandMsg s.vmCommand s.vmCommandArgs s.progCommandArgs))] ∧
      ∀ results, runLoop results s1 = some s1 := by
  have hstep := stepEq_failure_without_data s r h0 h23 h24 hdata
  have hlaunch := runStep_launches r s _ hstep
  refine ⟨_, hstep, rfl, rfl, rfl, hlaunch, ?_, ?_⟩
  · rcases hdata with hd | hd <;> cases hdb : s.g.debug <;>
      simp only [hd, hdb, displays_append, displays_launchEvent, displays_nil, displays_print,
        displays_displayMessage, Bool.false_eq_true, if_true, if_false, List.append_nil,
        and_self, and_false, false_and, reduceCtorEq, exitMessage, exitMsgHead]
  · intro results
    cases results with
    | nil => rfl
    | cons r2 rest => rfl

/-- C23 on exit code 13 without exit data, in a launch in a separate process without
`debug`: one message, titled `Eclipse`, and the loop ends. -/
theorem runStep_failure_without_data_witness :
    ∃ s1, runStep ⟨13, none⟩ sampleRun = some s1 ∧
      s1.running = false ∧
      s1.relaunchCommand = none ∧
      displays s1.events =
        [Event.displayMessage (some "Eclipse".toList)
          (some "JVM terminated. Exit code=13\n/usr/bin/java\n-jar s.jar\n-os linux ".toList)] := by
  obtain ⟨s1, h1, h2, h3, _, _, h6, _⟩ := runStep_failure_without_data sampleRun ⟨13, none⟩
    (by decide) (by decide) (by decide) (Or.inl rfl)
  refine ⟨s1, h1, h2, by rw [h3]; rfl, ?_⟩
  rw [h6]
  decide

/-- The pass for exit code 23 in a launch in a separate process. -/
theorem stepEq_restart_last_external (s : RunState) (r : VMResult)
    (hcode : r.exitCode = RESTART_LAST_EC) (hj : s.jniLaunching = false) :
    runStep r s = some { s with
      events := s.events
        ++ (if s.g.debug then
              [Event.print (formatVmCommandMsg s.vmCommand s.vmCommandArgs s.progCommandArgs)]
            else [])
        ++ [launchEvent s] } := by
  have h0 : ¬ RESTART_LAST_EC = 0 := by decide
  cases hd : s.g.debug <;>
    simp [runStep, launchVM, handleExit, hcode, h0, hj, hd]

/-- C24: in a launch in a separate process, exit code 23 leaves the command, the globals and
the loop state as they are and shows no message; the loop goes on, and its next pass
launches the VM with the same command again. -/
theorem runStep_restart_last_external (s : RunState) (r : VMResult)
    (hcode : r.exitCode = RESTART_LAST_EC) (hj : s.jniLaunching = false) :
    ∃ s1, runStep r s = some s1 ∧
      s1.vmCommand = s.vmCommand ∧ s1.g = s.g ∧ s1.running = s.running ∧
      s1.jniLaunching = false ∧ s1.relaunchCommand = s.relaunchCommand ∧
      displays s1.events = displays s.events ∧
      launches s1.events = launches s.events ++ [Event.launchJavaVM s.vmCommand] ∧
      (∀ results, s.running = true → runLoop (r :: results) s = runLoop results s1) ∧
      ∀ r2 s2, runStep r2 s1 = some s2 →
        launches s2.events = launches s.events ++
          [Event.launchJavaVM s.vmCommand, Event.launchJavaVM s.vmCommand] := by
  have hstep := stepEq_restart_last_external s r hcode hj
  have hev : launchEvent s = Event.launchJavaVM s.vmCommand := by
    simp [launchEvent, hj]
  have hlaunch := runStep_launches r s _ hstep
  refine ⟨_, hstep, rfl, rfl, rfl, hj, rfl, ?_, hlaunch.trans (by rw [hev]), ?_, ?_⟩
  · cases hd : s.g.debug <;>
      simp only [displays_append, displays_launchEvent, displays_nil, displays_print,
        Bool.false_eq_true, if_true, if_false, List.append_nil]
  · intro results hrun
    rw [runLoop_cons r results s hrun, hstep]
  · intro r2 s2 h2
    rw [runStep_launches r2 _ s2 h2, hlaunch, hev]
    simp [launchEvent, hj]

/-- C24 on the sample launch in a separate process: after exit code 23 and then exit code 0
the same command has been launched twice. -/
theorem runStep_restart_last_external_witness :
    (runLoop [⟨23, none⟩, ⟨0, none⟩] sampleRun).map (fun s => launches s.events)
      = some [Event.launchJavaVM sampleRun.vmCommand, Event.launchJavaVM sampleRun.vmCommand] ∧
    ∃ s1, runStep ⟨23, none⟩ sampleRun = some s1 ∧ s1.vmCommand = sampleRun.vmCommand ∧
      s1.running = true := by
  obtain ⟨s1, h1, h2, _, h4, _⟩ := runStep_restart_last_external sampleRun ⟨23, none⟩ rfl rfl
  exact ⟨by decide, s1, h1, h2, by rw [h4]; rfl⟩

end Eclipse

namespace Eclipse

/-! ## `parseArgList` undoes the joining with line-feeds -/

theorem tcschr_of_not_mem (c : Char) (a rest : Str) (h : c ∉ a) :
    tcschr c (a ++ c :: rest) = some a.length := by
  induction a with
  | nil => simp [tcschr]
  | cons d a ih =>
    have hd : d ≠ c := fun e => h (by simp [e])
    have ha : c ∉ a := fun e => h (List.mem_cons_of_mem _ e)
    show tcschr c (d :: (a ++ c :: rest)) = _
    unfold tcschr
    rw [if_neg hd, ih ha]
    rfl

theorem tcschr_eq_none (c : Char) (a : Str) (h : c ∉ a) : tcschr c a = none := by
  induction a with
  | nil => rfl
  | cons d a ih =>
    have hd : d ≠ c := fun e => h (by simp [e])
    have ha : c ∉ a := fun e => h (List.mem_cons_of_mem _ e)
    unfold tcschr
    rw [if_neg hd, ih ha]
    rfl

/-- The joining by single line-feeds is the library's `intercalate` with a line-feed. -/
theorem joinLines_eq_intercalate (args : List Str) :
    joinLines args = List.intercalate ['\n'] args := by
  have key : ∀ n (l : List Str), l.length ≤ n → joinLines l = List.intercalate ['\n'] l := by
    intro n
    induction n with
    | zero =>
      intro l hl
      have : l = [] := List.length_eq_zero.1 (by omega)
      subst this
      rfl
    | succ n ih =>
      intro l hl
      match l with
      | [] => rfl
      | [a] => simp [joinLines, List.intercalate]
      | a :: b :: rest =>
        have h2 := ih (b :: rest) (by simp at hl ⊢; omega)
        simp only [joinLines, h2]
        simp [List.intercalate]
  exact key args.length args (Nat.le_refl _)

/-- The filling loop of `parseArgList` on joined arguments, with enough fuel. -/
theorem parseArgListLoop_joinLines (args : List Str) (fuel : Nat)
    (hlf : ∀ a ∈ args, '\n' ∉ a) (hlast : ∀ l, args.getLast? = some l → l ≠ [])
    (hfuel : (joinLines args).length < fuel) :
    parseArgListLoop fuel (joinLines args) = args := by
  induction args generalizing fuel with
  | nil =>
    cases fuel with
    | zero => omega
    | succ fuel => simp [joinLines, parseArgListLoop, tcschr]
  | cons a rest ih =>
    cases fuel with
    | zero => omega
    | succ fuel =>
      cases rest with
      | nil =>
        have ha : a ≠ [] := hlast a (by simp)
        have hno : '\n' ∉ a := hlf a (by simp)
        simp only [joinLines]
        unfold parseArgListLoop
        rw [tcschr_eq_none _ _ hno]
        simp [ha]
      | cons b rest =>
        have hno : '\n' ∉ a := hlf a (by simp)
        simp only [joinLines] at hfuel ⊢
        unfold parseArgListLoop
        rw [tcschr_of_not_mem _ _ _ hno]
        simp only [List.take_left, List.drop_left']
        have hdrop : (a ++ '\n' :: joinLines (b :: rest)).drop (a.length + 1) =
            joinLines (b :: rest) := by
          have : a ++ '\n' :: joinLines (b :: rest) = (a ++ ['\n']) ++ joinLines (b :: rest) := by
            simp
          rw [this]
          exact List.drop_left' (by simp)
        rw [hdrop, ih fuel (fun x hx => hlf x (List.mem_cons_of_mem _ hx))
          (fun l hl => hlast l (by rw [List.getLast?_cons_cons]; exact hl))
          (by simp only [List.length_append, List.length_cons] at hfuel; omega)]

/-- C26: for every list of arguments in which no argument holds a line-feed and the last
argument, if any, is not empty, `parseArgList` applied to the arguments joined by single
line-feeds returns exactly that list, closed by the sentinel. -/
theorem parseArgList_joinLines (args : List Str)
    (hlf : ∀ a ∈ args, '\n' ∉ a) (hlast : ∀ l, args.getLast? = some l → l ≠ []) :
    parseArgList (joinLines args) = sentinel args ∧
    parseArgList (List.intercalate ['\n'] args) = sentinel args := by
  have h : parseArgList (joinLines args) = sentinel args := by
    unfold parseArgList parseArgListTokens
    rw [parseArgListLoop_joinLines args _ hlf hlast (Nat.lt_succ_self _)]
  exact ⟨h, by rw [← joinLines_eq_intercalate]; exact h⟩

/-- C26 on the arguments `-data`, ``, `/tmp/x`, `-debug`, the second of which is empty. -/
theorem parseArgList_joinLines_witness :
    joinLines ["-data".toList, [], "/tmp/x".toList, "-debug".toList]
      = "-data\n\n/tmp/x\n-debug".toList ∧
    parseArgList "-data\n\n/tmp/x\n-debug".toList
      = sentinel ["-data".toList, [], "/tmp/x".toList, "-debug".toList] := by
  have h := (parseArgList_joinLines ["-data".toList, [], "/tmp/x".toList, "-debug".toList]
    (by decide) (by decide)).1
  have hj : joinLines ["-data".toList, [], "/tmp/x".toList, "-debug".toList]
      = "-data\n\n/tmp/x\n-debug".toList := by decide
  rw [hj] at h
  exact ⟨hj, h⟩

end Eclipse

namespace Eclipse

/-! ## The scan of `parseArgs` ends -/

/-- A pass of `parseArgs` either moves the index on by one and leaves the count and the array
as they are, or keeps the index and lowers the count. -/
theorem parseArgsStep_progress (s : ParseState) :
    ((parseArgsStep s).index = s.index + 1 ∧ (parseArgsStep s).argc = s.argc ∧
        (parseArgsStep s).argv = s.argv ∧ removedCount s = 0) ∨
    ((parseArgsStep s).index = s.index ∧ (parseArgsStep s).argc < s.argc ∧
        (parseArgsStep s).argc = s.argc - removedCount s ∧
        (removedCount s = 1 ∨ removedCount s = 2)) := by
  have hi := parseArgsStep_index s
  have ha := parseArgsStep_removed s
  unfold removedCount at ha ⊢
  cases hm : matchedOption s with
  | none =>
    left
    rw [hm] at hi ha
    exact ⟨hi, by simpa using ha,
      parseArgsStep_argv_of_keep s (fun o ho => by rw [hm] at ho; simp at ho), rfl⟩
  | some o =>
    rw [hm] at hi ha
    have hmem : o ∈ options := findOption_mem hm
    rcases options_remove hmem with h | h | h
    · left
      have hi2 : (parseArgsStep s).index = s.index + 1 := by
        rw [hi]; exact if_neg (by omega)
      have ha2 : (parseArgsStep s).argc = s.argc - o.remove := ha
      refine ⟨hi2, by omega, parseArgsStep_argv_of_keep s (fun o2 ho2 => ?_), h⟩
      rw [hm] at ho2
      rw [← Option.some.inj ho2]
      exact h
    · right
      have hi2 : (parseArgsStep s).index = s.index := by
        rw [hi]; exact if_pos (by omega)
      have ha2 : (parseArgsStep s).argc = s.argc - o.remove := ha
      exact ⟨hi2, by omega, ha2, Or.inl h⟩
    · right
      have hi2 : (parseArgsStep s).index = s.index := by
        rw [hi]; exact if_pos (by omega)
      have ha2 : (parseArgsStep s).argc = s.argc - o.remove := ha
      exact ⟨hi2, by omega, ha2, Or.inr h⟩

/-- The index of a visited state is below the count and not below the index the scan started
from. -/
theorem parseArgsVisits_index (fuel : Nat) (s0 s : ParseState)
    (h : s ∈ parseArgsVisits fuel s0) : s0.index ≤ s.index ∧ s.index < s.argc := by
  induction fuel generalizing s0 with
  | zero => simp [parseArgsVisits] at h
  | succ fuel ih =>
    rw [parseArgsVisits_succ] at h
    by_cases hlt : s0.index < s0.argc
    · rw [if_pos hlt] at h
      rcases List.mem_cons.1 h with h1 | h1
      · subst h1
        exact ⟨le_refl _, hlt⟩
      · obtain ⟨h2, h3⟩ := ih _ h1
        refine ⟨?_, h3⟩
        rcases parseArgsStep_progress s0 with hp | hp <;> omega
    · rw [if_neg hlt] at h
      simp at h

theorem parseArgsLoop_nonneg (fuel : Nat) (s : ParseState) (hidx : 1 ≤ s.index)
    (hargc : 0 ≤ s.argc) : 0 ≤ (parseArgsLoop fuel s).argc := by
  induction fuel generalizing s with
  | zero => exact hargc
  | succ fuel ih =>
    rw [parseArgsLoop_succ]
    by_cases hlt : s.index < s.argc
    · rw [if_pos hlt]
      rcases parseArgsStep_progress s with hp | hp
      · exact ih _ (by omega) (by omega)
      · exact ih _ (by omega) (by rcases hp.2.2.2 with h | h <;> omega)
    · rw [if_neg hlt]
      exact hargc

/-- C29: the scan of `parseArgs` ends within `argc` passes, the difference between the count
and the index getting smaller with every pass: a pass either moves the index on by one
without removing anything, or keeps the index and lowers the count by the 1 or 2 entries it
removes.  The count is not negative after any pass of the scan, nor when the scan ends. -/
theorem parseArgs_terminates (argc : Int) (argv : List (Option Str)) (g : Globals) :
    ¬ ((parseArgs argc argv g).index < (parseArgs argc argv g).argc) ∧
    (∀ s : ParseState,
      (parseArgsStep s).argc - (parseArgsStep s).index < s.argc - s.index) ∧
    (∀ s : ParseState,
      ((parseArgsStep s).index = s.index + 1 ∧ (parseArgsStep s).argc = s.argc ∧
          (parseArgsStep s).argv = s.argv ∧ removedCount s = 0) ∨
      ((parseArgsStep s).index = s.index ∧ (parseArgsStep s).argc < s.argc ∧
          (parseArgsStep s).argc = s.argc - removedCount s ∧
          (removedCount s = 1 ∨ removedCount s = 2))) ∧
    (∀ s ∈ parseArgsVisits argc.toNat { index := 1, argc := argc, argv := argv, g := g },
      0 ≤ (parseArgsStep s).argc) ∧
    (0 ≤ argc → 0 ≤ (parseArgs argc argv g).argc) := by
  refine ⟨parseArgs_exits argc argv g, parseArgsStep_measure, parseArgsStep_progress, ?_, ?_⟩
  · intro s hs
    obtain ⟨h1, h2⟩ := parseArgsVisits_index _ _ s hs
    have h3 : (1 : Int) ≤ s.index := h1
    rcases parseArgsStep_progress s with hp | hp
    · omega
    · rcases hp.2.2.2 with h | h <;> omega
  · intro h0
    exact parseArgsLoop_nonneg _ _ (le_refl _) h0

/-- C29 on `eclipse -nosplash -vm java -data /w`: the scan makes four passes and ends with
the count 3. -/
theorem parseArgs_terminates_witness :
    (parseArgsVisits 6 (scanStart ["eclipse".toList, "-nosplash".toList, "-vm".toList,
        "java".toList, "-data".toList, "/w".toList] sampleInitialGlobals)).map
          (fun s => (s.index, s.argc)) = [(1, 6), (1, 5), (1, 3), (2, 3)] ∧
    (parseArgs 6 (sentinel ["eclipse".toList, "-nosplash".toList, "-vm".toList,
        "java".toList, "-data".toList, "/w".toList]) sampleInitialGlobals).argc = 3 ∧
    0 ≤ (parseArgs 6 (sentinel ["eclipse".toList, "-nosplash".toList, "-vm".toList,
        "java".toList, "-data".toList, "/w".toList]) sampleInitialGlobals).argc := by
  refine ⟨by decide, by decide, ?_⟩
  exact (parseArgs_terminates 6 (sentinel ["eclipse".toList, "-nosplash".toList,
    "-vm".toList, "java".toList, "-data".toList, "/w".toList]) sampleInitialGlobals).2.2.2.2
    (by decide)

end Eclipse

namespace Eclipse

/-! ## A second run of `parseArgs` changes nothing -/

theorem FlagVar.set1_of_get (g : Globals) (f : FlagVar) (h : f.get g = true) :
    f.set1 g = g := by
  cases f <;> cases g <;> simp_all [FlagVar.get, FlagVar.set1]

/-- The options of the table that remove nothing store no value. -/
theorem options_keep_value {o : LauncherOption} (h : o ∈ options) (hrem : o.remove = 0) :
    o.value = none := by
  simp only [options, List.mem_cons, List.mem_singleton, List.not_mem_nil, or_false] at h
  rcases h with rfl | rfl | rfl | rfl | rfl | rfl | rfl | rfl | rfl | rfl | rfl | rfl <;>
    first
      | rfl
      | exact absurd hrem (by decide)

/-- A pass on a token that matches no option, or an option that removes nothing and whose
flag is set already, only moves the index on. -/
theorem parseArgsStep_of_settled (q : ParseState)
    (h : ∀ o, matchedOption q = some o →
      o.remove = 0 ∧ ∀ f, o.flag = some f → f.get q.g = true) :
    parseArgsStep q = { q with index := q.index + 1 } := by
  unfold matchedOption at h
  unfold parseArgsStep
  cases hf : findOption (rd q.argv q.index) with
  | none => rfl
  | some o =>
    obtain ⟨hrem, hflag⟩ := h o hf
    have hval : o.value = none := options_keep_value (findOption_mem hf) hrem
    simp only [hval, hrem]
    cases hfl : o.flag with
    | none => simp
    | some f => simp [FlagVar.set1_of_get q.g f (hflag f hfl)]

/-- The entry at a position below the index after a pass: it is an entry that was below the
index before, or nothing, or the entry the pass examined and kept. -/
theorem argsAfterStep_slot {s : ParseState} {ts : List Str} (h : s.Holds ts)
    (hlt : s.index < s.argc) (j : Nat) (hj : (j : Int) < (parseArgsStep s).index) :
    ((j : Int) < s.index ∧
      ((argsAfterStep ts s.index)[j]? = ts[j]? ∨ (argsAfterStep ts s.index)[j]? = none)) ∨
    (j = s.index.toNat ∧ (argsAfterStep ts s.index)[j]? = ts[j]? ∧
      matchedOption s = findOption (ts[j]?) ∧
      ∀ o, matchedOption s = some o → o.remove = 0) := by
  have hidx : 1 ≤ s.index := h.2.2.2
  have hrd : rd s.argv s.index = ts[s.index.toNat]? := holds_rd h s.index (by omega) hlt
  have hm : matchedOption s = findOption (ts[s.index.toNat]?) := by
    unfold matchedOption
    rw [hrd]
  rcases parseArgsStep_progress s with hp | hp
  · have hkeep : ∀ o, matchedOption s = some o → o.remove = 0 := by
      intro o ho
      have := hp.2.2.2
      unfold removedCount at this
      rw [ho] at this
      exact this
    rw [argsAfterStep_of_keep h hlt hkeep]
    by_cases hjk : (j : Int) < s.index
    · exact Or.inl ⟨hjk, Or.inl rfl⟩
    · have hje : j = s.index.toNat := by omega
      right
      refine ⟨hje, rfl, ?_, hkeep⟩
      rw [hje]
      exact hm
  · have hjk : (j : Int) < s.index := by omega
    refine Or.inl ⟨hjk, ?_⟩
    unfold argsAfterStep
    rw [← hm]
    cases hmo : matchedOption s with
    | none => exact Or.inl rfl
    | some o =>
      simp only []
      by_cases hrem : 0 < o.remove
      · rw [if_pos hrem]
        by_cases hfit : s.index.toNat + o.remove.toNat ≤ ts.length
        · left
          rw [removeAt_getElem? ts _ _ hfit, if_pos (by omega)]
        · unfold removeAt
          rw [if_neg hfit, List.getElem?_take]
          split_ifs
          · left; rfl
          · right; rfl
      · rw [if_neg hrem]
        exact Or.inl rfl

/-- The flags of the options matched by the tokens the scan has passed over are set. -/
theorem parseArgsLoop_flags_set (fuel : Nat) (s : ParseState) (ts : List Str) (h : s.Holds ts)
    (hset : ∀ j : Nat, 1 ≤ j → (j : Int) < s.index →
      ∀ o f, findOption (ts[j]?) = some o → o.flag = some f → f.get s.g = true) :
    ∃ ts1, (parseArgsLoop fuel s).Holds ts1 ∧
      ∀ j : Nat, 1 ≤ j → (j : Int) < (parseArgsLoop fuel s).index →
        ∀ o f, findOption (ts1[j]?) = some o → o.flag = some f →
          f.get (parseArgsLoop fuel s).g = true := by
  induction fuel generalizing s ts with
  | zero => exact ⟨ts, h, hset⟩
  | succ fuel ih =>
    rw [parseArgsLoop_succ]
    by_cases hlt : s.index < s.argc
    · rw [if_pos hlt]
      apply ih _ _ (parseArgsStep_holds h hlt)
      intro j hj1 hj2 o f ho hf
      rcases argsAfterStep_slot h hlt j hj2 with ⟨hjk, hslot | hslot⟩ | ⟨hje, hslot, hm, _⟩
      · rw [hslot] at ho
        exact (parseArgsStep_flag s f).1 (hset j hj1 hjk o f ho hf)
      · rw [hslot] at ho
        exact absurd ho (by simp [findOption])
      · rw [hslot, ← hm] at ho
        exact (parseArgsStep_flag s f).2 o ho hf
    · rw [if_neg hlt]
      exact ⟨ts, h, hset⟩

/-- A scan over a list in which every token from position 1 on matches no option, or an
option that removes nothing and whose flag is set, leaves the count, the array and the
globals as they are. -/
theorem parseArgsLoop_of_settled (fuel : Nat) (q : ParseState) (ts : List Str)
    (h : q.Holds ts)
    (hsettled : ∀ j : Nat, 1 ≤ j → j < ts.length → ∀ o, findOption (ts[j]?) = some o →
      o.remove = 0 ∧ ∀ f, o.flag = some f → f.get q.g = true) :
    (parseArgsLoop fuel q).argc = q.argc ∧ (parseArgsLoop fuel q).argv = q.argv ∧
      (parseArgsLoop fuel q).g = q.g := by
  induction fuel generalizing q with
  | zero => exact ⟨rfl, rfl, rfl⟩
  | succ fuel ih =>
    rw [parseArgsLoop_succ]
    by_cases hlt : q.index < q.argc
    · rw [if_pos hlt]
      have hidx : 1 ≤ q.index := h.2.2.2
      have hlen : (ts.length : Int) = q.argc := h.2.1
      have hrd : rd q.argv q.index = ts[q.index.toNat]? := holds_rd h q.index (by omega) hlt
      have hstep : parseArgsStep q = { q with index := q.index + 1 } := by
        apply parseArgsStep_of_settled
        intro o ho
        unfold matchedOption at ho
        rw [hrd] at ho
        exact hsettled q.index.toNat (by omega) (by omega) o ho
      rw [hstep]
      have hq : ParseState.Holds { q with index := q.index + 1 } ts :=
        ⟨h.1, h.2.1, h.2.2.1, by show 1 ≤ q.index + 1; omega⟩
      exact ih _ hq hsettled
    · rw [if_neg hlt]
      exact ⟨rfl, rfl, rfl⟩

/-- C28: after `parseArgs`, no token left at position 1 or later matches, ignoring case, an
option of the table with a removal count above 0; a second run of `parseArgs` over the
result removes nothing: it leaves the count, the array (hence the returned list) and the
globals, with every bound option value and every flag, as the first run left them. -/
theorem parseArgs_idempotent (ts : List Str) (g : Globals) :
    (∃ user : List Str,
      userArgs (parseArgs ts.length (sentinel ts) g).argc
          (parseArgs ts.length (sentinel ts) g).argv = user.map some ∧
      ∀ t ∈ user, ∀ o, findOption (some t) = some o → o.remove = 0) ∧
    (parseArgs (parseArgs ts.length (sentinel ts) g).argc
        (parseArgs ts.length (sentinel ts) g).argv
        (parseArgs ts.length (sentinel ts) g).g).argc =
      (parseArgs ts.length (sentinel ts) g).argc ∧
    (parseArgs (parseArgs ts.length (sentinel ts) g).argc
        (parseArgs ts.length (sentinel ts) g).argv
        (parseArgs ts.length (sentinel ts) g).g).argv =
      (parseArgs ts.length (sentinel ts) g).argv ∧
    (parseArgs (parseArgs ts.length (sentinel ts) g).argc
        (parseArgs ts.length (sentinel ts) g).argv
        (parseArgs ts.length (sentinel ts) g).g).g =
      (parseArgs ts.length (sentinel ts) g).g ∧
    (parseArgs (parseArgs ts.length (sentinel ts) g).argc
        (parseArgs ts.length (sentinel ts) g).argv
        (parseArgs ts.length (sentinel ts) g).g).args =
      (parseArgs ts.length (sentinel ts) g).args ∧
    (∀ v : ValueVar,
      v.get (parseArgs (parseArgs ts.length (sentinel ts) g).argc
        (parseArgs ts.length (sentinel ts) g).argv
        (parseArgs ts.length (sentinel ts) g).g).g =
      v.get (parseArgs ts.length (sentinel ts) g).g) := by
  refine ⟨parseArgs_userArgs ts g, ?_⟩
  have hexit := parseArgs_exits ts.length (sentinel ts) g
  have hscan : ∃ ts1, (parseArgs ts.length (sentinel ts) g).Scanned ts1 := by
    rw [parseArgs_eq_scan]
    exact parseArgsLoop_scanned ts.length _ ts (scanStart_scanned ts g)
  have hflags : ∃ ts2, (parseArgs ts.length (sentinel ts) g).Holds ts2 ∧
      ∀ j : Nat, 1 ≤ j → (j : Int) < (parseArgs ts.length (sentinel ts) g).index →
        ∀ o f, findOption (ts2[j]?) = some o → o.flag = some f →
          f.get (parseArgs ts.length (sentinel ts) g).g = true := by
    rw [parseArgs_eq_scan]
    apply parseArgsLoop_flags_set ts.length _ ts (scanStart_holds ts g)
    intro j hj1 hj2
    simp only [scanStart] at hj2
    omega
  generalize parseArgs ts.length (sentinel ts) g = p at hexit hscan hflags ⊢
  obtain ⟨ts1, hh, hpast⟩ := hscan
  obtain ⟨ts2, hh2, hset⟩ := hflags
  have hsame : ts2 = ts1 := by
    have h1 := hh.1
    rw [hh2.1] at h1
    exact List.map_injective_iff.2 (Option.some_injective _) h1
  subst hsame
  have hlen : (ts2.length : Int) = p.argc := hh.2.1
  have hq : ParseState.Holds { index := 1, argc := p.argc, argv := p.argv, g := p.g } ts2 :=
    ⟨hh.1, hh.2.1, hh.2.2.1, le_refl _⟩
  obtain ⟨h1, h2, h3⟩ := parseArgsLoop_of_settled p.argc.toNat _ ts2 hq (by
    intro j hj1 hj2 o ho
    exact ⟨hpast j hj1 (by omega) o ho, fun f hf => hset j hj1 (by omega) o f ho hf⟩)
  have ha : (parseArgs p.argc p.argv p.g).argc = p.argc := h1
  have hv : (parseArgs p.argc p.argv p.g).argv = p.argv := h2
  have hg : (parseArgs p.argc p.argv p.g).g = p.g := h3
  refine ⟨ha, hv, hg, ?_, fun v => by rw [hg]⟩
  unfold ParseState.args
  rw [ha, hv]

/-- C28 on `eclipse -vm java -debug -data /w -nosplash`: the first run leaves
`eclipse -debug -data /w`, and so does the second. -/
theorem parseArgs_idempotent_witness :
    (parseArgs 7 (sentinel ["eclipse".toList, "-vm".toList, "java".toList, "-debug".toList,
        "-data".toList, "/w".toList, "-nosplash".toList]) sampleInitialGlobals).args
      = [some "eclipse".toList, some "-debug".toList, some "-data".toList, some "/w".toList] ∧
    (parseArgs
        (parseArgs 7 (sentinel ["eclipse".toList, "-vm".toList, "java".toList,
          "-debug".toList, "-data".toList, "/w".toList, "-nosplash".toList])
          sampleInitialGlobals).argc
        (parseArgs 7 (sentinel ["eclipse".toList, "-vm".toList, "java".toList,
          "-debug".toList, "-data".toList, "/w".toList, "-nosplash".toList])
          sampleInitialGlobals).argv
        (parseArgs 7 (sentinel ["eclipse".toList, "-vm".toList, "java".toList,
          "-debug".toList, "-data".toList, "/w".toList, "-nosplash".toList])
          sampleInitialGlobals).g).args
      = [some "eclipse".toList, some "-debug".toList, some "-data".toList, some "/w".toList] := by
  have h := (parseArgs_idempotent ["eclipse".toList, "-vm".toList, "java".toList,
    "-debug".toList, "-data".toList, "/w".toList, "-nosplash".toList]
    sampleInitialGlobals).2.2.2.2.1
  have h1 : (parseArgs 7 (sentinel ["eclipse".toList, "-vm".toList, "java".toList,
      "-debug".toList, "-data".toList, "/w".toList, "-nosplash".toList])
      sampleInitialGlobals).args
      = [some "eclipse".toList, some "-debug".toList, some "-data".toList, some "/w".toList] := by
    decide
  exact ⟨h1, h.trans h1⟩

end Eclipse

namespace Eclipse

/-! ## Where the copy loop of `getRelaunchCommand` starts -/

theorem firstMatch_lt (m : Str) (l : List Str) (k : Nat) (h : firstMatch m l = some k) :
    k < l.length := by
  induction l generalizing k with
  | nil => simp [firstMatch] at h
  | cons t rest ih =>
    unfold firstMatch at h
    by_cases ht : tcsicmpEq t m = true
    · rw [if_pos ht] at h
      have : k = 0 := by simpa using h.symm
      simp [this]
    · rw [if_neg ht] at h
      cases hr : firstMatch m rest with
      | none => rw [hr] at h; simp at h
      | some k2 =>
        rw [hr] at h
        have : k = k2 + 1 := by simpa using h.symm
        have := ih k2 hr
        simp only [List.length_cons]
        omega

/-- Once `begin` is set, the first loop runs on to the sentinel and leaves it as it is. -/
theorem findBegin_done (reqs : List (Option Str)) (cmd : List Str) (fuel j req : Nat)
    (begin : Int) (hb : begin ≠ -1) (hj : j ≤ cmd.length) (hfuel : cmd.length - j < fuel) :
    findBegin reqs (sentinel cmd) fuel ((j : Int) - 1) req begin
      = some ((cmd.length : Int), begin) := by
  induction fuel generalizing j with
  | zero => omega
  | succ n ih =>
    unfold findBegin
    have hidx : (j : Int) - 1 + 1 = (j : Int) := by omega
    rw [hidx, rdChecked_sentinel cmd j hj]
    by_cases hlt : j < cmd.length
    · rw [List.getElem?_eq_getElem hlt]
      have hnext : (j : Int) = ((j + 1 : Nat) : Int) - 1 := by push_cast; omega
      simp only [hb, false_and, if_false]
      rw [hnext]
      exact ih (j + 1) (by omega) (by omega)
    · have hj2 : j = cmd.length := by omega
      rw [List.getElem?_eq_none (by omega)]
      simp [hj2]

theorem findBegin_succ (reqs vmCommand : List (Option Str)) (fuel : Nat) (i : Int) (req : Nat)
    (begin : Int) :
    findBegin reqs vmCommand (fuel + 1) i req begin =
      match rdChecked vmCommand (i + 1) with
      | none => none
      | some none => some (i + 1, begin)
      | some (some arg) =>
        if begin = -1 ∧ (reqs.getD req none).any (fun r => tcsicmpEq arg r) then
          if reqs.length ≤ req + 1 ∨ reqs.getD (req + 1) none = none then
            findBegin reqs vmCommand fuel (i + 1) (req + 1) (i + 1 + 1)
          else
            findBegin reqs vmCommand fuel (i + 1) (req + 1) begin
        else
          findBegin reqs vmCommand fuel (i + 1) req begin := rfl

/-- While `begin` is not set, the first loop looks for the next token that equals the
marker `reqVMarg[req]` ignoring case; there it sets `begin` when that was the last marker,
and goes on with the next marker otherwise. -/
theorem findBegin_search (reqs : List (Option Str)) (cmd : List Str) (m : Str) (r : Nat)
    (hm : reqs.getD r none = some m) (fuel j : Nat) (hj : j ≤ cmd.length)
    (hfuel : cmd.length - j < fuel) :
    findBegin reqs (sentinel cmd) fuel ((j : Int) - 1) r (-1) =
      match firstMatch m (cmd.drop j) with
      | none => some ((cmd.length : Int), -1)
      | some k =>
        if reqs.length ≤ r + 1 ∨ reqs.getD (r + 1) none = none then
          some ((cmd.length : Int), ((j + k + 1 : Nat) : Int))
        else
          findBegin reqs (sentinel cmd) (fuel - (k + 1)) (((j + k + 1 : Nat) : Int) - 1)
            (r + 1) (-1) := by
  induction fuel generalizing j with
  | zero => omega
  | succ n ih =>
    rw [findBegin_succ]
    have hidx : (j : Int) - 1 + 1 = (j : Int) := by omega
    rw [hidx, rdChecked_sentinel cmd j hj]
    by_cases hlt : j < cmd.length
    · rw [List.getElem?_eq_getElem hlt]
      have hdrop : cmd.drop j = cmd[j] :: cmd.drop (j + 1) := List.drop_eq_getElem_cons hlt
      have hnext : ((j + 1 : Nat) : Int) - 1 = (j : Int) := by push_cast; omega
      rw [hdrop]
      unfold firstMatch
      simp only [hm, true_and, Option.any_some]
      by_cases hmatch : tcsicmpEq cmd[j] m = true
      · rw [if_pos hmatch, if_pos hmatch]
        have e0 : n + 1 - (0 + 1) = n := by omega
        have e1 : ((j + 0 + 1 : Nat) : Int) = (j : Int) + 1 := by push_cast; omega
        simp only [e0, e1]
        by_cases hK : reqs.length ≤ r + 1 ∨ reqs.getD (r + 1) none = none
        · rw [if_pos hK, if_pos hK]
          have hd := findBegin_done reqs cmd n (j + 1) (r + 1) ((j : Int) + 1) (by omega)
            (by omega) (by omega)
          rw [hnext] at hd
          exact hd
        · rw [if_neg hK, if_neg hK]
          congr 1
          omega
      · rw [if_neg hmatch, if_neg hmatch]
        have hrec := ih (j + 1) (by omega) (by omega)
        rw [hnext] at hrec
        rw [hrec]
        cases hfm : firstMatch m (cmd.drop (j + 1)) with
        | none => rfl
        | some k =>
          simp only [Option.map_some']
          have e1 : j + 1 + k + 1 = j + (k + 1) + 1 := by omega
          have e2 : n - (k + 1) = n + 1 - (k + 1 + 1) := by omega
          rw [e1, e2]
    · have hj2 : j = cmd.length := by omega
      rw [List.getElem?_eq_none (by omega)]
      have hdrop : cmd.drop j = [] := List.drop_eq_nil_of_le (by omega)
      rw [hdrop]
      simp [firstMatch, hj2]

end Eclipse

namespace Eclipse

/-- The value of `begin` with the single marker `cp` (`cpValue` is NULL): the position after
the first token that equals `cp` ignoring case, 1 when there is none. -/
theorem relaunchBegin_single (g : Globals) (cmd : List Str) (c : Str) (hcp : g.cp = some c)
    (hval : g.cpValue = none) :
    relaunchBegin g (sentinel cmd) =
      some (((match firstMatch c cmd with
              | some k => k + 1
              | none => 1 : Nat)) : Int) := by
  unfold relaunchBegin
  have h := findBegin_search (reqVMarg g) cmd c 0 (by simp [reqVMarg, hcp])
    ((sentinel cmd).length + 1) 0 (by omega) (by rw [sentinel_length]; omega)
  have h0 : ((0 : Nat) : Int) - 1 = -1 := by simp
  rw [h0, List.drop_zero] at h
  rw [h]
  cases hfm : firstMatch c cmd with
  | none => simp
  | some k =>
    have hK : (reqVMarg g).length ≤ 0 + 1 ∨ (reqVMarg g).getD (0 + 1) none = none := by
      right
      simp [reqVMarg, hval]
    simp only [if_pos hK]
    have hne : ¬ (((0 + k + 1 : Nat) : Int) = -1) := by omega
    simp only [if_neg hne]
    congr 2
    omega

/-- The value of `begin` with the two markers `cp`, `cpValue`: the position after the first
token that equals `cpValue` ignoring case among those behind the first token that equals `cp`
ignoring case; 1 when there is no such token. -/
theorem relaunchBegin_pair (g : Globals) (cmd : List Str) (c v : Str) (hcp : g.cp = some c)
    (hval : g.cpValue = some v) :
    relaunchBegin g (sentinel cmd) =
      some (((match firstMatch c cmd with
              | none => 1
              | some k =>
                match firstMatch v (cmd.drop (k + 1)) with
                | none => 1
                | some k2 => k + 1 + k2 + 1 : Nat)) : Int) := by
  unfold relaunchBegin
  have h := findBegin_search (reqVMarg g) cmd c 0 (by simp [reqVMarg, hcp])
    ((sentinel cmd).length + 1) 0 (by omega) (by rw [sentinel_length]; omega)
  have h0 : ((0 : Nat) : Int) - 1 = -1 := by simp
  rw [h0, List.drop_zero] at h
  rw [h]
  cases hfm : firstMatch c cmd with
  | none => simp
  | some k =>
    have hk : k < cmd.length := firstMatch_lt c cmd k hfm
    have hK : ¬ ((reqVMarg g).length ≤ 0 + 1 ∨ (reqVMarg g).getD (0 + 1) none = none) := by
      simp [reqVMarg, hval]
    simp only [if_neg hK]
    have h2 := findBegin_search (reqVMarg g) cmd v 1 (by simp [reqVMarg, hval])
      ((sentinel cmd).length + 1 - (k + 1)) (k + 1) (by omega)
      (by rw [sentinel_length]; omega)
    have e : 0 + k + 1 = k + 1 := by omega
    rw [e, h2]
    cases hfm2 : firstMatch v (cmd.drop (k + 1)) with
    | none => simp
    | some k2 =>
      have hK2 : (reqVMarg g).length ≤ 1 + 1 ∨ (reqVMarg g).getD (1 + 1) none = none := by
        left
        simp [reqVMarg]
      simp only [if_pos hK2]
      have hne : ¬ (((k + 1 + k2 + 1 : Nat) : Int) = -1) := by omega
      simp only [if_neg hne]

/-- With a single marker, the position of the claim is the position after the first token
that equals the marker ignoring case, 1 when there is none. -/
theorem contiguousAnchor_single (c : Str) (cmd : List Str) :
    contiguousAnchor [c] cmd =
      match firstMatch c cmd with
      | some k => k + 1
      | none => 1 := by
  have key : ∀ l : List Str,
      (List.range l.length).find? (fun i => startsWithMarkers [c] (l.drop i)) =
        firstMatch c l := by
    intro l
    induction l with
    | nil => rfl
    | cons t rest ih =>
      rw [List.length_cons, List.range_succ_eq_map, List.find?_cons]
      unfold firstMatch
      have h0 : startsWithMarkers [c] ((t :: rest).drop 0) = tcsicmpEq t c := by
        simp [startsWithMarkers]
      rw [h0]
      by_cases ht : tcsicmpEq t c = true
      · simp [ht]
      · have ht2 : tcsicmpEq t c = false := by simpa using ht
        rw [ht2, List.find?_map]
        simp only [Bool.false_eq_true, if_false]
        have hfun : ((fun i => startsWithMarkers [c] ((t :: rest).drop i)) ∘ Nat.succ) =
            (fun i => startsWithMarkers [c] (rest.drop i)) := by
          funext i
          simp
        rw [hfun, ih]
  unfold contiguousAnchor
  rw [key]
  cases firstMatch c cmd <;> rfl

/-- C25: with the marker `run` has configured when it calls `getRelaunchCommand` (a JNI
launch: `cp` is set and `cpValue` is NULL, so the marker sequence is the single token `cp`),
the copy loop starts at the anchor, the position directly after the first place where the
marker occurs in the command, compared ignoring case, and position 1 when it never occurs.
The tokens copied all lie at or after the anchor: the result is `program`, then what the copy
loop keeps of the tokens from the anchor on, then the sentinel; everything before the anchor
is dropped.  The result exists for every command with at least one token. -/
theorem getRelaunchCommand_anchor (g : Globals) (cmd : List Str) (c : Str)
    (hcp : g.cp = some c) (hval : g.cpValue = none) :
    relaunchBegin g (sentinel cmd) = some ((contiguousAnchor [c] cmd : Nat) : Int) ∧
    (contiguousAnchor [c] cmd =
      match firstMatch c cmd with
      | some k => k + 1
      | none => 1) ∧
    (∀ r, getRelaunchCommand g (sentinel cmd) = some r →
      r = g.program ::
        ((relaunchKept (cmd.drop (contiguousAnchor [c] cmd))).map some ++ [none]) ∧
      ∃ copied : List Int,
        copyRelaunch (sentinel cmd) ((sentinel cmd).length + 1)
          ((contiguousAnchor [c] cmd : Nat) : Int) = some copied ∧
        r = g.program :: (copied.map (fun i => rd (sentinel cmd) i) ++ [none]) ∧
        ∀ i ∈ copied, ((contiguousAnchor [c] cmd : Nat) : Int) ≤ i ∧ i < cmd.length) ∧
    (cmd ≠ [] → ∃ r, getRelaunchCommand g (sentinel cmd) = some r) := by
  have hbegin : relaunchBegin g (sentinel cmd) =
      some ((contiguousAnchor [c] cmd : Nat) : Int) := by
    rw [relaunchBegin_single g cmd c hcp hval, contiguousAnchor_single]
  refine ⟨hbegin, contiguousAnchor_single c cmd, ?_, ?_⟩
  · intro r hr
    by_cases hne : cmd = []
    · rw [hne, getRelaunchCommand_empty] at hr
      exact absurd hr (by simp)
    · obtain ⟨b, copied, scanned, hb, _, _, hc, _, hget, hmap, hbound, hsub, _⟩ :=
        getRelaunchCommand_sentinel g cmd hne
      rw [hbegin] at hb
      have hb2 : ((contiguousAnchor [c] cmd : Nat) : Int) = (b : Int) := Option.some.inj hb
      have hb3 : contiguousAnchor [c] cmd = b := by omega
      rw [hget] at hr
      have hr2 := (Option.some.inj hr).symm
      refine ⟨by rw [hr2, hmap, hb3], copied, by rw [hb2]; exact hc, hr2, ?_⟩
      intro i hi
      have := hbound i (hsub i hi)
      rw [hb2]
      exact this
  · intro hne
    obtain ⟨b, copied, scanned, _, _, _, _, _, hget, _⟩ := getRelaunchCommand_sentinel g cmd hne
    exact ⟨_, hget⟩

/-- C25 in a JNI launch, on a command whose third token equals the marker up to letter case:
the anchor is 3, and the relaunch command is the launcher followed by the tokens from
position 3 on. -/
theorem getRelaunchCommand_anchor_witness :
    relaunchBegin sampleGlobalsJNI (sentinel ["/usr/bin/java".toList, "-Xms40m".toList,
        "-DJAVA.class.path=/opt/eclipse/startup.jar".toList, "-os".toList, "linux".toList])
      = some 3 ∧
    getRelaunchCommand sampleGlobalsJNI (sentinel ["/usr/bin/java".toList, "-Xms40m".toList,
        "-DJAVA.class.path=/opt/eclipse/startup.jar".toList, "-os".toList, "linux".toList])
      = some (sentinel ["/opt/eclipse/eclipse".toList, "-os".toList, "linux".toList]) := by
  have h := (getRelaunchCommand_anchor sampleGlobalsJNI ["/usr/bin/java".toList,
    "-Xms40m".toList, "-DJAVA.class.path=/opt/eclipse/startup.jar".toList, "-os".toList,
    "linux".toList] (CLASSPATH_PREFIX ++ "/opt/eclipse/startup.jar".toList) rfl rfl).1
  refine ⟨?_, by decide⟩
  rw [h]
  decide

end Eclipse

namespace Eclipse

/-! ## The array accesses of `getRelaunchCommand` -/

theorem firstLoopReads_succ (vmCommand : List (Option Str)) (fuel : Nat) (i : Int) :
    firstLoopReads vmCommand (fuel + 1) i =
      (i + 1) ::
        (match rd vmCommand (i + 1) with
          | none => []
          | some _ => firstLoopReads vmCommand fuel (i + 1)) := rfl

theorem copyLoopReads_succ (vmCommand : List (Option Str)) (fuel : Nat) (i : Int) :
    copyLoopReads vmCommand (fuel + 1) i =
      i ::
        (match rd vmCommand i with
          | none => []
          | some arg =>
            if tcsicmpEq arg SHOWSPLASH then
              (i + 1) ::
                (match rd vmCommand (i + 1) with
                  | some next =>
                    if firstCharIs next '-' then copyLoopReads vmCommand fuel (i + 1 + 1)
                    else copyLoopReads vmCommand fuel (i + 1)
                  | none => copyLoopReads vmCommand fuel (i + 1))
            else copyLoopReads vmCommand fuel (i + 1)) := rfl

/-- The first loop reads no slot behind the sentinel. -/
theorem firstLoopReads_bound (cmd : List Str) (fuel j : Nat) (hj : j ≤ cmd.length) :
    ∀ i ∈ firstLoopReads (sentinel cmd) fuel ((j : Int) - 1),
      (j : Int) ≤ i ∧ i ≤ cmd.length := by
  induction fuel generalizing j with
  | zero => simp [firstLoopReads]
  | succ fuel ih =>
    intro i hi
    rw [firstLoopReads_succ] at hi
    have hidx : (j : Int) - 1 + 1 = (j : Int) := by omega
    rw [hidx, rd_sentinel cmd j hj] at hi
    rcases List.mem_cons.1 hi with h1 | h1
    · omega
    · by_cases hlt : j < cmd.length
      · rw [List.getElem?_eq_getElem hlt] at h1
        simp only [] at h1
        have hrec := ih (j + 1) (by omega) i
        have hnext : ((j + 1 : Nat) : Int) - 1 = (j : Int) := by push_cast; omega
        rw [hnext] at hrec
        have := hrec h1
        push_cast at this
        omega
      · rw [List.getElem?_eq_none (by omega)] at h1
        simp at h1

/-- Entered at a position within the command, the copy loop reads no slot behind the
sentinel. -/
theorem copyLoopReads_bound (cmd : List Str) (fuel j : Nat) (hj : j ≤ cmd.length) :
    ∀ i ∈ copyLoopReads (sentinel cmd) fuel (j : Int), (j : Int) ≤ i ∧ i ≤ cmd.length := by
  induction fuel generalizing j with
  | zero => simp [copyLoopReads]
  | succ fuel ih =>
    intro i hi
    rw [copyLoopReads_succ] at hi
    rw [rd_sentinel cmd j hj] at hi
    rcases List.mem_cons.1 hi with h1 | h1
    · omega
    · by_cases hlt : j < cmd.length
      · rw [List.getElem?_eq_getElem hlt] at h1
        simp only [] at h1
        have hc1 : (j : Int) + 1 = ((j + 1 : Nat) : Int) := by push_cast; rfl
        have hc2 : (j : Int) + 1 + 1 = ((j + 1 + 1 : Nat) : Int) := by push_cast; rfl
        have hrec1 := ih (j + 1) (by omega) i
        by_cases hs : tcsicmpEq cmd[j] SHOWSPLASH = true
        · rw [if_pos hs, hc1, rd_sentinel cmd (j + 1) (by omega)] at h1
          rcases List.mem_cons.1 h1 with h2 | h2
          · omega
          · by_cases hlt2 : j + 1 < cmd.length
            · rw [List.getElem?_eq_getElem hlt2] at h2
              simp only [] at h2
              have hrec2 := ih (j + 1 + 1) (by omega) i
              have e1 : ((j + 1 : Nat) : Int) + 1 = ((j + 1 + 1 : Nat) : Int) := by
                push_cast
                rfl
              rw [e1] at h2
              by_cases hd : firstCharIs cmd[j + 1] '-' = true
              · rw [if_pos hd] at h2
                have := hrec2 h2
                omega
              · rw [if_neg hd] at h2
                have := hrec1 h2
                omega
            · rw [List.getElem?_eq_none (by omega)] at h2
              simp only [] at h2
              have := hrec1 h2
              omega
        · rw [if_neg hs, hc1] at h1
          have := hrec1 h1
          omega
      · rw [List.getElem?_eq_none (by omega)] at h1
        simp at h1

theorem relaunchKept_length (l : List Str) : (relaunchKept l).length ≤ l.length := by
  have key : ∀ n (l : List Str), l.length ≤ n → (relaunchKept l).length ≤ l.length := by
    intro n
    induction n with
    | zero =>
      intro l hl
      have : l = [] := List.length_eq_zero.1 (by omega)
      subst this
      simp [relaunchKept]
    | succ n ih =>
      intro l hl
      cases l with
      | nil => simp [relaunchKept]
      | cons a l =>
        have hl2 : l.length ≤ n := by simpa using hl
        rw [relaunchKept_cons]
        have h1 := ih l hl2
        split_ifs
        · cases l with
          | nil => simp
          | cons nx rest =>
            simp only []
            have h2 := ih rest (by simp at hl2; omega)
            split_ifs
            · simp only [List.length_cons]
              omega
            · simp only [List.length_cons] at h1 ⊢
              omega
        · simp only [List.length_cons]
          omega
        · simp only [List.length_cons]
          omega
  exact key l.length l (Nat.le_refl _)

/-- On a command with at least one token, every slot `getRelaunchCommand` reads lies at or
before the sentinel, and every slot it writes lies within the `1 + n + 1` slots it
allocates. -/
theorem getRelaunchCommand_accesses (g : Globals) (cmd : List Str) (hne : cmd ≠ []) :
    (∀ i ∈ getRelaunchReads g (sentinel cmd), 0 ≤ i ∧ i ≤ cmd.length) ∧
    getRelaunchSlots (sentinel cmd) = 1 + cmd.length + 1 ∧
    ∃ writes, getRelaunchWrites g (sentinel cmd) = some writes ∧
      ∀ k ∈ writes, k < getRelaunchSlots (sentinel cmd) := by
  obtain ⟨b, copied, scanned, hb, hb1, hbn, hc, _, _, hmap, _⟩ :=
    getRelaunchCommand_sentinel g cmd hne
  have hslots : getRelaunchSlots (sentinel cmd) = 1 + cmd.length + 1 := by
    unfold getRelaunchSlots
    rw [tokens_sentinel]
  refine ⟨?_, hslots, ?_⟩
  · intro i hi
    unfold getRelaunchReads at hi
    rw [hb] at hi
    rcases List.mem_append.1 hi with h1 | h1
    · have h0 : (-1 : Int) = ((0 : Nat) : Int) - 1 := by simp
      rw [h0] at h1
      have := firstLoopReads_bound cmd _ 0 (by omega) i h1
      omega
    · have := copyLoopReads_bound cmd _ b hbn i h1
      omega
  · unfold getRelaunchWrites
    rw [hb]
    simp only []
    rw [hc]
    refine ⟨_, rfl, ?_⟩
    intro k hk
    have hlen : copied.length = (relaunchKept (cmd.drop b)).length := by
      have := congrArg List.length hmap
      simpa using this
    have hle := relaunchKept_length (cmd.drop b)
    rw [List.length_drop] at hle
    rw [hslots]
    have := List.mem_range.1 hk
    omega

/-- C27 on the empty command, which `parseArgList` returns for an empty payload and `run`
passes on after exit code 24 in a JNI launch: the array has the single slot 0, holding the
sentinel, and 2 slots are allocated for the result; the first loop reads slot 0, then the
copy loop starts at `begin = 1` and reads slot 1, behind the sentinel and outside the array,
so that neither the result nor the slots written are defined. -/
theorem getRelaunchCommand_reads_past_sentinel :
    (parseArgList []).length = 1 ∧
    rd (parseArgList []) 0 = none ∧
    getRelaunchSlots (parseArgList []) = 2 ∧
    getRelaunchReads sampleGlobalsJNI (parseArgList []) = [0, 1] ∧
    getRelaunchWrites sampleGlobalsJNI (parseArgList []) = none ∧
    runStep ⟨24, some []⟩ sampleRunJNI = none := by
  decide

end Eclipse
